import Mathlib

/-!
# FSM: a table-driven finite-state-machine engine

A shallow embedding of `src/include/fsm.h` and `src/src/fsm.c`.

Conventions of the embedding.

* Machine integers (`uint8_t`, `uint32_t`, `size_t`) are natural numbers.  No
  arithmetic of the engine can overflow: it only compares, copies, shifts a
  constant one and takes a bitwise and.
* A pointer is an `Option Nat`: `none` is `NULL`, `some a` is the address `a`.
* The rule tables are `const` data.  They live in a read-only store `rom`
  that maps the address of a table to the array found there; reading the
  array at an index past its end is a fault.
* A guard or an action is an arbitrary function of the machine it is handed,
  the event data pointer and the caller's memory `W`; it returns the machine
  and the memory as it leaves them (and, for a guard, its `int` result).
* `unsigned long` has `ulong_bits` bits, a parameter of the platform (C
  guarantees at least 32).  Shifting `1UL` by `ulong_bits` or more is
  undefined in C and is a fault here.
* Every call of the engine reports, besides its C result, the list of
  callback invocations it made, in order.
-/

namespace FSM

/-! ## Data model (`fsm.h`) -/

/-- Result codes for FSM operations, `fsm_result_t` (fsm.h:34-49). -/
inductive fsm_result_t where
  | FSM_RESULT_SUCCESS
  | FSM_RESULT_GUARD_DENIED
  | FSM_RESULT_NO_TRANSITION_FOR_STATE
  | FSM_RESULT_EVENT_OUT_OF_BOUNDS
  | FSM_RESULT_STATE_OUT_OF_BOUNDS
  | FSM_RESULT_INVALID_PARAMS
  deriving DecidableEq, Repr

open fsm_result_t

/-- Numeric code of a result, the first column of `FSM_RESULT_FOREACH`. -/
def fsm_result_t.code : fsm_result_t → Nat
  | FSM_RESULT_SUCCESS => 0x00
  | FSM_RESULT_GUARD_DENIED => 0x01
  | FSM_RESULT_NO_TRANSITION_FOR_STATE => 0x02
  | FSM_RESULT_EVENT_OUT_OF_BOUNDS => 0x03
  | FSM_RESULT_STATE_OUT_OF_BOUNDS => 0x04
  | FSM_RESULT_INVALID_PARAMS => 0x05

/-- Maximum number of states supported by the FSM (fsm.h:54). -/
def FSM_MAX_STATES : Nat := 32

/-- FSM instance, `fsm_t` (fsm.h:87-92).  The table is held by address. -/
structure fsm_t where
  userdata : Option Nat
  transition_rules : Option Nat
  transition_count : Nat
  current_state : Nat
  deriving DecidableEq, Repr

/-- Guard function, `fsm_guard_t` (fsm.h:69): `int (*)(struct fsm*, void*)`.
It returns its `int`, the machine and the memory as it leaves them. -/
abbrev fsm_guard_t (W : Type) : Type := fsm_t → Option Nat → W → Int × fsm_t × W

/-- Action function, `fsm_action_t` (fsm.h:61): `void (*)(struct fsm*, void*)`.
It returns the machine and the memory as it leaves them. -/
abbrev fsm_action_t (W : Type) : Type := fsm_t → Option Nat → W → fsm_t × W

/-- A single transition rule, `fsm_transition_t` (fsm.h:75-81).  A `NULL`
callback is `none`. -/
structure fsm_transition_t (W : Type) where
  guard : Option (fsm_guard_t W)
  action : Option (fsm_action_t W)
  source_states_mask : Nat
  target_state : Nat
  event : Nat

/-- Ways a call can fail to return: a failed `assert`, a read past the end of
the rule array, a shift of `1UL` by at least the width of `unsigned long`. -/
inductive fault where
  | assertion_failed
  | out_of_bounds
  | shift_too_wide
  deriving DecidableEq, Repr

/-- One callback invocation: which rule's callback (by table index), the
machine it was handed and the event data it was handed. -/
inductive callback_call where
  | guard (rule_index : Nat) (self : fsm_t) (data : Option Nat)
  | action (rule_index : Nat) (self : fsm_t) (data : Option Nat)
  deriving DecidableEq, Repr

/-- What a returning call of `fsm_process_event` leaves behind: its result,
the machine, the caller's memory, and the callbacks it invoked, in order. -/
structure outcome (W : Type) where
  result : fsm_result_t
  self : fsm_t
  world : W
  calls : List callback_call

/-! ## Macros -/

/-- Macro `FSM_STATE_MASK(state)`, that is `(1UL << (state))` (fsm.h:99);
`none` when the shift count is not below the width of `unsigned long`. -/
def FSM_STATE_MASK (ulong_bits state : Nat) : Option Nat :=
  if state < ulong_bits then some (1 <<< state) else none

/-- Macro `FSM_STATE_IN_MASK(state, mask)`, that is
`((mask & FSM_STATE_MASK(state)) != 0)` (fsm.c:29). -/
def FSM_STATE_IN_MASK (ulong_bits state mask : Nat) : Option Bool :=
  match FSM_STATE_MASK ulong_bits state with
  | some bit => some ((mask &&& bit) != 0)
  | none => none

/-- One operand `((s) ? FSM_STATE_MASK(s) : 0)` of `__FSM_STATE_MASK_HELPER`
(fsm.h:108-110): the bit of `s` when `s` is non-zero, and 0 when `s` is 0. -/
def mask_operand (ulong_bits s : Nat) : Option Nat :=
  if s ≠ 0 then FSM_STATE_MASK ulong_bits s else some 0

/-- Macro `__FSM_STATE_MASK_HELPER(s1, ..., s8, ...)` (fsm.h:107-110): the bit
of `s1` or-ed with the operands of `s2` to `s8`; arguments after the eighth
are dropped.  No result when one of the shifts is undefined. -/
def __FSM_STATE_MASK_HELPER (ulong_bits s1 s2 s3 s4 s5 s6 s7 s8 : Nat) : Option Nat := do
  let m1 ← FSM_STATE_MASK ulong_bits s1
  let m2 ← mask_operand ulong_bits s2
  let m3 ← mask_operand ulong_bits s3
  let m4 ← mask_operand ulong_bits s4
  let m5 ← mask_operand ulong_bits s5
  let m6 ← mask_operand ulong_bits s6
  let m7 ← mask_operand ulong_bits s7
  let m8 ← mask_operand ulong_bits s8
  pure (m1 ||| m2 ||| m3 ||| m4 ||| m5 ||| m6 ||| m7 ||| m8)

/-- Macro `FSM_STATES_MASK(...)` (fsm.h:106): the helper applied to the
arguments followed by seven zeros.  With no argument at all the expansion is
not an expression, hence no result. -/
def FSM_STATES_MASK (ulong_bits : Nat) (args : List Nat) : Option Nat :=
  match args ++ [0, 0, 0, 0, 0, 0, 0] with
  | s1 :: s2 :: s3 :: s4 :: s5 :: s6 :: s7 :: s8 :: _ =>
    __FSM_STATE_MASK_HELPER ulong_bits s1 s2 s3 s4 s5 s6 s7 s8
  | _ => none

/-! ## `fsm_init` (fsm.c:31-46) -/

/-- The validation loop of `fsm_init` (fsm.c:36-40), from index `i` with
`n` iterations left: `false` as soon as a rule has
`target_state >= FSM_MAX_STATES`, `true` when the loop runs to its end. -/
def fsm_init_scan {W : Type} (rules : List (fsm_transition_t W)) :
    Nat → Nat → Except fault Bool
  | 0, _ => .ok true
  | n + 1, i =>
    match rules[i]? with
    | none => .error fault.out_of_bounds
    | some rule =>
      if rule.target_state ≥ FSM_MAX_STATES then .ok false
      else fsm_init_scan rules n (i + 1)

/-- Function `fsm_init` (fsm.c:31-46).  `self` is the machine `self` points to
as it is before the call (`none` for a `NULL` pointer); the result carries the
machine as it is after the call. -/
def fsm_init {W : Type} (rom : Nat → List (fsm_transition_t W)) (self : Option fsm_t)
    (initial_state : Nat) (transition_rules : Option Nat) (transition_count : Nat) :
    Except fault (fsm_result_t × Option fsm_t) :=
  match self, transition_rules with
  | some m, some p =>
    if transition_count = 0 then .ok (FSM_RESULT_INVALID_PARAMS, self)
    else
      match fsm_init_scan (rom p) transition_count 0 with
      | .error e => .error e
      | .ok false => .ok (FSM_RESULT_INVALID_PARAMS, self)
      | .ok true =>
        .ok (FSM_RESULT_SUCCESS,
          some { m with
            current_state := initial_state
            transition_rules := some p
            transition_count := transition_count })
  | _, _ => .ok (FSM_RESULT_INVALID_PARAMS, self)

/-! ## `fsm_process_event` (fsm.c:48-67) -/

/-- Lines 59-63 of fsm.c: commit the target state, then run the action if the
rule has one, and return `FSM_RESULT_SUCCESS`.  `calls` are the invocations
made so far. -/
def fsm_commit {W : Type} (i : Nat) (rule : fsm_transition_t W) (self : fsm_t)
    (data : Option Nat) (w : W) (calls : List callback_call) : outcome W :=
  let self1 : fsm_t := { self with current_state := rule.target_state }
  match rule.action with
  | some a =>
    ⟨FSM_RESULT_SUCCESS, (a self1 data w).1, (a self1 data w).2,
      calls ++ [callback_call.action i self1 data]⟩
  | none => ⟨FSM_RESULT_SUCCESS, self1, w, calls⟩

/-- Lines 54-63 of fsm.c, the body run for the rule at index `i` once it is
selected: the guard if there is one (a non-zero result returns
`FSM_RESULT_GUARD_DENIED`), then the commit and the action. -/
def fsm_fire {W : Type} (i : Nat) (rule : fsm_transition_t W) (self : fsm_t)
    (data : Option Nat) (w : W) : outcome W :=
  match rule.guard with
  | some g =>
    if (g self data w).1 ≠ 0 then
      ⟨FSM_RESULT_GUARD_DENIED, (g self data w).2.1, (g self data w).2.2,
        [callback_call.guard i self data]⟩
    else
      fsm_commit i rule (g self data w).2.1 data (g self data w).2.2
        [callback_call.guard i self data]
  | none => fsm_commit i rule self data w []

/-- The loop of `fsm_process_event` (fsm.c:51-66), from index `i` with `n`
iterations left.  The event is compared first; the mask is tested only when
the event is equal (`&&` short-circuits). -/
def fsm_process_event_loop {W : Type} (ulong_bits : Nat) (rules : List (fsm_transition_t W))
    (self : fsm_t) (event : Nat) (data : Option Nat) (w : W) :
    Nat → Nat → Except fault (outcome W)
  | 0, _ => .ok ⟨FSM_RESULT_NO_TRANSITION_FOR_STATE, self, w, []⟩
  | n + 1, i =>
    match rules[i]? with
    | none => .error fault.out_of_bounds
    | some rule =>
      if rule.event = event then
        match FSM_STATE_IN_MASK ulong_bits self.current_state rule.source_states_mask with
        | none => .error fault.shift_too_wide
        | some true => .ok (fsm_fire i rule self data w)
        | some false => fsm_process_event_loop ulong_bits rules self event data w n (i + 1)
      else fsm_process_event_loop ulong_bits rules self event data w n (i + 1)

/-- Function `fsm_process_event` (fsm.c:48-67).  `self` is the machine a
non-null `self` points to; `assert(self->transition_rules)` fails on a `NULL`
table. -/
def fsm_process_event {W : Type} (ulong_bits : Nat) (rom : Nat → List (fsm_transition_t W))
    (self : fsm_t) (event : Nat) (data : Option Nat) (w : W) : Except fault (outcome W) :=
  match self.transition_rules with
  | none => .error fault.assertion_failed
  | some p =>
    fsm_process_event_loop ulong_bits (rom p) self event data w self.transition_count 0

/-- Function `fsm_current_state` (fsm.c:69-72). -/
def fsm_current_state (self : fsm_t) : Nat := self.current_state

/-- Function `fsm_userdata` (fsm.c:74-77). -/
def fsm_userdata (self : fsm_t) : Option Nat := self.userdata

/-- Function `fsm_set_userdata` (fsm.c:79-82). -/
def fsm_set_userdata (self : fsm_t) (userdata : Option Nat) : fsm_t :=
  { self with userdata := userdata }

/-- Function `fsm_result_string` (fsm.c:84-92): the `switch` over the cases
that `FSM_RESULT_FOREACH` generates, with `default: return "Unknown"`.  The
argument is the integer value of the `fsm_result_t` passed. -/
def fsm_result_string (result : Int) : String :=
  if result = 0x00 then "Success"
  else if result = 0x01 then "Guard denied"
  else if result = 0x02 then "No transition for state"
  else if result = 0x03 then "Event out of bounds"
  else if result = 0x04 then "State out of bounds"
  else if result = 0x05 then "Invalid parameters"
  else "Unknown"

/-! ## Sequences of calls -/

/-- One call in a sequence of calls: the machine before the call, the event and
the event data passed, and what the call left behind. -/
structure run_step (W : Type) where
  before : fsm_t
  event : Nat
  data : Option Nat
  out : outcome W

/-- A caller that presents the given (event, event data) pairs to the machine
one after the other with `fsm_process_event`, each call starting from the
machine and the memory the previous one left.  The run stops at the first call
that does not return. -/
def fsm_run {W : Type} (ulong_bits : Nat) (rom : Nat → List (fsm_transition_t W)) :
    fsm_t → W → List (Nat × Option Nat) → Except fault (List (run_step W))
  | _, _, [] => .ok []
  | self, w, (event, data) :: rest =>
    match fsm_process_event ulong_bits rom self event data w with
    | .error e => .error e
    | .ok out =>
      match fsm_run ulong_bits rom out.self out.world rest with
      | .error e => .error e
      | .ok steps => .ok (⟨self, event, data, out⟩ :: steps)

/-! ## Vocabulary of the specification -/

/-- Membership of a state in a source mask, in the words of the specification:
bit `state` of the mask is set. -/
def state_in_mask (state mask : Nat) : Bool := mask.testBit state

/-- A rule matches the pair (event, state), in the words of the specification:
`rule.event == event` and the state is a member of `rule.source_states_mask`. -/
def rule_matches {W : Type} (rule : fsm_transition_t W) (event state : Nat) : Prop :=
  rule.event = event ∧ state_in_mask state rule.source_states_mask = true

instance rule_matches_decidable {W : Type} (rule : fsm_transition_t W) (event state : Nat) :
    Decidable (rule_matches rule event state) :=
  inferInstanceAs (Decidable (_ ∧ _))

/-- The table of a machine: the first `transition_count` rules of the array its
`transition_rules` points to. -/
def fsm_table {W : Type} (rom : Nat → List (fsm_transition_t W)) (self : fsm_t) :
    List (fsm_transition_t W) :=
  match self.transition_rules with
  | some p => (rom p).take self.transition_count
  | none => []

/-- The machine is well formed as C data: its table pointer is not `NULL` and
the array it points to holds at least `transition_count` rules. -/
def table_readable {W : Type} (rom : Nat → List (fsm_transition_t W)) (self : fsm_t) : Prop :=
  ∃ p, self.transition_rules = some p ∧ self.transition_count ≤ (rom p).length

/-- The rules are well typed: `source_states_mask` is a `uint32_t`. -/
def masks_are_uint32 {W : Type} (rules : List (fsm_transition_t W)) : Prop :=
  ∀ r ∈ rules, r.source_states_mask < 2 ^ 32

/-- Rule `rule` at index `i` is the first rule in table order that matches
(event, state). -/
def first_match {W : Type} (rules : List (fsm_transition_t W)) (event state i : Nat)
    (rule : fsm_transition_t W) : Prop :=
  rules[i]? = some rule ∧ rule_matches rule event state ∧
    ∀ j r, j < i → rules[j]? = some r → ¬ rule_matches r event state

/-- No rule of the table matches (event, state). -/
def no_match {W : Type} (rules : List (fsm_transition_t W)) (event state : Nat) : Prop :=
  ∀ r ∈ rules, ¬ rule_matches r event state

/-- The rule has no guard, or its guard returns 0 on this machine, event data
and memory. -/
def guard_allows {W : Type} (rule : fsm_transition_t W) (self : fsm_t) (data : Option Nat)
    (w : W) : Prop :=
  ∀ g, rule.guard = some g → (g self data w).1 = 0

/-- The rule has a guard and it returns a non-zero value on this machine, event
data and memory. -/
def guard_denies {W : Type} (rule : fsm_transition_t W) (self : fsm_t) (data : Option Nat)
    (w : W) : Prop :=
  ∃ g, rule.guard = some g ∧ (g self data w).1 ≠ 0

/-- The rule's callbacks leave the machine they are handed as they found it. -/
def rule_keeps_machine {W : Type} (r : fsm_transition_t W) : Prop :=
  (∀ g, r.guard = some g → ∀ m d w, (g m d w).2.1 = m) ∧
  (∀ a, r.action = some a → ∀ m d w, (a m d w).1 = m)

/-- No callback of the table writes the machine: every guard and every action
leaves the machine it is handed as it found it. -/
def callbacks_keep_machine {W : Type} (rules : List (fsm_transition_t W)) : Prop :=
  ∀ r ∈ rules, rule_keeps_machine r

/-- Rule index a callback invocation belongs to. -/
def callback_call.index : callback_call → Nat
  | callback_call.guard i _ _ => i
  | callback_call.action i _ _ => i

/-- Whether an invocation is an action invocation. -/
def callback_call.is_action : callback_call → Bool
  | callback_call.guard _ _ _ => false
  | callback_call.action _ _ _ => true

/-- The call recorded in `step` returned `FSM_RESULT_SUCCESS` for a rule of the
table whose target state is `state`: that rule was the first match for the
call's event and the state before the call. -/
def committed_by {W : Type} (rules : List (fsm_transition_t W)) (step : run_step W)
    (state : Nat) : Prop :=
  step.out.result = FSM_RESULT_SUCCESS ∧
    ∃ i r, first_match rules step.event step.before.current_state i r ∧
      r.target_state = state

/-- Event data a callback invocation was handed. -/
def callback_call.data : callback_call → Option Nat
  | callback_call.guard _ _ d => d
  | callback_call.action _ _ d => d

/-- Machine a callback invocation was handed. -/
def callback_call.machine : callback_call → fsm_t
  | callback_call.guard _ m _ => m
  | callback_call.action _ m _ => m

/-- Some rule among the first `count` rules of the array has a target state
that is not below `FSM_MAX_STATES`. -/
def has_bad_target {W : Type} (rules : List (fsm_transition_t W)) (count : Nat) : Prop :=
  ∃ r ∈ rules.take count, FSM_MAX_STATES ≤ r.target_state

/-! ## A sample machine

A three-rule table over a memory that is a single counter, used to exercise
the statements below on concrete inputs.  Rules 0 and 1 both match event 1 in
state 0; rule 1 has a guard that allows while the counter is below 3; rule 2
has a guard that always denies. -/

/-- Action of the sample table: count the invocation in memory. -/
def sample_count : fsm_action_t Nat := fun m _ w => (m, w + 1)

/-- Guard of sample rule 1: allow (0) while the counter is below 3. -/
def sample_guard_limit : fsm_guard_t Nat := fun m _ w => (if w < 3 then 0 else -1, m, w)

/-- Guard of sample rule 2: always deny, with a positive result. -/
def sample_guard_deny : fsm_guard_t Nat := fun m _ w => (5, m, w)

/-- Sample rule 0: event 1 from state 0 to state 1, no guard, counting action. -/
def sample_rule0 : fsm_transition_t Nat :=
  { guard := none, action := some sample_count, source_states_mask := 0b001,
    target_state := 1, event := 1 }

/-- Sample rule 1: event 1 from states 0 and 1 to state 2, limited by a guard. -/
def sample_rule1 : fsm_transition_t Nat :=
  { guard := some sample_guard_limit, action := none, source_states_mask := 0b011,
    target_state := 2, event := 1 }

/-- Sample rule 2: event 2 from states 1 and 2 to state 0, always denied. -/
def sample_rule2 : fsm_transition_t Nat :=
  { guard := some sample_guard_deny, action := some sample_count,
    source_states_mask := 0b110, target_state := 0, event := 2 }

/-- The sample table. -/
def sample_rules : List (fsm_transition_t Nat) := [sample_rule0, sample_rule1, sample_rule2]

/-- Read-only store holding the sample table at address 7. -/
def sample_rom : Nat → List (fsm_transition_t Nat) := fun a =>
  if a = 7 then sample_rules else []

/-- A machine over the sample table in the given state. -/
def sample_fsm (state : Nat) : fsm_t :=
  { userdata := none, transition_rules := some 7, transition_count := 3,
    current_state := state }

/-! ## The example programs

The examples supply states, events, a context structure, callbacks and a
table.  Their `int`s are integers (the callbacks only copy, compare, add and
subtract them; signed overflow, undefined in C, is not modelled), `printf` is
left out, and the memory the callbacks work on holds the context objects by
address.  A callback handed a `NULL` user context or event data, which it
would dereference, is modelled as doing nothing (a guard then denies). -/

/-- The value a `source_states_mask` field holds when initialised with a mask
macro: the macro's `unsigned long` value converted to `uint32_t` (0 where the
expression has no value). -/
def mask_field (m : Option Nat) : Nat := m.getD 0 % 2 ^ 32

/-- Writing the object at address `a` of a memory of objects. -/
def store {T : Type} (mem : Nat → T) (a : Nat) (v : T) : Nat → T :=
  fun b => if b = a then v else mem b

namespace traffic_light

/-- Enumerator `STATE_RED` of `light_state_t` (traffic_light.c:8-14). -/
def STATE_RED : Nat := 0
/-- Enumerator `STATE_GREEN`. -/
def STATE_GREEN : Nat := 1
/-- Enumerator `STATE_YELLOW`. -/
def STATE_YELLOW : Nat := 2
/-- Enumerator `STATE_EMERGENCY`. -/
def STATE_EMERGENCY : Nat := 3

/-- Enumerator `EVENT_TIMEOUT` of `light_event_t` (traffic_light.c:17-22). -/
def EVENT_TIMEOUT : Nat := 0
/-- Enumerator `EVENT_EMERGENCY`. -/
def EVENT_EMERGENCY : Nat := 1
/-- Enumerator `EVENT_RESET`. -/
def EVENT_RESET : Nat := 2

/-- Traffic light context data, `light_context_t` (traffic_light.c:25-31). -/
structure light_context_t where
  green_duration : Int
  yellow_duration : Int
  red_duration : Int
  current_timer : Int
  emergency_count : Int
  deriving DecidableEq, Repr

/-- The memory the callbacks work on: the `light_context_t` objects by address. -/
abbrev light_memory : Type := Nat → light_context_t

/-- Function `action_red` (traffic_light.c:34-38). -/
def action_red : fsm_action_t light_memory := fun fsm _ w =>
  match fsm_userdata fsm with
  | some ctx => (fsm, store w ctx { w ctx with current_timer := (w ctx).red_duration })
  | none => (fsm, w)

/-- Function `action_green` (traffic_light.c:41-45). -/
def action_green : fsm_action_t light_memory := fun fsm _ w =>
  match fsm_userdata fsm with
  | some ctx => (fsm, store w ctx { w ctx with current_timer := (w ctx).green_duration })
  | none => (fsm, w)

/-- Function `action_yellow` (traffic_light.c:48-52). -/
def action_yellow : fsm_action_t light_memory := fun fsm _ w =>
  match fsm_userdata fsm with
  | some ctx => (fsm, store w ctx { w ctx with current_timer := (w ctx).yellow_duration })
  | none => (fsm, w)

/-- Function `action_emergency` (traffic_light.c:55-59). -/
def action_emergency : fsm_action_t light_memory := fun fsm _ w =>
  match fsm_userdata fsm with
  | some ctx =>
    (fsm, store w ctx { w ctx with emergency_count := (w ctx).emergency_count + 1 })
  | none => (fsm, w)

/-- Function `action_reset` (traffic_light.c:62-64): it only prints. -/
def action_reset : fsm_action_t light_memory := fun fsm _ w => (fsm, w)

/-- Function `guard_emergency` (traffic_light.c:67-76): 1 when
`ctx->emergency_count >= 3`, else 0. -/
def guard_emergency : fsm_guard_t light_memory := fun fsm _ w =>
  match fsm_userdata fsm with
  | some ctx => if (w ctx).emergency_count ≥ 3 then (1, fsm, w) else (0, fsm, w)
  | none => (1, fsm, w)

/-- The table `transitions` of `main` (traffic_light.c:88-124), in its order. -/
def transitions (ulong_bits : Nat) : List (fsm_transition_t light_memory) :=
  [ { event := EVENT_TIMEOUT
      source_states_mask := mask_field (FSM_STATES_MASK ulong_bits [STATE_RED])
      target_state := STATE_GREEN
      guard := none
      action := some action_green },
    { event := EVENT_TIMEOUT
      source_states_mask := mask_field (FSM_STATES_MASK ulong_bits [STATE_GREEN])
      target_state := STATE_YELLOW
      guard := none
      action := some action_yellow },
    { event := EVENT_TIMEOUT
      source_states_mask := mask_field (FSM_STATES_MASK ulong_bits [STATE_YELLOW])
      target_state := STATE_RED
      guard := none
      action := some action_red },
    { event := EVENT_EMERGENCY
      source_states_mask :=
        mask_field (FSM_STATES_MASK ulong_bits [STATE_RED, STATE_GREEN, STATE_YELLOW])
      target_state := STATE_EMERGENCY
      guard := some guard_emergency
      action := some action_emergency },
    { event := EVENT_RESET
      source_states_mask := mask_field (FSM_STATES_MASK ulong_bits [STATE_EMERGENCY])
      target_state := STATE_RED
      guard := none
      action := some action_reset } ]

/-- Address of the table `transitions`. -/
def transitions_addr : Nat := 1

/-- Address of the context `light_ctx` of `main`. -/
def light_ctx_addr : Nat := 2

/-- Read-only store of the program: the table at its address. -/
def rom (ulong_bits : Nat) : Nat → List (fsm_transition_t light_memory) := fun a =>
  if a = transitions_addr then transitions ulong_bits else []

/-- The machine of `main` once `fsm_init(&fsm, ..., transitions, 5)` and
`fsm_set_userdata(&fsm, &light_ctx)` are done (traffic_light.c:126-133), in the
given state. -/
def light_fsm (state : Nat) : fsm_t :=
  { userdata := some light_ctx_addr, transition_rules := some transitions_addr,
    transition_count := 5, current_state := state }

/-- The context `light_ctx` as `main` initialises it (traffic_light.c:80-86). -/
def light_ctx : light_context_t :=
  { green_duration := 30, yellow_duration := 5, red_duration := 20, current_timer := 0,
    emergency_count := 0 }

/-- The memory of `main` at the first event: `light_ctx` at its address. -/
def main_memory : light_memory := fun _ => light_ctx

/-- The state the light shows after the `n`-th consecutive timeout from red. -/
def state_after_timeouts (n : Nat) : Nat :=
  if n % 3 = 1 then STATE_GREEN else if n % 3 = 2 then STATE_YELLOW else STATE_RED

end traffic_light

namespace vending_machine

/-- Enumerator `STATE_IDLE` of `State` (vending_machine.c:9-14). -/
def STATE_IDLE : Nat := 0
/-- Enumerator `STATE_ACCEPTING`. -/
def STATE_ACCEPTING : Nat := 1
/-- Enumerator `STATE_DISPENSING`. -/
def STATE_DISPENSING : Nat := 2

/-- Enumerator `EVENT_INSERT_COIN` of `Event` (vending_machine.c:26-32). -/
def EVENT_INSERT_COIN : Nat := 0
/-- Enumerator `EVENT_SELECT_ITEM`. -/
def EVENT_SELECT_ITEM : Nat := 1
/-- Enumerator `EVENT_DISPENSE_DONE`. -/
def EVENT_DISPENSE_DONE : Nat := 2
/-- Enumerator `EVENT_CANCEL`. -/
def EVENT_CANCEL : Nat := 3

/-- Item id `ITEM_WATER_ID` (vending_machine.c:43-46). -/
def ITEM_WATER_ID : Int := 0
/-- Item id `ITEM_SODA_ID`. -/
def ITEM_SODA_ID : Int := 1
/-- Item id `ITEM_JUICE_ID`. -/
def ITEM_JUICE_ID : Int := 2
/-- Number of items `ITEM_COUNT`. -/
def ITEM_COUNT : Int := 3

/-- One entry of `items` in `VendingMachineContext`: name, price, stock. -/
structure vending_item where
  name : String
  price : Int
  count : Int

/-- Vending machine user data, `VendingMachineContext` (vending_machine.c:52-61).
The array `items[ITEM_COUNT]` is read at the indices 0, 1, 2 only; a `NULL`
message is `none`. -/
structure VendingMachineContext where
  current_balance : Int
  selected_item_id : Int
  items : Nat → vending_item
  message : Option String

/-- The memory the callbacks work on: the context objects by address, and the
`int` objects event data points to, by address. -/
structure vending_memory where
  contexts : Nat → VendingMachineContext
  ints : Nat → Int

/-- Writing the context at address `ctx`. -/
def set_context (w : vending_memory) (ctx : Nat) (c : VendingMachineContext) :
    vending_memory :=
  { w with contexts := store w.contexts ctx c }

/-- Function `can_dispense_guard` (vending_machine.c:173-194): 1 for an invalid
item id, an item out of stock or a balance below the price, else 0. -/
def can_dispense_guard : fsm_guard_t vending_memory := fun fsm data w =>
  match fsm_userdata fsm, data with
  | some ctx, some d =>
    let selected_id := w.ints d
    let c0 : VendingMachineContext := { w.contexts ctx with message := none }
    if selected_id < 0 ∨ selected_id ≥ ITEM_COUNT then
      (1, fsm, set_context w ctx { c0 with message := some "Invalid selection." })
    else
      let c1 : VendingMachineContext := { c0 with selected_item_id := selected_id }
      if (c1.items selected_id.toNat).count ≤ 0 then
        (1, fsm, set_context w ctx { c1 with message := some "Item sold out." })
      else if c1.current_balance < (c1.items selected_id.toNat).price then
        (1, fsm, set_context w ctx { c1 with message := some "Insufficient balance." })
      else (0, fsm, set_context w ctx c1)
  | _, _ => (1, fsm, w)

/-- Function `add_coin_action` (vending_machine.c:196-202). -/
def add_coin_action : fsm_action_t vending_memory := fun fsm data w =>
  match fsm_userdata fsm, data with
  | some ctx, some d =>
    let coin_value := w.ints d
    let c := w.contexts ctx
    (fsm, set_context w ctx
      { c with current_balance := c.current_balance + coin_value
               message := some "Coin accepted." })
  | _, _ => (fsm, w)

/-- Function `start_dispense_action` (vending_machine.c:204-214).  It indexes
`items` with `selected_item_id`, which `can_dispense_guard` has set to a valid
id whenever the engine runs this action; with an id outside the array it is
modelled as doing nothing. -/
def start_dispense_action : fsm_action_t vending_memory := fun fsm _ w =>
  match fsm_userdata fsm with
  | some ctx =>
    let c := w.contexts ctx
    let selected_id := c.selected_item_id
    if 0 ≤ selected_id ∧ selected_id < ITEM_COUNT then
      let item := c.items selected_id.toNat
      let item1 : vending_item := { item with count := item.count - 1 }
      (fsm, set_context w ctx
        { c with items := store c.items selected_id.toNat item1
                 current_balance := c.current_balance - item.price })
    else (fsm, w)
  | none => (fsm, w)

/-- Function `return_change_action` (vending_machine.c:216-224). -/
def return_change_action : fsm_action_t vending_memory := fun fsm _ w =>
  match fsm_userdata fsm with
  | some ctx =>
    let c := w.contexts ctx
    let c1 : VendingMachineContext :=
      if c.current_balance > 0 then { c with current_balance := 0 } else c
    (fsm, set_context w ctx
      { c1 with message := some "Thank you! Please take your item." })
  | none => (fsm, w)

/-- Function `refund_action` (vending_machine.c:226-234). -/
def refund_action : fsm_action_t vending_memory := fun fsm _ w =>
  match fsm_userdata fsm with
  | some ctx =>
    let c := w.contexts ctx
    let c1 : VendingMachineContext :=
      if c.current_balance > 0 then { c with current_balance := 0 } else c
    (fsm, set_context w ctx
      { c1 with message := some "Transaction cancelled. Coins returned." })
  | none => (fsm, w)

/-- The table `transitions` (vending_machine.c:76-106), in its order. -/
def transitions (ulong_bits : Nat) : List (fsm_transition_t vending_memory) :=
  [ { event := EVENT_INSERT_COIN
      guard := none
      action := some add_coin_action
      source_states_mask :=
        mask_field (FSM_STATES_MASK ulong_bits [STATE_IDLE, STATE_ACCEPTING])
      target_state := STATE_ACCEPTING },
    { event := EVENT_SELECT_ITEM
      guard := some can_dispense_guard
      action := some start_dispense_action
      source_states_mask := mask_field (FSM_STATE_MASK ulong_bits STATE_ACCEPTING)
      target_state := STATE_DISPENSING },
    { event := EVENT_DISPENSE_DONE
      guard := none
      action := some return_change_action
      source_states_mask := mask_field (FSM_STATE_MASK ulong_bits STATE_DISPENSING)
      target_state := STATE_IDLE },
    { event := EVENT_CANCEL
      guard := none
      action := some refund_action
      source_states_mask := mask_field (FSM_STATE_MASK ulong_bits STATE_ACCEPTING)
      target_state := STATE_IDLE } ]

/-- Address of the table `transitions`. -/
def transitions_addr : Nat := 1

/-- Address of the object `context` of `main`. -/
def context_addr : Nat := 2

/-- Read-only store of the program: the table at its address. -/
def rom (ulong_bits : Nat) : Nat → List (fsm_transition_t vending_memory) := fun a =>
  if a = transitions_addr then transitions ulong_bits else []

/-- The machine of `main` once `fsm_init(&fsm, ..., transitions, 4)` and
`fsm_set_userdata(&fsm, &context)` are done (vending_machine.c:124-129), in the
given state. -/
def vending_fsm (state : Nat) : fsm_t :=
  { userdata := some context_addr, transition_rules := some transitions_addr,
    transition_count := 4, current_state := state }

/-- The select-item rule, the second rule of `transitions`, with its mask
computed for a 32-bit `unsigned long`. -/
def select_rule : fsm_transition_t vending_memory :=
  { event := EVENT_SELECT_ITEM
    guard := some can_dispense_guard
    action := some start_dispense_action
    source_states_mask := mask_field (FSM_STATE_MASK 32 STATE_ACCEPTING)
    target_state := STATE_DISPENSING }

/-- The guard's reasons to deny the selection `id` on the context `c`: an
invalid id, no stock, or a balance below the price. -/
def cannot_dispense (c : VendingMachineContext) (id : Int) : Prop :=
  id < 0 ∨ id ≥ ITEM_COUNT ∨ (c.items id.toNat).count ≤ 0 ∨
    c.current_balance < (c.items id.toNat).price

/-- The object `context` as `main` initialises it (vending_machine.c:111-121):
Water 10/5, Soda 15/3, Juice 20/0. -/
def main_context : VendingMachineContext :=
  { current_balance := 0
    selected_item_id := -1
    items := fun i =>
      if i = 0 then { name := "Water", price := 10, count := 5 }
      else if i = 1 then { name := "Soda", price := 15, count := 3 }
      else { name := "Juice", price := 20, count := 0 }
    message := some "Welcome! Please insert coins." }

/-- Addresses of the locals `coin_10`, `coin_5`, `item_soda`, `item_juice`,
`item_water` of `main` (vending_machine.c:136-140). -/
def coin_10_addr : Nat := 10
/-- Address of `coin_5`. -/
def coin_5_addr : Nat := 11
/-- Address of `item_soda`. -/
def item_soda_addr : Nat := 12
/-- Address of `item_juice`. -/
def item_juice_addr : Nat := 13
/-- Address of `item_water`. -/
def item_water_addr : Nat := 14

/-- The memory of `main` at the first event. -/
def main_memory : vending_memory :=
  { contexts := fun _ => main_context
    ints := fun a =>
      if a = coin_10_addr then 10
      else if a = coin_5_addr then 5
      else if a = item_soda_addr then ITEM_SODA_ID
      else if a = item_juice_addr then ITEM_JUICE_ID
      else ITEM_WATER_ID }

/-- The first five events of `main` (vending_machine.c:144-151): insert 10,
select Juice, insert 5, select Soda, dispense done. -/
def main_events : List (Nat × Option Nat) :=
  [ (EVENT_INSERT_COIN, some coin_10_addr), (EVENT_SELECT_ITEM, some item_juice_addr),
    (EVENT_INSERT_COIN, some coin_5_addr), (EVENT_SELECT_ITEM, some item_soda_addr),
    (EVENT_DISPENSE_DONE, none) ]

end vending_machine

/-- The value of a list of states in the words of C23: the bit of the first
state, or-ed with the bits of the later states that are not 0. -/
def states_mask_value : List Nat → Nat
  | [] => 0
  | s1 :: rest => rest.foldl (fun acc s => acc ||| (if s ≠ 0 then 2 ^ s else 0)) (2 ^ s1)

/-! ## Further samples -/

/-- A rule whose target state, 32, is not below `FSM_MAX_STATES`. -/
def sample_bad_rule : fsm_transition_t Nat :=
  { guard := none, action := none, source_states_mask := 0b100, target_state := 32,
    event := 3 }

/-- Read-only store holding, at address 8, the sample rules 0 and 1 followed by
the rule with the bad target. -/
def sample_bad_rom : Nat → List (fsm_transition_t Nat) := fun a =>
  if a = 8 then [sample_rule0, sample_rule1, sample_bad_rule] else []

/-- A machine with every field set, as it might be before a call of `fsm_init`. -/
def sample_prior : fsm_t :=
  { userdata := some 99, transition_rules := some 7, transition_count := 3,
    current_state := 2 }

/-! ## Tables and their concatenation -/

/-- The machine with its table fields replaced: the same machine over another
table, as `fsm_init` with that table and count would have set the two fields,
everything else as it is. -/
def with_table (m : fsm_t) (tr : Option Nat) (count : Nat) : fsm_t :=
  { m with transition_rules := tr, transition_count := count }

/-- The array at address `p` starts with the rules `rules`: a machine with
`transition_rules = p` and `transition_count = rules.length` has table `rules`. -/
def holds_table {W : Type} (rom : Nat → List (fsm_transition_t W)) (p : Nat)
    (rules : List (fsm_transition_t W)) : Prop :=
  (rom p).take rules.length = rules

/-- The rule's callbacks neither read nor write the table fields of the machine
they are handed: on the machine with other table fields they return the same
`int`, leave the same memory, and leave the same machine up to those fields. -/
def rule_ignores_table {W : Type} (r : fsm_transition_t W) : Prop :=
  (∀ g, r.guard = some g → ∀ (m : fsm_t) (d : Option Nat) (w : W) (tr : Option Nat) (c : Nat),
    g (with_table m tr c) d w =
      ((g m d w).1, with_table (g m d w).2.1 tr c, (g m d w).2.2)) ∧
  (∀ a, r.action = some a → ∀ (m : fsm_t) (d : Option Nat) (w : W) (tr : Option Nat) (c : Nat),
    a (with_table m tr c) d w = (with_table (a m d w).1 tr c, (a m d w).2))

/-- The same invocation seen from another table: the rule's index moved by
`shift`, the machine handed over with the other table fields. -/
def callback_call.retable (shift : Nat) (tr : Option Nat) (c : Nat) :
    callback_call → callback_call
  | callback_call.guard i m d => callback_call.guard (i + shift) (with_table m tr c) d
  | callback_call.action i m d => callback_call.action (i + shift) (with_table m tr c) d

/-- The same outcome seen from another table: same result, same memory, the
machine and the invocations with the other table fields. -/
def outcome.retable {W : Type} (shift : Nat) (tr : Option Nat) (c : Nat) (o : outcome W) :
    outcome W :=
  ⟨o.result, with_table o.self tr c, o.world, o.calls.map (callback_call.retable shift tr c)⟩

/-- A guard that reads the table of the machine it is handed: it returns
`transition_count - 1`, so it allows exactly when the table has one rule. -/
def sample_guard_count : fsm_guard_t Nat := fun m _ w => ((m.transition_count : Int) - 1, m, w)

/-- A rule for event 1 from state 0 to state 1 under `sample_guard_count`. -/
def sample_rule_count : fsm_transition_t Nat :=
  { guard := some sample_guard_count, action := none, source_states_mask := 0b001,
    target_state := 1, event := 1 }

/-- Read-only store holding `sample_rule_count` followed by `sample_rule2` at
address 9. -/
def sample_count_rom : Nat → List (fsm_transition_t Nat) := fun a =>
  if a = 9 then [sample_rule_count, sample_rule2] else []

/-- A machine in state 0 over the first `count` rules at address 9. -/
def sample_count_fsm (count : Nat) : fsm_t :=
  { userdata := none, transition_rules := some 9, transition_count := count,
    current_state := 0 }

/-- Read-only store holding the sample table at address 7 and its last two
rules alone at address 8. -/
def sample_split_rom : Nat → List (fsm_transition_t Nat) := fun a =>
  if a = 7 then sample_rules else if a = 8 then [sample_rule1, sample_rule2] else []

theorem land_one_shiftLeft_ne_zero (mask s : Nat) :
    ((mask &&& 1 <<< s) != 0) = mask.testBit s := by
  rw [Nat.one_shiftLeft]
  cases h : mask.testBit s
  · have h0 : mask &&& 2 ^ s = 0 := by
      apply Nat.eq_of_testBit_eq
      intro i
      rw [Nat.testBit_and, Nat.testBit_two_pow, Nat.zero_testBit]
      by_cases hi : s = i
      · subst hi; simp [h]
      · simp [hi]
    simp [h0]
  · have hb : (mask &&& 2 ^ s).testBit s = true := by
      rw [Nat.testBit_and, Nat.testBit_two_pow_self, h]; rfl
    have hne : mask &&& 2 ^ s ≠ 0 := by
      intro h0; rw [h0] at hb; simp at hb
    simp [hne]

theorem FSM_STATE_IN_MASK_of_lt {ulong_bits state : Nat} (mask : Nat)
    (h : state < ulong_bits) :
    FSM_STATE_IN_MASK ulong_bits state mask = some (state_in_mask state mask) := by
  simp [FSM_STATE_IN_MASK, FSM_STATE_MASK, h, state_in_mask, land_one_shiftLeft_ne_zero]

theorem FSM_STATE_IN_MASK_eq_some {ulong_bits state mask : Nat} {b : Bool}
    (h : FSM_STATE_IN_MASK ulong_bits state mask = some b) :
    b = state_in_mask state mask ∧ state < ulong_bits := by
  by_cases hlt : state < ulong_bits
  · rw [FSM_STATE_IN_MASK_of_lt mask hlt] at h
    exact ⟨(Option.some.inj h).symm, hlt⟩
  · simp [FSM_STATE_IN_MASK, FSM_STATE_MASK, hlt] at h

theorem state_lt_of_in_uint32_mask {state mask : Nat} (hm : mask < 2 ^ 32)
    (h : state_in_mask state mask = true) : state < 32 := by
  by_contra hge
  have h1 : 2 ^ state ≤ mask := Nat.testBit_implies_ge h
  have h2 : 2 ^ 32 ≤ 2 ^ state := Nat.pow_le_pow_right (by decide) (by omega)
  omega

/-- A returning scan either ran through all `n` rules from `i` without a match,
or stopped at the first matching index `k` and ran that rule's body. -/
theorem fsm_process_event_loop_ok {W : Type} (ulong_bits : Nat)
    (rules : List (fsm_transition_t W)) (self : fsm_t) (event : Nat) (data : Option Nat)
    (w : W) :
    ∀ (n i : Nat) (out : outcome W),
      fsm_process_event_loop ulong_bits rules self event data w n i = .ok out →
      (out = ⟨FSM_RESULT_NO_TRANSITION_FOR_STATE, self, w, []⟩ ∧
        ∀ j r, i ≤ j → j < i + n → rules[j]? = some r →
          ¬ rule_matches r event self.current_state) ∨
      (∃ k r, i ≤ k ∧ k < i + n ∧ rules[k]? = some r ∧
        rule_matches r event self.current_state ∧
        (∀ j r1, i ≤ j → j < k → rules[j]? = some r1 →
          ¬ rule_matches r1 event self.current_state) ∧
        out = fsm_fire k r self data w) := by
  intro n
  induction n with
  | zero =>
    intro i out h
    left
    simp only [fsm_process_event_loop, Except.ok.injEq] at h
    exact ⟨h.symm, fun j r h1 h2 => by omega⟩
  | succ n ih =>
    intro i out h
    unfold fsm_process_event_loop at h
    cases hr : rules[i]? with
    | none => simp [hr] at h
    | some rule =>
      simp only [hr] at h
      have key : (rule_matches rule event self.current_state ∧
            out = fsm_fire i rule self data w) ∨
          (¬ rule_matches rule event self.current_state ∧
            fsm_process_event_loop ulong_bits rules self event data w n (i + 1) = .ok out) := by
        by_cases he : rule.event = event
        · simp only [he, if_true] at h
          cases hb : FSM_STATE_IN_MASK ulong_bits self.current_state
              rule.source_states_mask with
          | none => simp [hb] at h
          | some b =>
            have hbit := (FSM_STATE_IN_MASK_eq_some hb).1
            cases b with
            | true =>
              simp only [hb, Except.ok.injEq] at h
              exact Or.inl ⟨⟨he, hbit.symm⟩, h.symm⟩
            | false =>
              simp only [hb] at h
              exact Or.inr ⟨fun hm => (by rw [hm.2] at hbit; cases hbit), h⟩
        · simp only [he, if_false] at h
          exact Or.inr ⟨fun hm => he hm.1, h⟩
      rcases key with ⟨hm, ho⟩ | ⟨hno, hrest⟩
      · right
        exact ⟨i, rule, le_refl i, by omega, hr, hm, fun j r1 h1 h2 => by omega, ho⟩
      · rcases ih (i + 1) out hrest with ⟨ho, hall⟩ | ⟨k, r, hik, hkn, hk, hm, hbefore, ho⟩
        · left
          refine ⟨ho, fun j r h1 h2 hj => ?_⟩
          rcases Nat.eq_or_lt_of_le h1 with heq | hlt
          · subst heq; rw [hr] at hj; cases hj; exact hno
          · exact hall j r hlt (by omega) hj
        · right
          refine ⟨k, r, by omega, by omega, hk, hm, fun j r1 h1 h2 hj => ?_, ho⟩
          rcases Nat.eq_or_lt_of_le h1 with heq | hlt
          · subst heq; rw [hr] at hj; cases hj; exact hno
          · exact hbefore j r1 hlt h2 hj

/-- When the rule at index `k` is the first one from `i` on that matches, the
scan returns the outcome of running that rule's body. -/
theorem fsm_process_event_loop_found {W : Type} (ulong_bits : Nat)
    (rules : List (fsm_transition_t W)) (self : fsm_t) (event : Nat) (data : Option Nat)
    (w : W) (k : Nat) (r : fsm_transition_t W) (hk : rules[k]? = some r)
    (hm : rule_matches r event self.current_state)
    (hlt : self.current_state < ulong_bits) :
    ∀ (n i : Nat), i ≤ k → k < i + n →
      (∀ j r1, i ≤ j → j < k → rules[j]? = some r1 →
        ¬ rule_matches r1 event self.current_state) →
      fsm_process_event_loop ulong_bits rules self event data w n i =
        .ok (fsm_fire k r self data w) := by
  intro n
  induction n with
  | zero => intro i h1 h2; omega
  | succ n ih =>
    intro i h1 h2 hbefore
    unfold fsm_process_event_loop
    rcases Nat.eq_or_lt_of_le h1 with heq | hik
    · subst heq
      simp [hk, hm.1, FSM_STATE_IN_MASK_of_lt _ hlt, hm.2]
    · have hlen : i < rules.length := by
        have := (List.getElem?_eq_some.1 hk).1
        omega
      have hi : rules[i]? = some rules[i] := List.getElem?_eq_getElem hlen
      have hno := hbefore i rules[i] (le_refl i) hik hi
      have hrest := ih (i + 1) hik (by omega)
        (fun j r1 h3 h4 hj => hbefore j r1 (by omega) h4 hj)
      simp only [hi]
      by_cases he : rules[i].event = event
      · have hb : state_in_mask self.current_state rules[i].source_states_mask = false := by
          cases hc : state_in_mask self.current_state rules[i].source_states_mask
          · rfl
          · exact absurd ⟨he, hc⟩ hno
        simp [he, FSM_STATE_IN_MASK_of_lt _ hlt, hb, hrest]
      · simp [he, hrest]

/-- When no rule among the `n` rules from `i` matches, all of them are in the
array and the state is a defined shift count, the scan returns
`FSM_RESULT_NO_TRANSITION_FOR_STATE` and leaves everything as it was. -/
theorem fsm_process_event_loop_none {W : Type} (ulong_bits : Nat)
    (rules : List (fsm_transition_t W)) (self : fsm_t) (event : Nat) (data : Option Nat)
    (w : W) (hlt : self.current_state < ulong_bits) :
    ∀ (n i : Nat), i + n ≤ rules.length →
      (∀ j r1, i ≤ j → j < i + n → rules[j]? = some r1 →
        ¬ rule_matches r1 event self.current_state) →
      fsm_process_event_loop ulong_bits rules self event data w n i =
        .ok ⟨FSM_RESULT_NO_TRANSITION_FOR_STATE, self, w, []⟩ := by
  intro n
  induction n with
  | zero => intro i _ _; rfl
  | succ n ih =>
    intro i hlen hall
    unfold fsm_process_event_loop
    have hi : rules[i]? = some rules[i] := List.getElem?_eq_getElem (by omega)
    have hno := hall i rules[i] (le_refl i) (by omega) hi
    have hrest := ih (i + 1) (by omega)
      (fun j r1 h3 h4 hj => hall j r1 (by omega) (by omega) hj)
    simp only [hi]
    by_cases he : rules[i].event = event
    · have hb : state_in_mask self.current_state rules[i].source_states_mask = false := by
        cases hc : state_in_mask self.current_state rules[i].source_states_mask
        · rfl
        · exact absurd ⟨he, hc⟩ hno
      simp [he, FSM_STATE_IN_MASK_of_lt _ hlt, hb, hrest]
    · simp [he, hrest]

theorem getElem?_take_eq_some {α : Type} (l : List α) (n j : Nat) (a : α) :
    (l.take n)[j]? = some a ↔ j < n ∧ l[j]? = some a := by
  rw [List.getElem?_take]
  by_cases h : j < n <;> simp [h]

/-- A returning call either found no matching rule in the table and left
everything as it was, or ran the body of the first matching rule. -/
theorem fsm_process_event_ok {W : Type} (ulong_bits : Nat)
    (rom : Nat → List (fsm_transition_t W)) (self : fsm_t) (event : Nat) (data : Option Nat)
    (w : W) (out : outcome W)
    (h : fsm_process_event ulong_bits rom self event data w = .ok out) :
    (out = ⟨FSM_RESULT_NO_TRANSITION_FOR_STATE, self, w, []⟩ ∧
      no_match (fsm_table rom self) event self.current_state) ∨
    (∃ k r, first_match (fsm_table rom self) event self.current_state k r ∧
      out = fsm_fire k r self data w) := by
  unfold fsm_process_event at h
  cases hp : self.transition_rules with
  | none => simp [hp] at h
  | some p =>
    simp only [hp] at h
    have htab : fsm_table rom self = (rom p).take self.transition_count := by
      simp [fsm_table, hp]
    rw [htab]
    rcases fsm_process_event_loop_ok ulong_bits (rom p) self event data w _ _ out h with
      ⟨ho, hall⟩ | ⟨k, r, _, hkn, hk, hm, hbefore, ho⟩
    · left
      refine ⟨ho, fun r hr => ?_⟩
      obtain ⟨j, hj⟩ := List.mem_iff_getElem?.1 hr
      rw [getElem?_take_eq_some] at hj
      exact hall j r (Nat.zero_le j) (by omega) hj.2
    · right
      refine ⟨k, r, ⟨?_, hm, fun j r1 hjk hj => ?_⟩, ho⟩
      · rw [getElem?_take_eq_some]; exact ⟨by omega, hk⟩
      · rw [getElem?_take_eq_some] at hj
        exact hbefore j r1 (Nat.zero_le j) hjk hj.2

/-- When the table has a first matching rule and the state is a defined shift
count, the call returns the outcome of running that rule's body. -/
theorem fsm_process_event_found {W : Type} (ulong_bits : Nat)
    (rom : Nat → List (fsm_transition_t W)) (self : fsm_t) (event : Nat) (data : Option Nat)
    (w : W) (k : Nat) (r : fsm_transition_t W)
    (hfirst : first_match (fsm_table rom self) event self.current_state k r)
    (hlt : self.current_state < ulong_bits) :
    fsm_process_event ulong_bits rom self event data w = .ok (fsm_fire k r self data w) := by
  obtain ⟨hk, hm, hbefore⟩ := hfirst
  unfold fsm_process_event
  cases hp : self.transition_rules with
  | none => simp [fsm_table, hp] at hk
  | some p =>
    have htab : fsm_table rom self = (rom p).take self.transition_count := by
      simp [fsm_table, hp]
    rw [htab] at hk hbefore
    rw [getElem?_take_eq_some] at hk
    simp only
    refine fsm_process_event_loop_found ulong_bits (rom p) self event data w k r hk.2 hm hlt
      _ 0 (Nat.zero_le k) (by omega) (fun j r1 _ hjk hj => ?_)
    exact hbefore j r1 hjk ((getElem?_take_eq_some (rom p) self.transition_count j r1).2 ⟨by omega, hj⟩)

/-- When no rule of a readable table matches and the state is a defined shift
count, the call returns `FSM_RESULT_NO_TRANSITION_FOR_STATE` and leaves
everything as it was. -/
theorem fsm_process_event_none {W : Type} (ulong_bits : Nat)
    (rom : Nat → List (fsm_transition_t W)) (self : fsm_t) (event : Nat) (data : Option Nat)
    (w : W) (hread : table_readable rom self) (hlt : self.current_state < ulong_bits)
    (hall : no_match (fsm_table rom self) event self.current_state) :
    fsm_process_event ulong_bits rom self event data w =
      .ok ⟨FSM_RESULT_NO_TRANSITION_FOR_STATE, self, w, []⟩ := by
  obtain ⟨p, hp, hlen⟩ := hread
  have htab : fsm_table rom self = (rom p).take self.transition_count := by
    simp [fsm_table, hp]
  rw [htab] at hall
  unfold fsm_process_event
  simp only [hp]
  refine fsm_process_event_loop_none ulong_bits (rom p) self event data w hlt _ 0
    (by omega) (fun j r1 _ hjn hj => ?_)
  exact hall r1 (List.getElem?_mem
    ((getElem?_take_eq_some (rom p) self.transition_count j r1).2 ⟨by omega, hj⟩))

/-! ### The body run for a selected rule -/

theorem fsm_commit_result {W : Type} (i : Nat) (rule : fsm_transition_t W) (self : fsm_t)
    (data : Option Nat) (w : W) (calls : List callback_call) :
    (fsm_commit i rule self data w calls).result = FSM_RESULT_SUCCESS := by
  unfold fsm_commit
  cases rule.action <;> rfl

theorem fsm_fire_success_iff {W : Type} (i : Nat) (rule : fsm_transition_t W) (self : fsm_t)
    (data : Option Nat) (w : W) :
    (fsm_fire i rule self data w).result = FSM_RESULT_SUCCESS ↔
      guard_allows rule self data w := by
  unfold fsm_fire guard_allows
  cases hg : rule.guard with
  | none => simp [fsm_commit_result]
  | some g =>
    by_cases h0 : (g self data w).1 = 0
    · simp [h0, fsm_commit_result]
    · simp [h0]

theorem fsm_fire_denied_iff {W : Type} (i : Nat) (rule : fsm_transition_t W) (self : fsm_t)
    (data : Option Nat) (w : W) :
    (fsm_fire i rule self data w).result = FSM_RESULT_GUARD_DENIED ↔
      guard_denies rule self data w := by
  unfold fsm_fire guard_denies
  cases hg : rule.guard with
  | none =>
    constructor
    · intro h
      rw [fsm_commit_result] at h
      cases h
    · rintro ⟨g, hg1, _⟩
      cases hg1
  | some g =>
    by_cases h0 : (g self data w).1 = 0
    · constructor
      · intro h
        simp only [h0, ne_eq, not_true_eq_false, if_false] at h
        rw [fsm_commit_result] at h
        cases h
      · rintro ⟨g1, hg1, hne⟩
        cases hg1
        exact absurd h0 hne
    · constructor
      · intro _
        exact ⟨g, rfl, h0⟩
      · intro _
        simp [h0]

theorem fsm_fire_result_cases {W : Type} (i : Nat) (rule : fsm_transition_t W) (self : fsm_t)
    (data : Option Nat) (w : W) :
    (fsm_fire i rule self data w).result = FSM_RESULT_SUCCESS ∨
      (fsm_fire i rule self data w).result = FSM_RESULT_GUARD_DENIED := by
  unfold fsm_fire
  cases hg : rule.guard with
  | none => simp [fsm_commit_result]
  | some g =>
    by_cases h0 : (g self data w).1 = 0
    · simp [h0, fsm_commit_result]
    · simp [h0]

theorem fsm_commit_self {W : Type} (i : Nat) (rule : fsm_transition_t W) (self : fsm_t)
    (data : Option Nat) (w : W) (calls : List callback_call)
    (hkeep : rule_keeps_machine rule) :
    (fsm_commit i rule self data w calls).self =
      { self with current_state := rule.target_state } := by
  unfold fsm_commit
  cases ha : rule.action with
  | none => rfl
  | some a => exact hkeep.2 a ha _ _ _

/-- With callbacks that do not write the machine, a fired rule leaves the
machine with the target state committed and nothing else changed, and a
denied rule leaves the machine as it was. -/
theorem fsm_fire_self {W : Type} (i : Nat) (rule : fsm_transition_t W) (self : fsm_t)
    (data : Option Nat) (w : W) (hkeep : rule_keeps_machine rule) :
    (fsm_fire i rule self data w).self =
      if (fsm_fire i rule self data w).result = FSM_RESULT_SUCCESS then
        { self with current_state := rule.target_state }
      else self := by
  unfold fsm_fire
  cases hg : rule.guard with
  | none => simp [fsm_commit_result, fsm_commit_self _ _ _ _ _ _ hkeep]
  | some g =>
    have hgm := hkeep.1 g hg self data w
    by_cases h0 : (g self data w).1 = 0
    · simp [h0, fsm_commit_result, fsm_commit_self _ _ _ _ _ _ hkeep, hgm]
    · simp [h0, hgm]

theorem fsm_commit_calls {W : Type} (i : Nat) (rule : fsm_transition_t W) (self : fsm_t)
    (data : Option Nat) (w : W) (calls : List callback_call) :
    (fsm_commit i rule self data w calls).calls =
      match rule.action with
      | some _ =>
        calls ++ [callback_call.action i { self with current_state := rule.target_state } data]
      | none => calls := by
  unfold fsm_commit
  cases rule.action <;> rfl

/-- Every callback invocation made for the rule at index `i` carries index `i`
and the caller's event data. -/
theorem fsm_fire_calls_index {W : Type} (i : Nat) (rule : fsm_transition_t W) (self : fsm_t)
    (data : Option Nat) (w : W) :
    ∀ c ∈ (fsm_fire i rule self data w).calls, c.index = i := by
  intro c hc
  unfold fsm_fire at hc
  cases hg : rule.guard with
  | none =>
    simp only [hg, fsm_commit_calls] at hc
    cases ha : rule.action with
    | none => simp [ha] at hc
    | some a =>
      simp only [ha, List.nil_append, List.mem_singleton] at hc
      subst hc; rfl
  | some g =>
    simp only [hg] at hc
    by_cases h0 : (g self data w).1 = 0
    · simp only [h0, ne_eq, not_true_eq_false, if_false, fsm_commit_calls] at hc
      cases ha : rule.action with
      | none =>
        simp only [ha, List.mem_singleton] at hc
        subst hc; rfl
      | some a =>
        simp only [ha, List.singleton_append, List.mem_cons, List.mem_singleton,
          List.not_mem_nil, or_false] at hc
        rcases hc with rfl | rfl <;> rfl
    · simp only [h0, ne_eq, not_false_eq_true, if_true, List.mem_singleton] at hc
      subst hc; rfl

/-- An action invocation in the trace of a rule body happens only on success
and is handed a machine whose state is already the rule's target. -/
theorem fsm_fire_action_call {W : Type} (i : Nat) (rule : fsm_transition_t W) (self : fsm_t)
    (data : Option Nat) (w : W) (idx : Nat) (m : fsm_t) (d : Option Nat)
    (hc : callback_call.action idx m d ∈ (fsm_fire i rule self data w).calls) :
    idx = i ∧ d = data ∧ m.current_state = rule.target_state ∧
      (fsm_fire i rule self data w).result = FSM_RESULT_SUCCESS := by
  unfold fsm_fire at hc ⊢
  cases hg : rule.guard with
  | none =>
    simp only [hg, fsm_commit_calls, fsm_commit_result] at hc ⊢
    cases ha : rule.action with
    | none => simp [ha] at hc
    | some a =>
      simp only [ha, List.nil_append, List.mem_singleton, callback_call.action.injEq] at hc
      obtain ⟨h1, h2, h3⟩ := hc
      subst h2
      exact ⟨h1, h3, rfl, trivial⟩
  | some g =>
    simp only [hg] at hc ⊢
    by_cases h0 : (g self data w).1 = 0
    · simp only [h0, ne_eq, not_true_eq_false, if_false, fsm_commit_calls,
        fsm_commit_result] at hc ⊢
      cases ha : rule.action with
      | none => simp [ha] at hc
      | some a =>
        simp only [ha, List.singleton_append, List.mem_cons, List.mem_singleton,
          List.not_mem_nil, or_false, callback_call.action.injEq] at hc
        rcases hc with hbad | ⟨h1, h2, h3⟩
        · cases hbad
        · subst h2
          exact ⟨h1, h3, rfl, trivial⟩
    · simp [h0] at hc

/-- A rule that fires with an action: the action is invoked once the state is
committed, on the machine and memory the guard (if any) left, and what it
returns is what the call leaves behind. -/
theorem fsm_fire_allowed_action {W : Type} (i : Nat) (rule : fsm_transition_t W)
    (self : fsm_t) (data : Option Nat) (w : W) (a : fsm_action_t W)
    (ha : rule.action = some a) (hallow : guard_allows rule self data w) :
    ∃ (m : fsm_t) (wg : W), m.current_state = rule.target_state ∧
      callback_call.action i m data ∈ (fsm_fire i rule self data w).calls ∧
      (fsm_fire i rule self data w).self = (a m data wg).1 ∧
      (fsm_fire i rule self data w).world = (a m data wg).2 := by
  unfold fsm_fire
  cases hg : rule.guard with
  | none =>
    refine ⟨{ self with current_state := rule.target_state }, w, rfl, ?_, ?_, ?_⟩ <;>
      simp [fsm_commit, ha]
  | some g =>
    have h0 : (g self data w).1 = 0 := hallow g hg
    refine ⟨{ (g self data w).2.1 with current_state := rule.target_state },
      (g self data w).2.2, rfl, ?_, ?_, ?_⟩ <;>
      simp [fsm_commit, ha, h0]

/-- A denied rule: the only invocation is the guard, and the call leaves the
machine and the memory as the guard left them. -/
theorem fsm_fire_denied {W : Type} (i : Nat) (rule : fsm_transition_t W)
    (self : fsm_t) (data : Option Nat) (w : W) (g : fsm_guard_t W)
    (hg : rule.guard = some g) (hne : (g self data w).1 ≠ 0) :
    fsm_fire i rule self data w =
      ⟨FSM_RESULT_GUARD_DENIED, (g self data w).2.1, (g self data w).2.2,
        [callback_call.guard i self data]⟩ := by
  unfold fsm_fire
  simp [hg, hne]

/-- A table in which some rule matches has a first matching rule. -/
theorem exists_first_match {W : Type} (rules : List (fsm_transition_t W)) (event state : Nat)
    (h : ¬ no_match rules event state) : ∃ i r, first_match rules event state i r := by
  classical
  have hex : ∃ j : Nat, ∃ r : fsm_transition_t W,
      rules[j]? = some r ∧ rule_matches r event state := by
    unfold no_match at h
    push_neg at h
    obtain ⟨r, hr, hm⟩ := h
    obtain ⟨j, hj⟩ := List.mem_iff_getElem?.1 hr
    exact ⟨j, r, hj, hm⟩
  obtain ⟨r, hr, hm⟩ := Nat.find_spec hex
  refine ⟨Nat.find hex, r, hr, hm, fun j r1 hj hj1 hm1 => ?_⟩
  exact Nat.find_min hex hj ⟨r1, hj1, hm1⟩

/-- A first matching rule excludes `no_match`. -/
theorem first_match_not_no_match {W : Type} {rules : List (fsm_transition_t W)}
    {event state i : Nat} {r : fsm_transition_t W}
    (h : first_match rules event state i r) : ¬ no_match rules event state :=
  fun hno => hno r (List.getElem?_mem h.1) h.2.1

/-- On a readable table and with a state that is a defined shift count, the
call returns. -/
theorem fsm_process_event_returns {W : Type} (ulong_bits : Nat)
    (rom : Nat → List (fsm_transition_t W)) (self : fsm_t) (event : Nat) (data : Option Nat)
    (w : W) (hread : table_readable rom self) (hlt : self.current_state < ulong_bits) :
    ∃ out, fsm_process_event ulong_bits rom self event data w = .ok out := by
  by_cases hno : no_match (fsm_table rom self) event self.current_state
  · exact ⟨_, fsm_process_event_none ulong_bits rom self event data w hread hlt hno⟩
  · obtain ⟨i, r, hfirst⟩ := exists_first_match _ _ _ hno
    exact ⟨_, fsm_process_event_found ulong_bits rom self event data w i r hfirst hlt⟩

/-! ### Facts about the sample machine -/

theorem sample_table (state : Nat) : fsm_table sample_rom (sample_fsm state) = sample_rules := by
  simp [fsm_table, sample_fsm, sample_rom, sample_rules]

theorem sample_masks (state : Nat) :
    masks_are_uint32 (fsm_table sample_rom (sample_fsm state)) := by
  rw [sample_table]
  intro r hr
  simp only [sample_rules, List.mem_cons, List.mem_singleton, List.not_mem_nil, or_false] at hr
  rcases hr with rfl | rfl | rfl <;> decide

theorem sample_keep (state : Nat) :
    callbacks_keep_machine (fsm_table sample_rom (sample_fsm state)) := by
  rw [sample_table]
  intro r hr
  simp only [sample_rules, List.mem_cons, List.mem_singleton, List.not_mem_nil, or_false] at hr
  rcases hr with rfl | rfl | rfl <;> constructor <;> intro f hf m d w <;>
    simp [sample_rule0, sample_rule1, sample_rule2] at hf <;> subst hf <;> rfl

theorem sample_readable (state : Nat) : table_readable sample_rom (sample_fsm state) :=
  ⟨7, rfl, by simp [sample_fsm, sample_rom, sample_rules]⟩

theorem sample_first_match_rule0 :
    first_match (fsm_table sample_rom (sample_fsm 0)) 1 0 0 sample_rule0 := by
  rw [sample_table]
  refine ⟨rfl, ⟨rfl, by decide⟩, fun j r hj => by omega⟩

theorem sample_first_match_rule1 :
    first_match (fsm_table sample_rom (sample_fsm 1)) 1 1 1 sample_rule1 := by
  rw [sample_table]
  refine ⟨rfl, by decide, fun j r hj hr => ?_⟩
  have hj0 : j = 0 := by omega
  subst hj0
  cases hr
  decide

/-! ## The claims -/

/-- Success on the states for which the mask test is defined (what C1 says,
there), with callbacks that do not write the machine: if `r` is the first rule
in table order that matches (event, current state) and `r` has no guard or its
guard returns 0, then `fsm_process_event` returns `FSM_RESULT_SUCCESS` and the
new current state is `r.target_state`; a call that returns
`FSM_RESULT_SUCCESS` does so only in that case; and on a readable table, with a
current state below the width of `unsigned long`, the call returns. -/
theorem fsm_process_event_success_iff_first_match {W : Type} (ulong_bits : Nat)
    (rom : Nat → List (fsm_transition_t W)) (self : fsm_t) (event : Nat) (data : Option Nat)
    (w : W) (hw : 32 ≤ ulong_bits)
    (hmask : masks_are_uint32 (fsm_table rom self))
    (hkeep : callbacks_keep_machine (fsm_table rom self)) :
    (∀ i r, first_match (fsm_table rom self) event self.current_state i r →
      guard_allows r self data w →
      ∃ out, fsm_process_event ulong_bits rom self event data w = .ok out ∧
        out.result = FSM_RESULT_SUCCESS ∧ out.self.current_state = r.target_state) ∧
    (∀ out, fsm_process_event ulong_bits rom self event data w = .ok out →
      out.result = FSM_RESULT_SUCCESS →
      ∃ i r, first_match (fsm_table rom self) event self.current_state i r ∧
        guard_allows r self data w ∧ out.self.current_state = r.target_state) ∧
    (table_readable rom self → self.current_state < ulong_bits →
      ∃ out, fsm_process_event ulong_bits rom self event data w = .ok out) := by
  refine ⟨?_, ?_, fsm_process_event_returns ulong_bits rom self event data w⟩
  · intro i r hfirst hallow
    have hmem : r ∈ fsm_table rom self := List.getElem?_mem hfirst.1
    have hlt : self.current_state < ulong_bits :=
      Nat.lt_of_lt_of_le (state_lt_of_in_uint32_mask (hmask r hmem) hfirst.2.1.2) hw
    have hres := (fsm_fire_success_iff i r self data w).2 hallow
    refine ⟨_, fsm_process_event_found ulong_bits rom self event data w i r hfirst hlt,
      hres, ?_⟩
    rw [fsm_fire_self i r self data w (hkeep r hmem), if_pos hres]
  · intro out hout hres
    rcases fsm_process_event_ok ulong_bits rom self event data w out hout with
      ⟨ho, _⟩ | ⟨k, r, hfirst, ho⟩
    · rw [ho] at hres; cases hres
    · subst ho
      have hmem : r ∈ fsm_table rom self := List.getElem?_mem hfirst.1
      refine ⟨k, r, hfirst, (fsm_fire_success_iff k r self data w).1 hres, ?_⟩
      rw [fsm_fire_self k r self data w (hkeep r hmem), if_pos hres]

/-- On the sample machine, event 1 in state 0 selects rule 0, which has no
guard, and the call succeeds into state 1. -/
theorem fsm_process_event_success_iff_first_match_witness :
    32 ≤ 64 ∧ masks_are_uint32 (fsm_table sample_rom (sample_fsm 0)) ∧
    callbacks_keep_machine (fsm_table sample_rom (sample_fsm 0)) ∧
    ∃ out, fsm_process_event 64 sample_rom (sample_fsm 0) 1 none 0 = .ok out ∧
      out.result = FSM_RESULT_SUCCESS ∧ out.self.current_state = sample_rule0.target_state :=
  ⟨by decide, sample_masks 0, sample_keep 0,
    (fsm_process_event_success_iff_first_match 64 sample_rom (sample_fsm 0) 1 none 0
      (by decide) (sample_masks 0) (sample_keep 0)).1 0 sample_rule0
      sample_first_match_rule0 (fun g hg => by cases hg)⟩

/-- C1, at a failing input: the machine that `fsm_init` builds for initial
state 64 over the sample table (callbacks that do not write the machine, masks
that are `uint32_t` values) has no first matching rule for (event 1, state 64).
With a 64-bit `unsigned long` the call for event 1 has no defined result:
testing rule 0 shifts `1UL` by 64.  Where the shift count is taken modulo 64
the test made is that of state 0, which rule 0 passes, and rule 0 run on this
machine returns `FSM_RESULT_SUCCESS` and moves it to state 1: a success
without a first matching rule. -/
theorem success_without_first_match_at_state_64 :
    fsm_init sample_rom (some (sample_fsm 0)) 64 (some 7) 3 =
      .ok (FSM_RESULT_SUCCESS, some (sample_fsm 64)) ∧
    callbacks_keep_machine (fsm_table sample_rom (sample_fsm 64)) ∧
    masks_are_uint32 (fsm_table sample_rom (sample_fsm 64)) ∧
    (¬ ∃ i r, first_match (fsm_table sample_rom (sample_fsm 64)) 1
      (sample_fsm 64).current_state i r) ∧
    fsm_process_event 64 sample_rom (sample_fsm 64) 1 none 0 =
      .error fault.shift_too_wide ∧
    sample_rule0.event = 1 ∧
    FSM_STATE_IN_MASK 64 (64 % 64) sample_rule0.source_states_mask = some true ∧
    (fsm_fire 0 sample_rule0 (sample_fsm 64) none 0).result = FSM_RESULT_SUCCESS ∧
    (fsm_fire 0 sample_rule0 (sample_fsm 64) none 0).self.current_state = 1 := by
  refine ⟨rfl, sample_keep 64, sample_masks 64, ?_, rfl, rfl, rfl, rfl, rfl⟩
  rintro ⟨i, r, hfm⟩
  have hmem : r ∈ fsm_table sample_rom (sample_fsm 64) := List.getElem?_mem hfm.1
  have hm : rule_matches r 1 64 := hfm.2.1
  rw [sample_table] at hmem
  simp only [sample_rules, List.mem_cons, List.mem_singleton, List.not_mem_nil,
    or_false] at hmem
  rcases hmem with rfl | rfl | rfl <;> revert hm <;> decide

/-- C2 (first-match precedence): when rules at indices `i < j` both match
(event, current state) and `i` is the smallest matching index, the call returns
the outcome of running rule `i` alone: every callback invoked belongs to rule
`i` (none to rule `j`), the result is success or denial according to rule
`i`'s guard only, and the state committed on success is rule `i`'s target,
whatever the rest of the table and its length. -/
theorem first_match_precedence {W : Type} (ulong_bits : Nat)
    (rom : Nat → List (fsm_transition_t W)) (self : fsm_t) (event : Nat) (data : Option Nat)
    (w : W) (i j : Nat) (ri rj : fsm_transition_t W) (hw : 32 ≤ ulong_bits)
    (hmask : masks_are_uint32 (fsm_table rom self))
    (hi : first_match (fsm_table rom self) event self.current_state i ri)
    (hij : i < j) (_hj : (fsm_table rom self)[j]? = some rj)
    (_hjm : rule_matches rj event self.current_state) :
    ∃ out, fsm_process_event ulong_bits rom self event data w = .ok out ∧
      out = fsm_fire i ri self data w ∧
      (∀ c ∈ out.calls, c.index = i ∧ c.index ≠ j) ∧
      (out.result = FSM_RESULT_SUCCESS ↔ guard_allows ri self data w) ∧
      (out.result = FSM_RESULT_GUARD_DENIED ↔ guard_denies ri self data w) ∧
      (rule_keeps_machine ri →
        out.self = if out.result = FSM_RESULT_SUCCESS then
          { self with current_state := ri.target_state } else self) := by
  have hmem : ri ∈ fsm_table rom self := List.getElem?_mem hi.1
  have hlt : self.current_state < ulong_bits :=
    Nat.lt_of_lt_of_le (state_lt_of_in_uint32_mask (hmask ri hmem) hi.2.1.2) hw
  refine ⟨_, fsm_process_event_found ulong_bits rom self event data w i ri hi hlt, rfl,
    fun c hc => ?_, fsm_fire_success_iff i ri self data w,
    fsm_fire_denied_iff i ri self data w, fun hkeep => fsm_fire_self i ri self data w hkeep⟩
  have hci := fsm_fire_calls_index i ri self data w c hc
  exact ⟨hci, by omega⟩

/-- Witness of C2 on the sample machine: rules 0 and 1 both match event 1 in
state 0, and the call is decided by rule 0. -/
theorem first_match_precedence_witness :
    32 ≤ 64 ∧ masks_are_uint32 (fsm_table sample_rom (sample_fsm 0)) ∧
    first_match (fsm_table sample_rom (sample_fsm 0)) 1 0 0 sample_rule0 ∧
    (fsm_table sample_rom (sample_fsm 0))[1]? = some sample_rule1 ∧
    rule_matches sample_rule1 1 0 ∧
    ∃ out, fsm_process_event 64 sample_rom (sample_fsm 0) 1 none 0 = .ok out ∧
      out = fsm_fire 0 sample_rule0 (sample_fsm 0) none 0 ∧
      (∀ c ∈ out.calls, c.index = 0 ∧ c.index ≠ 1) ∧
      (out.result = FSM_RESULT_SUCCESS ↔ guard_allows sample_rule0 (sample_fsm 0) none 0) ∧
      (out.result = FSM_RESULT_GUARD_DENIED ↔
        guard_denies sample_rule0 (sample_fsm 0) none 0) ∧
      (rule_keeps_machine sample_rule0 →
        out.self = if out.result = FSM_RESULT_SUCCESS then
          { sample_fsm 0 with current_state := sample_rule0.target_state }
          else sample_fsm 0) :=
  ⟨by decide, sample_masks 0, sample_first_match_rule0, rfl, by decide,
    first_match_precedence 64 sample_rom (sample_fsm 0) 1 none 0 0 1 sample_rule0
      sample_rule1 (by decide) (sample_masks 0) sample_first_match_rule0 (by decide) rfl
      (by decide)⟩

/-- C3, at a failing input: the machine that `fsm_init` builds for initial
state 64 has no rule matching (event 1, state 64), yet with a 64-bit
`unsigned long` the call for event 1 does not return
`FSM_RESULT_NO_TRANSITION_FOR_STATE`: testing rule 0 shifts `1UL` by 64,
outside the documented domain of `FSM_STATE_MASK`. -/
theorem no_match_state_64_does_not_return :
    fsm_init sample_rom (some (sample_fsm 0)) 64 (some 7) 3 =
      .ok (FSM_RESULT_SUCCESS, some (sample_fsm 64)) ∧
    no_match (fsm_table sample_rom (sample_fsm 64)) 1 64 ∧
    fsm_process_event 64 sample_rom (sample_fsm 64) 1 none 0 =
      .error fault.shift_too_wide := by
  refine ⟨rfl, ?_, rfl⟩
  rw [sample_table]
  intro r hr
  simp only [sample_rules, List.mem_cons, List.mem_singleton, List.not_mem_nil, or_false] at hr
  rcases hr with rfl | rfl | rfl <;> decide

/-- No-match on the states for which the mask test is defined (what C3 says,
there): for every machine with a readable table whose current state is below
the width of `unsigned long`, and every event, the call returns, and it
returns `FSM_RESULT_NO_TRANSITION_FOR_STATE` if and only if no rule of the
table matches (event, current state); in that case the machine and the memory
are as before the call and no guard or action was invoked. -/
theorem no_transition_iff_no_match {W : Type} (ulong_bits : Nat)
    (rom : Nat → List (fsm_transition_t W)) (self : fsm_t) (event : Nat) (data : Option Nat)
    (w : W) (hread : table_readable rom self) (hlt : self.current_state < ulong_bits) :
    ∃ out, fsm_process_event ulong_bits rom self event data w = .ok out ∧
      (out.result = FSM_RESULT_NO_TRANSITION_FOR_STATE ↔
        no_match (fsm_table rom self) event self.current_state) ∧
      (out.result = FSM_RESULT_NO_TRANSITION_FOR_STATE →
        out.self = self ∧ out.world = w ∧ out.calls = []) := by
  obtain ⟨out, hout⟩ := fsm_process_event_returns ulong_bits rom self event data w hread hlt
  refine ⟨out, hout, ?_, ?_⟩
  · rcases fsm_process_event_ok ulong_bits rom self event data w out hout with
      ⟨ho, hno⟩ | ⟨k, r, hfirst, ho⟩
    · subst ho; exact ⟨fun _ => hno, fun _ => rfl⟩
    · subst ho
      constructor
      · intro hres
        rcases fsm_fire_result_cases k r self data w with h1 | h1 <;>
          rw [h1] at hres <;> cases hres
      · intro hno
        exact absurd hno (first_match_not_no_match hfirst)
  · intro hres
    rcases fsm_process_event_ok ulong_bits rom self event data w out hout with
      ⟨ho, _⟩ | ⟨k, r, _, ho⟩
    · subst ho; exact ⟨rfl, rfl, rfl⟩
    · subst ho
      rcases fsm_fire_result_cases k r self data w with h1 | h1 <;>
        rw [h1] at hres <;> cases hres

/-- The no-match statement on the sample machine: event 2 in state 0 matches no
rule. -/
theorem no_transition_iff_no_match_witness :
    table_readable sample_rom (sample_fsm 0) ∧ (sample_fsm 0).current_state < 64 ∧
    ∃ out, fsm_process_event 64 sample_rom (sample_fsm 0) 2 none 9 = .ok out ∧
      (out.result = FSM_RESULT_NO_TRANSITION_FOR_STATE ↔
        no_match (fsm_table sample_rom (sample_fsm 0)) 2 (sample_fsm 0).current_state) ∧
      (out.result = FSM_RESULT_NO_TRANSITION_FOR_STATE →
        out.self = sample_fsm 0 ∧ out.world = 9 ∧ out.calls = []) :=
  ⟨sample_readable 0, by decide,
    no_transition_iff_no_match 64 sample_rom (sample_fsm 0) 2 none 9 (sample_readable 0)
      (by decide)⟩

/-- C4: when the first matching rule has a guard that returns a non-zero value,
positive or negative, the call returns `FSM_RESULT_GUARD_DENIED`, the engine
writes nothing (machine and memory are as the guard left them, so the current
state is unchanged when the guard does not write the machine) and no action is
invoked; when that rule's guard is absent or returns 0 the result is not
`FSM_RESULT_GUARD_DENIED`. -/
theorem guard_denied_iff {W : Type} (ulong_bits : Nat)
    (rom : Nat → List (fsm_transition_t W)) (self : fsm_t) (event : Nat) (data : Option Nat)
    (w : W) (i : Nat) (r : fsm_transition_t W) (hw : 32 ≤ ulong_bits)
    (hmask : masks_are_uint32 (fsm_table rom self))
    (hfirst : first_match (fsm_table rom self) event self.current_state i r) :
    ∃ out, fsm_process_event ulong_bits rom self event data w = .ok out ∧
      (∀ g, r.guard = some g → (g self data w).1 ≠ 0 →
        out.result = FSM_RESULT_GUARD_DENIED ∧
        out.self = (g self data w).2.1 ∧ out.world = (g self data w).2.2 ∧
        (rule_keeps_machine r → out.self.current_state = self.current_state) ∧
        out.calls = [callback_call.guard i self data] ∧
        ∀ c ∈ out.calls, c.is_action = false) ∧
      (guard_allows r self data w → out.result ≠ FSM_RESULT_GUARD_DENIED) ∧
      (out.result = FSM_RESULT_GUARD_DENIED ↔ guard_denies r self data w) := by
  have hmem : r ∈ fsm_table rom self := List.getElem?_mem hfirst.1
  have hlt : self.current_state < ulong_bits :=
    Nat.lt_of_lt_of_le (state_lt_of_in_uint32_mask (hmask r hmem) hfirst.2.1.2) hw
  refine ⟨_, fsm_process_event_found ulong_bits rom self event data w i r hfirst hlt,
    fun g hg hne => ?_, fun hallow hden => ?_, fsm_fire_denied_iff i r self data w⟩
  · rw [fsm_fire_denied i r self data w g hg hne]
    refine ⟨rfl, rfl, rfl, fun hkeep => ?_, rfl, fun c hc => ?_⟩
    · exact congrArg fsm_t.current_state (hkeep.1 g hg self data w)
    · simp only [List.mem_singleton] at hc
      subst hc; rfl
  · obtain ⟨g, hg, hne⟩ := (fsm_fire_denied_iff i r self data w).1 hden
    exact hne (hallow g hg)

/-- Witness of C4 on the sample machine: event 1 in state 1 with the counter at
5 selects rule 1, whose guard returns -1. -/
theorem guard_denied_iff_witness :
    32 ≤ 64 ∧ masks_are_uint32 (fsm_table sample_rom (sample_fsm 1)) ∧
    first_match (fsm_table sample_rom (sample_fsm 1)) 1 1 1 sample_rule1 ∧
    sample_rule1.guard = some sample_guard_limit ∧
    (sample_guard_limit (sample_fsm 1) none 5).1 = -1 ∧
    ∃ out, fsm_process_event 64 sample_rom (sample_fsm 1) 1 none 5 = .ok out ∧
      out.result = FSM_RESULT_GUARD_DENIED ∧ out.self = sample_fsm 1 ∧ out.world = 5 ∧
      out.calls = [callback_call.guard 1 (sample_fsm 1) none] :=
  ⟨by decide, sample_masks 1, sample_first_match_rule1, rfl, rfl, by
    obtain ⟨out, hout, hden, _, _⟩ :=
      guard_denied_iff 64 sample_rom (sample_fsm 1) 1 none 5 1 sample_rule1 (by decide)
        (sample_masks 1) sample_first_match_rule1
    obtain ⟨h1, h2, h3, _, h5, _⟩ := hden sample_guard_limit rfl (by decide)
    exact ⟨out, hout, h1, h2, h3, h5⟩⟩

/-- C5 (commit before action): when a transition fires (the first matching rule
has no guard or its guard returns 0) and the rule has an action, the action is
invoked, and the machine it is handed already has `current_state` equal to the
rule's `target_state`, so `fsm_current_state` inside the action returns the
target state; the call leaves behind what the action returns. -/
theorem commit_before_action {W : Type} (ulong_bits : Nat)
    (rom : Nat → List (fsm_transition_t W)) (self : fsm_t) (event : Nat) (data : Option Nat)
    (w : W) (i : Nat) (r : fsm_transition_t W) (a : fsm_action_t W) (hw : 32 ≤ ulong_bits)
    (hmask : masks_are_uint32 (fsm_table rom self))
    (hfirst : first_match (fsm_table rom self) event self.current_state i r)
    (hallow : guard_allows r self data w) (ha : r.action = some a) :
    ∃ out, fsm_process_event ulong_bits rom self event data w = .ok out ∧
      out.result = FSM_RESULT_SUCCESS ∧
      (∃ (m : fsm_t) (wg : W), callback_call.action i m data ∈ out.calls ∧
        fsm_current_state m = r.target_state ∧
        out.self = (a m data wg).1 ∧ out.world = (a m data wg).2) ∧
      (∀ idx m d, callback_call.action idx m d ∈ out.calls →
        idx = i ∧ d = data ∧ fsm_current_state m = r.target_state) := by
  have hmem : r ∈ fsm_table rom self := List.getElem?_mem hfirst.1
  have hlt : self.current_state < ulong_bits :=
    Nat.lt_of_lt_of_le (state_lt_of_in_uint32_mask (hmask r hmem) hfirst.2.1.2) hw
  obtain ⟨m, wg, hm, hcall, hself, hworld⟩ :=
    fsm_fire_allowed_action i r self data w a ha hallow
  refine ⟨_, fsm_process_event_found ulong_bits rom self event data w i r hfirst hlt,
    (fsm_fire_success_iff i r self data w).2 hallow, ⟨m, wg, hcall, hm, hself, hworld⟩,
    fun idx m1 d1 hc => ?_⟩
  obtain ⟨h1, h2, h3, _⟩ := fsm_fire_action_call i r self data w idx m1 d1 hc
  exact ⟨h1, h2, h3⟩

/-- Witness of C5 on the sample machine: event 1 in state 0 fires rule 0, whose
action is handed the machine in state 1. -/
theorem commit_before_action_witness :
    32 ≤ 64 ∧ masks_are_uint32 (fsm_table sample_rom (sample_fsm 0)) ∧
    first_match (fsm_table sample_rom (sample_fsm 0)) 1 0 0 sample_rule0 ∧
    guard_allows sample_rule0 (sample_fsm 0) none 0 ∧
    sample_rule0.action = some sample_count ∧
    ∃ out, fsm_process_event 64 sample_rom (sample_fsm 0) 1 none 0 = .ok out ∧
      out.result = FSM_RESULT_SUCCESS ∧
      (∃ (m : fsm_t) (wg : Nat), callback_call.action 0 m none ∈ out.calls ∧
        fsm_current_state m = sample_rule0.target_state ∧
        out.self = (sample_count m none wg).1 ∧ out.world = (sample_count m none wg).2) ∧
      (∀ idx m d, callback_call.action idx m d ∈ out.calls →
        idx = 0 ∧ d = none ∧ fsm_current_state m = sample_rule0.target_state) :=
  ⟨by decide, sample_masks 0, sample_first_match_rule0, (fun g hg => by cases hg), rfl,
    commit_before_action 64 sample_rom (sample_fsm 0) 1 none 0 0 sample_rule0 sample_count
      (by decide) (sample_masks 0) sample_first_match_rule0 (fun g hg => by cases hg) rfl⟩

/-! ## Initialisation -/

/-- A validation loop that runs to its end has read every rule it was asked to
check and found every target below `FSM_MAX_STATES`. -/
theorem fsm_init_scan_true {W : Type} (rules : List (fsm_transition_t W)) :
    ∀ (n i : Nat), fsm_init_scan rules n i = .ok true →
      ∀ j, i ≤ j → j < i + n →
        ∃ r, rules[j]? = some r ∧ r.target_state < FSM_MAX_STATES := by
  intro n
  induction n with
  | zero => intro i _ j h1 h2; omega
  | succ n ih =>
    intro i h j h1 h2
    unfold fsm_init_scan at h
    cases hr : rules[i]? with
    | none => simp [hr] at h
    | some rule =>
      simp only [hr] at h
      by_cases hbad : rule.target_state ≥ FSM_MAX_STATES
      · simp [hbad] at h
      · simp only [hbad, if_false] at h
        rcases Nat.eq_or_lt_of_le h1 with heq | hlt
        · subst heq; exact ⟨rule, hr, by omega⟩
        · exact ih (i + 1) h j hlt (by omega)

/-- On rules that are all in the array the validation loop returns, and it
runs to its end exactly when every checked target is below `FSM_MAX_STATES`. -/
theorem fsm_init_scan_readable {W : Type} (rules : List (fsm_transition_t W)) :
    ∀ (n i : Nat), i + n ≤ rules.length →
      ∃ b, fsm_init_scan rules n i = .ok b ∧
        (b = true ↔ ∀ (j : Nat) (r : fsm_transition_t W), i ≤ j → j < i + n →
          rules[j]? = some r → r.target_state < FSM_MAX_STATES) := by
  intro n
  induction n with
  | zero =>
    intro i _
    exact ⟨true, rfl, fun _ => fun j r h1 h2 => by omega, fun _ => rfl⟩
  | succ n ih =>
    intro i hlen
    have hi : rules[i]? = some rules[i] := List.getElem?_eq_getElem (by omega)
    unfold fsm_init_scan
    simp only [hi]
    by_cases hbad : rules[i].target_state ≥ FSM_MAX_STATES
    · refine ⟨false, by simp [hbad], ⟨fun h => (by cases h), fun h => ?_⟩⟩
      have := h i rules[i] (le_refl i) (by omega) hi
      omega
    · obtain ⟨b, hb, hiff⟩ := ih (i + 1) (by omega)
      refine ⟨b, by simp [hbad, hb], ⟨fun h j r h1 h2 hj => ?_, fun h => ?_⟩⟩
      · rcases Nat.eq_or_lt_of_le h1 with heq | hlt
        · subst heq; rw [hi] at hj; cases hj; omega
        · exact hiff.1 h j r hlt (by omega) hj
      · exact hiff.2 (fun j r h1 h2 hj => h j r (by omega) (by omega) hj)

/-- A successful `fsm_init` was given a table pointer and a non-zero count, read
`transition_count` rules with targets below `FSM_MAX_STATES`, and wrote the
state, the table pointer and the count; it did not write `userdata`. -/
theorem fsm_init_success {W : Type} (rom : Nat → List (fsm_transition_t W)) (m : fsm_t)
    (initial_state : Nat) (transition_rules : Option Nat) (transition_count : Nat)
    (res : Option fsm_t)
    (h : fsm_init rom (some m) initial_state transition_rules transition_count =
      .ok (FSM_RESULT_SUCCESS, res)) :
    ∃ p, transition_rules = some p ∧ transition_count ≠ 0 ∧
      fsm_init_scan (rom p) transition_count 0 = .ok true ∧
      res = some { userdata := m.userdata, transition_rules := some p,
                   transition_count := transition_count, current_state := initial_state } := by
  unfold fsm_init at h
  cases transition_rules with
  | none => simp at h
  | some p =>
    simp only at h
    by_cases hc : transition_count = 0
    · simp [hc] at h
    · simp only [hc, if_false] at h
      cases hs : fsm_init_scan (rom p) transition_count 0 with
      | error e => simp [hs] at h
      | ok b =>
        cases b with
        | false => simp [hs] at h
        | true =>
          simp only [hs, Except.ok.injEq, Prod.mk.injEq, true_and] at h
          exact ⟨p, rfl, hc, hs, h.symm⟩

/-- The result of `fsm_init` on a non-null machine, a count that does not
exceed the array, and any initial state: `FSM_RESULT_INVALID_PARAMS` exactly
when the table pointer is `NULL`, the count is 0 or some checked rule has a bad
target, and `FSM_RESULT_SUCCESS` otherwise. -/
theorem fsm_init_returns {W : Type} (rom : Nat → List (fsm_transition_t W)) (m : fsm_t)
    (initial_state : Nat) (transition_rules : Option Nat) (transition_count : Nat)
    (hlen : ∀ p, transition_rules = some p → transition_count ≤ (rom p).length) :
    ∃ res, fsm_init rom (some m) initial_state transition_rules transition_count = .ok res ∧
      (res.1 = FSM_RESULT_INVALID_PARAMS ↔
        (transition_rules = none ∨ transition_count = 0 ∨
          ∃ p, transition_rules = some p ∧ has_bad_target (rom p) transition_count)) ∧
      (res.1 ≠ FSM_RESULT_INVALID_PARAMS → res.1 = FSM_RESULT_SUCCESS) := by
  unfold fsm_init
  cases transition_rules with
  | none => exact ⟨_, rfl, by simp, by simp⟩
  | some p =>
    simp only
    by_cases hc : transition_count = 0
    · exact ⟨_, by simp only [hc, if_true]; rfl, by simp [hc], by simp⟩
    · obtain ⟨b, hb, hiff⟩ := fsm_init_scan_readable (rom p) transition_count 0
        (by have := hlen p rfl; omega)
      have hbad : has_bad_target (rom p) transition_count ↔ b = false := by
        unfold has_bad_target
        constructor
        · rintro ⟨r, hr, hge⟩
          obtain ⟨j, hj⟩ := List.mem_iff_getElem?.1 hr
          rw [getElem?_take_eq_some] at hj
          cases b with
          | false => rfl
          | true =>
            have := hiff.1 rfl j r (Nat.zero_le j) (by omega) hj.2
            omega
        · intro hbf
          by_contra hno
          push_neg at hno
          have : b = true := hiff.2 (fun j r _ h2 hj =>
            hno r (List.getElem?_mem
              ((getElem?_take_eq_some (rom p) transition_count j r).2 ⟨by omega, hj⟩)))
          rw [this] at hbf; cases hbf
      simp only [hc, if_false, hb]
      cases b with
      | false =>
        refine ⟨_, rfl, ?_, by simp⟩
        simp only [true_iff]
        exact Or.inr (Or.inr ⟨p, rfl, hbad.2 rfl⟩)
      | true =>
        refine ⟨_, rfl, ?_, by simp⟩
        constructor
        · intro h; cases h
        · rintro (h | h | ⟨q, hq, hb2⟩)
          · cases h
          · exact False.elim h
          · cases hq
            have := hbad.1 hb2
            cases this

theorem has_bad_target_congr {W : Type} (rules1 rules2 : List (fsm_transition_t W))
    (count : Nat)
    (h : (rules2.take count).map (fun r => r.target_state) =
      (rules1.take count).map (fun r => r.target_state)) :
    has_bad_target rules2 count ↔ has_bad_target rules1 count := by
  have key : ∀ l : List (fsm_transition_t W),
      (∃ r ∈ l, FSM_MAX_STATES ≤ r.target_state) ↔
        ∃ t ∈ l.map (fun r => r.target_state), FSM_MAX_STATES ≤ t := by
    intro l
    simp [List.mem_map]
  unfold has_bad_target
  rw [key, key, h]

/-- C6: for every non-null machine pointer, initial state, table reference and
count (not exceeding the array the reference points to), `fsm_init` returns
`FSM_RESULT_INVALID_PARAMS` if and only if the table reference is absent, or
the count is 0, or some rule among the first `count` rules has
`target_state >= 32`; otherwise it returns `FSM_RESULT_SUCCESS`.  The result
is the same for every initial state, every prior content of the machine and
every table with the same target states: events, masks, guards and actions
play no part. -/
theorem fsm_init_invalid_params_iff {W : Type} (rom : Nat → List (fsm_transition_t W))
    (m : fsm_t) (initial_state : Nat) (transition_rules : Option Nat)
    (transition_count : Nat)
    (hlen : ∀ p, transition_rules = some p → transition_count ≤ (rom p).length) :
    ∃ res, fsm_init rom (some m) initial_state transition_rules transition_count = .ok res ∧
      (res.1 = FSM_RESULT_INVALID_PARAMS ↔
        (transition_rules = none ∨ transition_count = 0 ∨
          ∃ p, transition_rules = some p ∧
            ∃ r ∈ (rom p).take transition_count, 32 ≤ r.target_state)) ∧
      (res.1 ≠ FSM_RESULT_INVALID_PARAMS → res.1 = FSM_RESULT_SUCCESS) ∧
      (∀ (rom2 : Nat → List (fsm_transition_t W)) (m2 : fsm_t) (initial_state2 : Nat),
        (∀ p, transition_rules = some p →
          transition_count ≤ (rom2 p).length ∧
          ((rom2 p).take transition_count).map (fun r => r.target_state) =
            ((rom p).take transition_count).map (fun r => r.target_state)) →
        ∃ res2, fsm_init rom2 (some m2) initial_state2 transition_rules transition_count =
            .ok res2 ∧ res2.1 = res.1) := by
  obtain ⟨res, hres, hiff, hsucc⟩ :=
    fsm_init_returns rom m initial_state transition_rules transition_count hlen
  refine ⟨res, hres, hiff, hsucc, fun rom2 m2 s2 h2 => ?_⟩
  obtain ⟨res2, hres2, hiff2, hsucc2⟩ :=
    fsm_init_returns rom2 m2 s2 transition_rules transition_count (fun p hp => (h2 p hp).1)
  refine ⟨res2, hres2, ?_⟩
  have hsame : res2.1 = FSM_RESULT_INVALID_PARAMS ↔ res.1 = FSM_RESULT_INVALID_PARAMS := by
    rw [hiff, hiff2]
    constructor
    · rintro (h | h | ⟨p, hp, hb⟩)
      · exact Or.inl h
      · exact Or.inr (Or.inl h)
      · exact Or.inr (Or.inr ⟨p, hp, (has_bad_target_congr _ _ _ (h2 p hp).2).1 hb⟩)
    · rintro (h | h | ⟨p, hp, hb⟩)
      · exact Or.inl h
      · exact Or.inr (Or.inl h)
      · exact Or.inr (Or.inr ⟨p, hp, (has_bad_target_congr _ _ _ (h2 p hp).2).2 hb⟩)
  by_cases hinv : res.1 = FSM_RESULT_INVALID_PARAMS
  · rw [hinv]; exact hsame.2 hinv
  · rw [hsucc hinv]
    exact hsucc2 (fun h => hinv (hsame.1 h))

/-- Witness of C6: the sample table (three rules, targets 1, 2, 0) is accepted
with initial state 200. -/
theorem fsm_init_invalid_params_iff_witness :
    (∀ p, some 7 = some p → 3 ≤ (sample_rom p).length) ∧
    ∃ res, fsm_init sample_rom (some (sample_fsm 0)) 200 (some 7) 3 = .ok res ∧
      res.1 = FSM_RESULT_SUCCESS := by
  have hlen : ∀ p, some 7 = some p → 3 ≤ (sample_rom p).length := by
    intro p hp
    cases hp
    decide
  obtain ⟨res, hres, _, _, hother⟩ :=
    fsm_init_invalid_params_iff sample_rom (sample_fsm 0) 0 (some 7) 3 hlen
  obtain ⟨res2, hres2, heq⟩ := hother sample_rom (sample_fsm 0) 200 (fun p hp => ⟨hlen p hp, rfl⟩)
  refine ⟨hlen, res2, hres2, ?_⟩
  rw [heq]
  have h0 : fsm_init sample_rom (some (sample_fsm 0)) 0 (some 7) 3 =
      .ok (FSM_RESULT_SUCCESS, some (sample_fsm 0)) := rfl
  rw [h0] at hres
  cases hres
  rfl

/-- Counterexample to C7 as stated: `fsm_init` on a machine whose `userdata`
holds the address 99 succeeds and sets the state, the table pointer and the
count, but the user context it leaves is still 99, not `NULL`. -/
theorem fsm_init_leaves_userdata :
    ∃ m1, fsm_init sample_rom
        (some { userdata := some 99, transition_rules := none, transition_count := 0,
                current_state := 200 }) 0 (some 7) 3 = .ok (FSM_RESULT_SUCCESS, some m1) ∧
      m1.current_state = 0 ∧ m1.transition_rules = some 7 ∧ m1.transition_count = 3 ∧
      fsm_userdata m1 = some 99 ∧ fsm_userdata m1 ≠ none :=
  ⟨{ userdata := some 99, transition_rules := some 7, transition_count := 3,
     current_state := 0 }, rfl, rfl, rfl, rfl, rfl, by decide⟩

/-- C7, amended: for every initial state and every non-empty table (a non-zero
count that does not exceed the array) whose target states are all below 32,
`fsm_init` succeeds and leaves the machine with `current_state` equal to the
initial state, `transition_rules` and `transition_count` referring to the
given table, and `userdata` as it was before the call: `fsm_init` does not
write it. -/
theorem fsm_init_success_machine {W : Type} (rom : Nat → List (fsm_transition_t W))
    (m0 : fsm_t) (initial_state p transition_count : Nat)
    (hcount : transition_count ≠ 0) (hlen : transition_count ≤ (rom p).length)
    (htargets : ∀ r ∈ (rom p).take transition_count, r.target_state < 32) :
    ∃ m1, fsm_init rom (some m0) initial_state (some p) transition_count =
        .ok (FSM_RESULT_SUCCESS, some m1) ∧
      fsm_current_state m1 = initial_state ∧
      m1.transition_rules = some p ∧ m1.transition_count = transition_count ∧
      fsm_table rom m1 = (rom p).take transition_count ∧
      fsm_userdata m1 = fsm_userdata m0 := by
  obtain ⟨res, hres, hiff, hsucc⟩ := fsm_init_returns rom m0 initial_state (some p)
    transition_count (fun q hq => by cases hq; exact hlen)
  have hok : res.1 = FSM_RESULT_SUCCESS := by
    apply hsucc
    intro hinv
    rcases hiff.1 hinv with h | h | ⟨q, hq, r, hr, hge⟩
    · cases h
    · exact hcount h
    · cases hq
      have := htargets r hr
      unfold FSM_MAX_STATES at hge
      omega
  obtain ⟨code, mach⟩ := res
  simp only at hok
  subst hok
  obtain ⟨q, hq, _, _, hm⟩ := fsm_init_success rom m0 initial_state (some p)
    transition_count mach hres
  cases hq
  subst hm
  exact ⟨_, hres, rfl, rfl, rfl, rfl, rfl⟩

/-- Witness of amended C7: the sample table is installed in a machine that held
the user context 99, which it still holds. -/
theorem fsm_init_success_machine_witness :
    3 ≠ 0 ∧ 3 ≤ (sample_rom 7).length ∧
    (∀ r ∈ (sample_rom 7).take 3, r.target_state < 32) ∧
    ∃ m1, fsm_init sample_rom
        (some { userdata := some 99, transition_rules := none, transition_count := 0,
                current_state := 200 }) 5 (some 7) 3 = .ok (FSM_RESULT_SUCCESS, some m1) ∧
      fsm_current_state m1 = 5 ∧ m1.transition_rules = some 7 ∧ m1.transition_count = 3 ∧
      fsm_table sample_rom m1 = (sample_rom 7).take 3 ∧
      fsm_userdata m1 = some 99 := by
  have htargets : ∀ r ∈ (sample_rom 7).take 3, r.target_state < 32 := by
    intro r hr
    have hr1 : r ∈ sample_rules := by simpa [sample_rom, sample_rules] using hr
    simp only [sample_rules, List.mem_cons, List.mem_singleton, List.not_mem_nil,
      or_false] at hr1
    rcases hr1 with rfl | rfl | rfl <;> decide
  exact ⟨by decide, by decide, htargets,
    fsm_init_success_machine sample_rom
      { userdata := some 99, transition_rules := none, transition_count := 0,
        current_state := 200 } 5 7 3 (by decide) (by decide) htargets⟩

/-- C8, at a failing input: `fsm_init` accepts initial state 32 on the sample
table, so the machine it produces has a current state that is not below
`FSM_MAX_STATES`, and it still has after a call of `fsm_process_event` (with
callbacks that do not write the machine). -/
theorem fsm_init_accepts_state_32 :
    fsm_init sample_rom (some (sample_fsm 0)) 32 (some 7) 3 =
      .ok (FSM_RESULT_SUCCESS, some (sample_fsm 32)) ∧
    ¬ fsm_current_state (sample_fsm 32) < FSM_MAX_STATES ∧
    callbacks_keep_machine (fsm_table sample_rom (sample_fsm 32)) ∧
    fsm_process_event 64 sample_rom (sample_fsm 32) 1 none 0 =
      .ok ⟨FSM_RESULT_NO_TRANSITION_FOR_STATE, sample_fsm 32, 0, []⟩ :=
  ⟨rfl, by decide, sample_keep 32, rfl⟩

/-! ## Sequences of calls -/

/-- One returning call with callbacks that do not write the machine: either it
succeeded and the machine differs only by the committed target of the first
matching rule, or it did not succeed and the machine is as before. -/
theorem fsm_process_event_step {W : Type} (ulong_bits : Nat)
    (rom : Nat → List (fsm_transition_t W)) (self : fsm_t) (event : Nat) (data : Option Nat)
    (w : W) (out : outcome W)
    (hkeep : callbacks_keep_machine (fsm_table rom self))
    (h : fsm_process_event ulong_bits rom self event data w = .ok out) :
    (out.result = FSM_RESULT_SUCCESS ∧
      ∃ i r, first_match (fsm_table rom self) event self.current_state i r ∧
        out.self = { self with current_state := r.target_state }) ∨
    (out.result ≠ FSM_RESULT_SUCCESS ∧ out.self = self) := by
  rcases fsm_process_event_ok ulong_bits rom self event data w out h with
    ⟨ho, _⟩ | ⟨k, r, hfirst, ho⟩
  · right
    subst ho
    exact ⟨fun hne => (by cases hne), rfl⟩
  · subst ho
    have hself := fsm_fire_self k r self data w (hkeep r (List.getElem?_mem hfirst.1))
    by_cases hres : (fsm_fire k r self data w).result = FSM_RESULT_SUCCESS
    · left
      rw [if_pos hres] at hself
      exact ⟨hres, k, r, hfirst, hself⟩
    · right
      rw [if_neg hres] at hself
      exact ⟨hres, hself⟩

theorem fsm_table_set_state {W : Type} (rom : Nat → List (fsm_transition_t W)) (self : fsm_t)
    (state : Nat) : fsm_table rom { self with current_state := state } = fsm_table rom self :=
  rfl

/-- A returning call with callbacks that do not write the machine leaves the
table of the machine as it was. -/
theorem fsm_process_event_table {W : Type} (ulong_bits : Nat)
    (rom : Nat → List (fsm_transition_t W)) (self : fsm_t) (event : Nat) (data : Option Nat)
    (w : W) (out : outcome W)
    (hkeep : callbacks_keep_machine (fsm_table rom self))
    (h : fsm_process_event ulong_bits rom self event data w = .ok out) :
    out.self.transition_rules = self.transition_rules ∧
      out.self.transition_count = self.transition_count ∧
      fsm_table rom out.self = fsm_table rom self := by
  rcases fsm_process_event_step ulong_bits rom self event data w out hkeep h with
    ⟨_, _, _, _, hs⟩ | ⟨_, hs⟩ <;> rw [hs] <;> exact ⟨rfl, rfl, rfl⟩

theorem fsm_run_cons {W : Type} (ulong_bits : Nat) (rom : Nat → List (fsm_transition_t W))
    (self : fsm_t) (w : W) (event : Nat) (data : Option Nat)
    (rest : List (Nat × Option Nat)) (steps : List (run_step W))
    (h : fsm_run ulong_bits rom self w ((event, data) :: rest) = .ok steps) :
    ∃ out tail, fsm_process_event ulong_bits rom self event data w = .ok out ∧
      fsm_run ulong_bits rom out.self out.world rest = .ok tail ∧
      steps = ⟨self, event, data, out⟩ :: tail := by
  unfold fsm_run at h
  cases hp : fsm_process_event ulong_bits rom self event data w with
  | error e => simp [hp] at h
  | ok out =>
    simp only [hp] at h
    cases hr : fsm_run ulong_bits rom out.self out.world rest with
    | error e => simp [hr] at h
    | ok tail =>
      simp only [hr, Except.ok.injEq] at h
      exact ⟨out, tail, rfl, hr, h.symm⟩

/-- Along a returning run with callbacks that do not write the machine, the
state after every call is the state the run started in, or the target of a
rule for which that call or an earlier one returned success. -/
theorem fsm_run_reachable {W : Type} (ulong_bits : Nat)
    (rom : Nat → List (fsm_transition_t W)) :
    ∀ (events : List (Nat × Option Nat)) (self : fsm_t) (w : W) (steps : List (run_step W)),
      callbacks_keep_machine (fsm_table rom self) →
      fsm_run ulong_bits rom self w events = .ok steps →
      ∀ (k : Nat) (st : run_step W), steps[k]? = some st →
        st.out.self.current_state = self.current_state ∨
        ∃ (j : Nat) (sj : run_step W), j ≤ k ∧ steps[j]? = some sj ∧
          committed_by (fsm_table rom self) sj st.out.self.current_state := by
  intro events
  induction events with
  | nil =>
    intro self w steps _ h k st hk
    simp only [fsm_run, Except.ok.injEq] at h
    subst h
    simp at hk
  | cons ev rest ih =>
    intro self w steps hkeep h k st hk
    obtain ⟨event, data⟩ := ev
    obtain ⟨out, tail, hp, hr, hsteps⟩ := fsm_run_cons ulong_bits rom self w event data rest steps h
    subst hsteps
    have htab := (fsm_process_event_table ulong_bits rom self event data w out hkeep hp).2.2
    have hstep := fsm_process_event_step ulong_bits rom self event data w out hkeep hp
    -- the state after the first call is the start state or a committed target
    have hfirst : out.self.current_state = self.current_state ∨
        committed_by (fsm_table rom self) ⟨self, event, data, out⟩ out.self.current_state := by
      rcases hstep with ⟨hres, i, r, hfm, hs⟩ | ⟨_, hs⟩
      · right
        exact ⟨hres, i, r, hfm, by rw [hs]⟩
      · left
        rw [hs]
    cases k with
    | zero =>
      simp only [List.getElem?_cons_zero, Option.some.injEq] at hk
      subst hk
      rcases hfirst with h1 | h1
      · exact Or.inl h1
      · exact Or.inr ⟨0, ⟨self, event, data, out⟩, le_refl 0, List.getElem?_cons_zero, h1⟩
    | succ k =>
      simp only [List.getElem?_cons_succ] at hk
      rcases ih out.self out.world tail (by rw [htab]; exact hkeep) hr k st hk with
        h1 | ⟨j, sj, hjk, hj, hc⟩
      · rw [h1]
        rcases hfirst with h2 | h2
        · exact Or.inl h2
        · exact Or.inr ⟨0, ⟨self, event, data, out⟩, Nat.zero_le _,
            List.getElem?_cons_zero, h2⟩
      · rw [htab] at hc
        exact Or.inr ⟨j + 1, sj, by omega, by simpa using hj, hc⟩

/-- A run from a state below 32 over a readable table, all of whose targets are
below 32, with callbacks that do not write the machine and an `unsigned long`
of at least 32 bits: every call returns and every state stays below 32. -/
theorem fsm_run_in_range {W : Type} (ulong_bits : Nat)
    (rom : Nat → List (fsm_transition_t W)) (hw : 32 ≤ ulong_bits) :
    ∀ (events : List (Nat × Option Nat)) (self : fsm_t) (w : W),
      table_readable rom self →
      callbacks_keep_machine (fsm_table rom self) →
      (∀ r ∈ fsm_table rom self, r.target_state < 32) →
      self.current_state < 32 →
      ∃ steps, fsm_run ulong_bits rom self w events = .ok steps ∧
        steps.length = events.length ∧
        ∀ st ∈ steps, st.before.current_state < 32 ∧ st.out.self.current_state < 32 := by
  intro events
  induction events with
  | nil =>
    intro self w _ _ _ _
    exact ⟨[], rfl, rfl, fun st hst => by cases hst⟩
  | cons ev rest ih =>
    intro self w hread hkeep htargets hstate
    obtain ⟨event, data⟩ := ev
    obtain ⟨out, hp⟩ := fsm_process_event_returns ulong_bits rom self event data w hread
      (by omega)
    obtain ⟨hrules, hcount, htab⟩ :=
      fsm_process_event_table ulong_bits rom self event data w out hkeep hp
    have hout : out.self.current_state < 32 := by
      rcases fsm_process_event_step ulong_bits rom self event data w out hkeep hp with
        ⟨_, i, r, hfm, hs⟩ | ⟨_, hs⟩
      · rw [hs]
        exact htargets r (List.getElem?_mem hfm.1)
      · rw [hs]; exact hstate
    have hread2 : table_readable rom out.self := by
      obtain ⟨p, hp1, hp2⟩ := hread
      exact ⟨p, by rw [hrules, hp1], by rw [hcount]; exact hp2⟩
    obtain ⟨tail, hr, hlen, hall⟩ := ih out.self out.world hread2
      (by rw [htab]; exact hkeep) (by rw [htab]; exact htargets) hout
    refine ⟨⟨self, event, data, out⟩ :: tail, ?_, by simp [hlen], ?_⟩
    · simp only [fsm_run, hp, hr]
    · intro st hst
      rcases List.mem_cons.1 hst with h1 | h1
      · subst h1; exact ⟨hstate, hout⟩
      · exact hall st h1

/-- The machine a successful `fsm_init` produces has a readable table all of
whose targets are below 32. -/
theorem fsm_init_success_table {W : Type} (rom : Nat → List (fsm_transition_t W))
    (m0 : fsm_t) (initial_state : Nat) (transition_rules : Option Nat)
    (transition_count : Nat) (m1 : fsm_t)
    (h : fsm_init rom (some m0) initial_state transition_rules transition_count =
      .ok (FSM_RESULT_SUCCESS, some m1)) :
    m1.current_state = initial_state ∧ table_readable rom m1 ∧
      ∀ r ∈ fsm_table rom m1, r.target_state < 32 := by
  obtain ⟨p, _, hc, hscan, hm1⟩ := fsm_init_success rom m0 initial_state transition_rules
    transition_count (some m1) h
  cases hm1
  have hall := fsm_init_scan_true (rom p) transition_count 0 hscan
  refine ⟨rfl, ⟨p, rfl, ?_⟩, fun r hr => ?_⟩
  · obtain ⟨r, hr, _⟩ := hall (transition_count - 1) (Nat.zero_le _) (by omega)
    have := (List.getElem?_eq_some.1 hr).1
    show transition_count ≤ (rom p).length
    omega
  · have hr1 : r ∈ (rom p).take transition_count := hr
    obtain ⟨j, hj⟩ := List.mem_iff_getElem?.1 hr1
    rw [getElem?_take_eq_some] at hj
    obtain ⟨r1, hr1, ht⟩ := hall j (Nat.zero_le j) (by omega)
    rw [hj.2] at hr1
    cases hr1
    exact ht

/-- C9 (reachable-state invariant): for the machine a successful `fsm_init`
produces with initial state `s0`, and every finite sequence of calls of
`fsm_process_event` with callbacks that do not write the machine, the current
state after initialisation is `s0`, and after every call of a returning run it
is `s0` or the target state of a rule of the table for which that call or an
earlier one returned success; when `s0 < 32` every call returns and the state
is below 32 before and after every call. -/
theorem reachable_state_invariant {W : Type} (ulong_bits : Nat)
    (rom : Nat → List (fsm_transition_t W)) (m0 : fsm_t) (s0 : Nat)
    (transition_rules : Option Nat) (transition_count : Nat) (m1 : fsm_t) (w : W)
    (events : List (Nat × Option Nat)) (hw : 32 ≤ ulong_bits)
    (hinit : fsm_init rom (some m0) s0 transition_rules transition_count =
      .ok (FSM_RESULT_SUCCESS, some m1))
    (hkeep : callbacks_keep_machine (fsm_table rom m1)) :
    m1.current_state = s0 ∧
    (∀ steps, fsm_run ulong_bits rom m1 w events = .ok steps →
      ∀ (k : Nat) (st : run_step W), steps[k]? = some st →
        st.out.self.current_state = s0 ∨
        ∃ (j : Nat) (sj : run_step W), j ≤ k ∧ steps[j]? = some sj ∧
          committed_by (fsm_table rom m1) sj st.out.self.current_state) ∧
    (s0 < 32 →
      ∃ steps, fsm_run ulong_bits rom m1 w events = .ok steps ∧
        steps.length = events.length ∧
        ∀ st ∈ steps, st.before.current_state < 32 ∧ st.out.self.current_state < 32) := by
  obtain ⟨hs0, hread, htargets⟩ :=
    fsm_init_success_table rom m0 s0 transition_rules transition_count m1 hinit
  refine ⟨hs0, fun steps hrun k st hk => ?_, fun hlt => ?_⟩
  · have := fsm_run_reachable ulong_bits rom events m1 w steps hkeep hrun k st hk
    rwa [hs0] at this
  · exact fsm_run_in_range ulong_bits rom hw events m1 w hread hkeep htargets
      (by rw [hs0]; exact hlt)

/-- Witness of C9 on the sample machine, initialised at state 0 and presented
the events 1, 2, 1. -/
theorem reachable_state_invariant_witness :
    32 ≤ 64 ∧
    fsm_init sample_rom (some (sample_fsm 7)) 0 (some 7) 3 =
      .ok (FSM_RESULT_SUCCESS, some (sample_fsm 0)) ∧
    callbacks_keep_machine (fsm_table sample_rom (sample_fsm 0)) ∧
    ∃ steps, fsm_run 64 sample_rom (sample_fsm 0) 0 [(1, none), (2, none), (1, none)] =
        .ok steps ∧
      steps.length = 3 ∧
      ∀ st ∈ steps, st.before.current_state < 32 ∧ st.out.self.current_state < 32 :=
  ⟨by decide, rfl, sample_keep 0,
    (reachable_state_invariant 64 sample_rom (sample_fsm 7) 0 (some 7) 3 (sample_fsm 0) 0
      [(1, none), (2, none), (1, none)] (by decide) rfl (sample_keep 0)).2.2 (by decide)⟩

/-- C10: whenever `fsm_process_event` returns, on any machine, its result is
exactly one of `FSM_RESULT_SUCCESS`, `FSM_RESULT_GUARD_DENIED` and
`FSM_RESULT_NO_TRANSITION_FOR_STATE` (never one of the other three codes), and
it does return on every machine with a readable table whose current state is
below the width of `unsigned long`; `fsm_init` returns only
`FSM_RESULT_SUCCESS` or `FSM_RESULT_INVALID_PARAMS`, and does return whenever
the count does not exceed the array. -/
theorem result_codes {W : Type} (ulong_bits : Nat) (rom : Nat → List (fsm_transition_t W))
    (self : fsm_t) (event : Nat) (data : Option Nat) (w : W) :
    (∀ out, fsm_process_event ulong_bits rom self event data w = .ok out →
      (out.result = FSM_RESULT_SUCCESS ∨ out.result = FSM_RESULT_GUARD_DENIED ∨
        out.result = FSM_RESULT_NO_TRANSITION_FOR_STATE) ∧
      out.result ≠ FSM_RESULT_EVENT_OUT_OF_BOUNDS ∧
      out.result ≠ FSM_RESULT_STATE_OUT_OF_BOUNDS ∧
      out.result ≠ FSM_RESULT_INVALID_PARAMS) ∧
    (table_readable rom self → self.current_state < ulong_bits →
      ∃ out, fsm_process_event ulong_bits rom self event data w = .ok out) ∧
    (∀ (m : Option fsm_t) (initial_state : Nat) (transition_rules : Option Nat)
      (transition_count : Nat) (res : fsm_result_t × Option fsm_t),
      fsm_init rom m initial_state transition_rules transition_count = .ok res →
      res.1 = FSM_RESULT_SUCCESS ∨ res.1 = FSM_RESULT_INVALID_PARAMS) ∧
    (∀ (m : Option fsm_t) (initial_state : Nat) (transition_rules : Option Nat)
      (transition_count : Nat),
      (∀ p, transition_rules = some p → transition_count ≤ (rom p).length) →
      ∃ res, fsm_init rom m initial_state transition_rules transition_count = .ok res) := by
  refine ⟨fun out hout => ?_, fsm_process_event_returns ulong_bits rom self event data w,
    fun m s0 tr count res hres => ?_, fun m s0 tr count hlen => ?_⟩
  · have hcases : out.result = FSM_RESULT_SUCCESS ∨ out.result = FSM_RESULT_GUARD_DENIED ∨
        out.result = FSM_RESULT_NO_TRANSITION_FOR_STATE := by
      rcases fsm_process_event_ok ulong_bits rom self event data w out hout with
        ⟨ho, _⟩ | ⟨k, r, _, ho⟩
      · subst ho; exact Or.inr (Or.inr rfl)
      · subst ho
        rcases fsm_fire_result_cases k r self data w with h1 | h1
        · exact Or.inl h1
        · exact Or.inr (Or.inl h1)
    refine ⟨hcases, ?_, ?_, ?_⟩ <;>
      · intro hbad
        rw [hbad] at hcases
        rcases hcases with h | h | h <;> cases h
  · unfold fsm_init at hres
    cases m with
    | none =>
      simp only [Except.ok.injEq] at hres
      subst hres; exact Or.inr rfl
    | some m =>
      cases tr with
      | none =>
        simp only [Except.ok.injEq] at hres
        subst hres; exact Or.inr rfl
      | some p =>
        simp only at hres
        by_cases hc : count = 0
        · simp only [hc, if_true, Except.ok.injEq] at hres
          subst hres; exact Or.inr rfl
        · simp only [hc, if_false] at hres
          cases hs : fsm_init_scan (rom p) count 0 with
          | error e => simp [hs] at hres
          | ok b =>
            cases b <;> simp only [hs, Except.ok.injEq] at hres <;> subst hres
            · exact Or.inr rfl
            · exact Or.inl rfl
  · cases m with
    | none => exact ⟨_, rfl⟩
    | some m =>
      obtain ⟨res, hres, _⟩ := fsm_init_returns rom m s0 tr count hlen
      exact ⟨res, hres⟩

/-- Witness of C10 on the sample machine in state 1: the call for event 2
returns one of the three codes. -/
theorem result_codes_witness :
    table_readable sample_rom (sample_fsm 1) ∧ (sample_fsm 1).current_state < 64 ∧
    ∃ out, fsm_process_event 64 sample_rom (sample_fsm 1) 2 none 0 = .ok out ∧
      (out.result = FSM_RESULT_SUCCESS ∨ out.result = FSM_RESULT_GUARD_DENIED ∨
        out.result = FSM_RESULT_NO_TRANSITION_FOR_STATE) := by
  have h := result_codes 64 sample_rom (sample_fsm 1) 2 none 0
  obtain ⟨out, hout⟩ := h.2.1 (sample_readable 1) (by decide)
  exact ⟨sample_readable 1, by decide, out, hout, (h.1 out hout).1⟩

/-! ## Diagnostic strings and state masks -/

/-- C11: `fsm_result_string` is a total mapping on result codes: code 0
(SUCCESS) maps to "Success", 1 to "Guard denied", 2 to "No transition for
state", 3 to "Event out of bounds", 4 to "State out of bounds", 5 to "Invalid
parameters", every value outside 0..5 maps to the fallback "Unknown", and the
six labels are pairwise distinct and distinct from the fallback. -/
theorem fsm_result_string_total :
    fsm_result_string (FSM_RESULT_SUCCESS.code : Nat) = "Success" ∧
    fsm_result_string (FSM_RESULT_GUARD_DENIED.code : Nat) = "Guard denied" ∧
    fsm_result_string (FSM_RESULT_NO_TRANSITION_FOR_STATE.code : Nat) =
      "No transition for state" ∧
    fsm_result_string (FSM_RESULT_EVENT_OUT_OF_BOUNDS.code : Nat) = "Event out of bounds" ∧
    fsm_result_string (FSM_RESULT_STATE_OUT_OF_BOUNDS.code : Nat) = "State out of bounds" ∧
    fsm_result_string (FSM_RESULT_INVALID_PARAMS.code : Nat) = "Invalid parameters" ∧
    (∀ r : fsm_result_t, r.code ≤ 5) ∧
    (∀ v : Int, (v < 0 ∨ 5 < v) → fsm_result_string v = "Unknown") ∧
    (∀ v w : Int, 0 ≤ v → v ≤ 5 → 0 ≤ w → w ≤ 5 →
      fsm_result_string v = fsm_result_string w → v = w) ∧
    (∀ v : Int, 0 ≤ v → v ≤ 5 → fsm_result_string v ≠ "Unknown") := by
  refine ⟨by decide, by decide, by decide, by decide, by decide, by decide, ?_, ?_, ?_, ?_⟩
  · intro r
    cases r <;> decide
  · intro v hv
    unfold fsm_result_string
    have h0 : v ≠ 0 := by omega
    have h1 : v ≠ 1 := by omega
    have h2 : v ≠ 2 := by omega
    have h3 : v ≠ 3 := by omega
    have h4 : v ≠ 4 := by omega
    have h5 : v ≠ 5 := by omega
    simp [h0, h1, h2, h3, h4, h5]
  · intro v w hv0 hv5 hw0 hw5 h
    have hv : v = 0 ∨ v = 1 ∨ v = 2 ∨ v = 3 ∨ v = 4 ∨ v = 5 := by omega
    have hw : w = 0 ∨ w = 1 ∨ w = 2 ∨ w = 3 ∨ w = 4 ∨ w = 5 := by omega
    rcases hv with rfl | rfl | rfl | rfl | rfl | rfl <;>
      rcases hw with rfl | rfl | rfl | rfl | rfl | rfl <;>
      first
        | rfl
        | exact absurd h (by decide)
  · intro v hv0 hv5
    have hv : v = 0 ∨ v = 1 ∨ v = 2 ∨ v = 3 ∨ v = 4 ∨ v = 5 := by omega
    rcases hv with rfl | rfl | rfl | rfl | rfl | rfl <;> decide

/-- Witness of C11: the value 6, just past the last code, and the value -1 map
to the fallback; the labels of codes 1 and 2 differ. -/
theorem fsm_result_string_total_witness :
    fsm_result_string 6 = "Unknown" ∧ fsm_result_string (-1) = "Unknown" ∧
    ((1 : Int) = 2 ∨ fsm_result_string 1 ≠ fsm_result_string 2) :=
  ⟨fsm_result_string_total.2.2.2.2.2.2.2.1 6 (Or.inr (by decide)),
   fsm_result_string_total.2.2.2.2.2.2.2.1 (-1) (Or.inl (by decide)),
   Or.inr (fun h => absurd
     (fsm_result_string_total.2.2.2.2.2.2.2.2.1 1 2 (by decide) (by decide) (by decide)
       (by decide) h) (by decide))⟩

/-- C12, at a failing input: `FSM_STATES_MASK(1, 0)` is 2, the mask of state 1
alone: state 0 occurs in the list, at the second position, and bit 0 of the
result is not set.  The same two states with 0 first give 3. -/
theorem FSM_STATES_MASK_drops_later_zero :
    FSM_STATES_MASK 64 [1, 0] = some 2 ∧ 0 ∈ [1, 0] ∧ Nat.testBit 2 0 = false ∧
    FSM_STATES_MASK 64 [0, 1] = some 3 ∧
    FSM_STATES_MASK 32 [1, 0] = some 2 := by
  decide

/-- C13: for all states `s` and `t` in 0..31, `FSM_STATE_MASK(s)` is `2^s`
(state 0 gives 1, state 1 gives 2) and fits in the 32-bit source mask, the
membership test `FSM_STATE_IN_MASK(t, FSM_STATE_MASK(s))` is true if and only
if `t = s`, and `FSM_STATE_IN_MASK(t, m)` is true if and only if bit `t` of
the mask `m` is set. -/
theorem state_mask_membership (ulong_bits s t m : Nat) (hw : 32 ≤ ulong_bits)
    (hs : s < 32) (ht : t < 32) :
    FSM_STATE_MASK ulong_bits s = some (2 ^ s) ∧ 2 ^ s < 2 ^ 32 ∧
    FSM_STATE_MASK ulong_bits 0 = some 1 ∧ FSM_STATE_MASK ulong_bits 1 = some 2 ∧
    FSM_STATE_IN_MASK ulong_bits t (2 ^ s) = some (decide (t = s)) ∧
    FSM_STATE_IN_MASK ulong_bits t m = some (m.testBit t) := by
  have hsw : s < ulong_bits := by omega
  have htw : t < ulong_bits := by omega
  refine ⟨?_, ?_, ?_, ?_, ?_, ?_⟩
  · simp [FSM_STATE_MASK, hsw, Nat.one_shiftLeft]
  · exact Nat.pow_lt_pow_right (by decide) hs
  · have h0 : 0 < ulong_bits := by omega
    simp [FSM_STATE_MASK, h0]
  · have h1 : 1 < ulong_bits := by omega
    simp [FSM_STATE_MASK, h1]
  · rw [FSM_STATE_IN_MASK_of_lt _ htw]
    simp only [state_in_mask, Nat.testBit_two_pow, Option.some.injEq, decide_eq_decide]
    exact eq_comm
  · rw [FSM_STATE_IN_MASK_of_lt _ htw]
    rfl

/-- Witness of C13 with a 64-bit `unsigned long`: the bit of state 5 is 32, state
5 is in it, state 4 is not, and state 3 is in the mask 0b1010. -/
theorem state_mask_membership_witness :
    32 ≤ 64 ∧ 5 < 32 ∧ 4 < 32 ∧ 3 < 32 ∧
    FSM_STATE_MASK 64 5 = some 32 ∧
    FSM_STATE_IN_MASK 64 4 (2 ^ 5) = some false ∧
    FSM_STATE_IN_MASK 64 3 0b1010 = some true :=
  ⟨by decide, by decide, by decide, by decide,
    (state_mask_membership 64 5 4 0 (by decide) (by decide) (by decide)).1,
    (state_mask_membership 64 5 4 0 (by decide) (by decide) (by decide)).2.2.2.2.1,
    (state_mask_membership 64 5 3 0b1010 (by decide) (by decide) (by decide)).2.2.2.2.2⟩

/-! ## The traffic light example -/

/-- On a state that is a defined shift count for both, two widths of `unsigned
long` give the same scan. -/
theorem fsm_process_event_loop_width {W : Type} (ub1 ub2 : Nat)
    (rules : List (fsm_transition_t W)) (self : fsm_t) (event : Nat) (data : Option Nat)
    (w : W) (h1 : self.current_state < ub1) (h2 : self.current_state < ub2) :
    ∀ (n i : Nat), fsm_process_event_loop ub1 rules self event data w n i =
      fsm_process_event_loop ub2 rules self event data w n i := by
  intro n
  induction n with
  | zero => intro i; rfl
  | succ n ih =>
    intro i
    unfold fsm_process_event_loop
    simp only [FSM_STATE_IN_MASK_of_lt _ h1, FSM_STATE_IN_MASK_of_lt _ h2, ih]

/-- On a state that is a defined shift count for both, two widths of `unsigned
long` give the same call. -/
theorem fsm_process_event_width {W : Type} (ub1 ub2 : Nat)
    (rom : Nat → List (fsm_transition_t W)) (self : fsm_t) (event : Nat) (data : Option Nat)
    (w : W) (h1 : self.current_state < ub1) (h2 : self.current_state < ub2) :
    fsm_process_event ub1 rom self event data w =
      fsm_process_event ub2 rom self event data w := by
  unfold fsm_process_event
  cases self.transition_rules with
  | none => rfl
  | some p => exact fsm_process_event_loop_width ub1 ub2 (rom p) self event data w h1 h2 _ _

namespace traffic_light

/-- The masks of the table do not depend on the width of `unsigned long`. -/
theorem light_transitions_width (ulong_bits : Nat) (hw : 32 ≤ ulong_bits) :
    transitions ulong_bits = transitions 32 := by
  have h0 : 0 < ulong_bits := by omega
  have h1 : 1 < ulong_bits := by omega
  have h2 : 2 < ulong_bits := by omega
  have h3 : 3 < ulong_bits := by omega
  simp [transitions, FSM_STATES_MASK, __FSM_STATE_MASK_HELPER, mask_operand, FSM_STATE_MASK,
    STATE_RED, STATE_GREEN, STATE_YELLOW, STATE_EMERGENCY, h0, h1, h2, h3]

theorem light_rom_width (ulong_bits : Nat) (hw : 32 ≤ ulong_bits) : rom ulong_bits = rom 32 := by
  unfold rom
  rw [light_transitions_width ulong_bits hw]

end traffic_light

namespace traffic_light

/-- One timeout in red, green or yellow: the call succeeds and the machine
moves to the next light of the cycle, whatever the memory. -/
theorem timeout_step (ulong_bits : Nat) (hw : 32 ≤ ulong_bits) (s : Nat) (hs : s < 3)
    (data : Option Nat) (w : light_memory) :
    ∃ out, fsm_process_event ulong_bits (rom ulong_bits) (light_fsm s) EVENT_TIMEOUT data w =
        .ok out ∧
      out.result = FSM_RESULT_SUCCESS ∧ out.self = light_fsm ((s + 1) % 3) := by
  rw [light_rom_width ulong_bits hw,
    fsm_process_event_width ulong_bits 32 (rom 32) (light_fsm s) EVENT_TIMEOUT data w
      (by show s < ulong_bits; omega) (by show s < 32; omega)]
  have hcases : s = 0 ∨ s = 1 ∨ s = 2 := by omega
  rcases hcases with rfl | rfl | rfl <;> exact ⟨_, rfl, rfl, rfl⟩

/-- Consecutive timeouts from red, green or yellow all succeed and walk the
cycle red, green, yellow. -/
theorem timeout_run (ulong_bits : Nat) (hw : 32 ≤ ulong_bits) :
    ∀ (n s : Nat) (w : light_memory), s < 3 →
      ∃ steps, fsm_run ulong_bits (rom ulong_bits) (light_fsm s) w
          (List.replicate n (EVENT_TIMEOUT, none)) = .ok steps ∧
        steps.length = n ∧
        ∀ (k : Nat) (st : run_step light_memory), steps[k]? = some st →
          st.out.result = FSM_RESULT_SUCCESS ∧
          st.out.self.current_state = (s + k + 1) % 3 := by
  intro n
  induction n with
  | zero =>
    intro s w _
    exact ⟨[], rfl, rfl, fun k st hk => by simp at hk⟩
  | succ n ih =>
    intro s w hs
    obtain ⟨out, hout, hres, hself⟩ := timeout_step ulong_bits hw s hs none w
    obtain ⟨tail, htail, hlen, hall⟩ := ih ((s + 1) % 3) out.world (Nat.mod_lt _ (by decide))
    refine ⟨⟨light_fsm s, EVENT_TIMEOUT, none, out⟩ :: tail, ?_, by simp [hlen], ?_⟩
    · simp only [List.replicate_succ, fsm_run, hout, hself, htail]
    · intro k st hk
      cases k with
      | zero =>
        simp only [List.getElem?_cons_zero, Option.some.injEq] at hk
        subst hk
        refine ⟨hres, ?_⟩
        show out.self.current_state = (s + 0 + 1) % 3
        rw [hself]
        rfl
      | succ k =>
        simp only [List.getElem?_cons_succ] at hk
        obtain ⟨h1, h2⟩ := hall k st hk
        refine ⟨h1, ?_⟩
        rw [h2]
        omega

end traffic_light

namespace traffic_light

theorem state_after_timeouts_eq (n : Nat) : state_after_timeouts n = n % 3 := by
  unfold state_after_timeouts STATE_GREEN STATE_YELLOW STATE_RED
  split
  · omega
  · split <;> omega

/-- C14 (traffic light): with the example's table, `fsm_init` at Red followed
by `fsm_set_userdata` gives the machine of `main`, and for every `n >= 1` and
every memory the `n` consecutive Timeout events all return
`FSM_RESULT_SUCCESS`, the `k`-th leaving the state at Green, Yellow, Red for
`k mod 3 = 1, 2, 0`; three Timeout events from Red give Green, Yellow, Red. -/
theorem timeouts_cycle (ulong_bits : Nat) (hw : 32 ≤ ulong_bits) (m0 : fsm_t)
    (w : light_memory) (n : Nat) (hn : 1 ≤ n) :
    (∃ m1, fsm_init (rom ulong_bits) (some m0) STATE_RED (some transitions_addr) 5 =
        .ok (FSM_RESULT_SUCCESS, some m1) ∧
      fsm_set_userdata m1 (some light_ctx_addr) = light_fsm STATE_RED) ∧
    (∃ steps, fsm_run ulong_bits (rom ulong_bits) (light_fsm STATE_RED) w
        (List.replicate n (EVENT_TIMEOUT, none)) = .ok steps ∧
      steps.length = n ∧
      (∀ (k : Nat) (st : run_step light_memory), steps[k]? = some st →
        st.out.result = FSM_RESULT_SUCCESS ∧
        st.out.self.current_state = state_after_timeouts (k + 1)) ∧
      (∃ last, steps[n - 1]? = some last ∧ last.out.result = FSM_RESULT_SUCCESS ∧
        last.out.self.current_state = state_after_timeouts n)) ∧
    (∃ steps, fsm_run ulong_bits (rom ulong_bits) (light_fsm STATE_RED) w
        (List.replicate 3 (EVENT_TIMEOUT, none)) = .ok steps ∧
      steps.map (fun st => (st.out.result, st.out.self.current_state)) =
        [(FSM_RESULT_SUCCESS, STATE_GREEN), (FSM_RESULT_SUCCESS, STATE_YELLOW),
         (FSM_RESULT_SUCCESS, STATE_RED)]) := by
  refine ⟨?_, ?_, ?_⟩
  · rw [light_rom_width ulong_bits hw]
    exact ⟨_, rfl, rfl⟩
  · obtain ⟨steps, hrun, hlen, hall⟩ := timeout_run ulong_bits hw n 0 w (by decide)
    have hstate : ∀ (k : Nat) (st : run_step light_memory), steps[k]? = some st →
        st.out.result = FSM_RESULT_SUCCESS ∧
        st.out.self.current_state = state_after_timeouts (k + 1) := by
      intro k st hk
      obtain ⟨h1, h2⟩ := hall k st hk
      refine ⟨h1, ?_⟩
      rw [h2, state_after_timeouts_eq]
      omega
    have hlast : n - 1 < steps.length := by omega
    refine ⟨steps, hrun, hlen, hstate, steps[n - 1], List.getElem?_eq_getElem hlast, ?_⟩
    have := hstate (n - 1) steps[n - 1] (List.getElem?_eq_getElem hlast)
    rwa [Nat.sub_add_cancel hn] at this
  · obtain ⟨steps, hrun, hlen, hall⟩ := timeout_run ulong_bits hw 3 0 w (by decide)
    refine ⟨steps, hrun, ?_⟩
    match steps, hlen, hall with
    | [a, b, c], _, hall =>
      obtain ⟨ha1, ha2⟩ := hall 0 a rfl
      obtain ⟨hb1, hb2⟩ := hall 1 b rfl
      obtain ⟨hc1, hc2⟩ := hall 2 c rfl
      simp only [List.map_cons, List.map_nil, ha1, ha2, hb1, hb2, hc1, hc2]
      rfl

end traffic_light

namespace traffic_light

/-- Witness of C14: on a 64-bit `unsigned long`, from the memory of `main`, the
fourth consecutive timeout succeeds and shows green. -/
theorem timeouts_cycle_witness :
    32 ≤ 64 ∧ 1 ≤ 4 ∧
    ∃ steps last, fsm_run 64 (rom 64) (light_fsm STATE_RED) main_memory
        (List.replicate 4 (EVENT_TIMEOUT, none)) = .ok steps ∧
      steps.length = 4 ∧ steps[4 - 1]? = some last ∧
      last.out.result = FSM_RESULT_SUCCESS ∧
      last.out.self.current_state = STATE_GREEN := by
  obtain ⟨_, ⟨steps, hrun, hlen, _, last, hlast, hres, hstate⟩, _⟩ :=
    timeouts_cycle 64 (by decide) (sample_fsm 9) main_memory 4 (by decide)
  exact ⟨by decide, by decide, steps, last, hrun, hlen, hlast, hres, hstate⟩

end traffic_light

/-! ## The vending machine example -/

/-- A returning run whose calls all start in a state that is a defined shift
count for another width of `unsigned long` is also the run for that width. -/
theorem fsm_run_width {W : Type} (ub1 ub2 : Nat) (rom : Nat → List (fsm_transition_t W)) :
    ∀ (events : List (Nat × Option Nat)) (self : fsm_t) (w : W) (steps : List (run_step W)),
      fsm_run ub2 rom self w events = .ok steps →
      (∀ st ∈ steps, st.before.current_state < ub1 ∧ st.before.current_state < ub2) →
      fsm_run ub1 rom self w events = .ok steps := by
  intro events
  induction events with
  | nil =>
    intro self w steps h _
    exact h
  | cons ev rest ih =>
    intro self w steps h hall
    obtain ⟨event, data⟩ := ev
    obtain ⟨out, tail, hp, hr, hsteps⟩ := fsm_run_cons ub2 rom self w event data rest steps h
    subst hsteps
    have hhead := hall ⟨self, event, data, out⟩ (List.mem_cons_self _ _)
    have hp1 : fsm_process_event ub1 rom self event data w = .ok out := by
      rw [fsm_process_event_width ub1 ub2 rom self event data w hhead.1 hhead.2]
      exact hp
    have htail := ih out.self out.world tail hr
      (fun st hst => hall st (List.mem_cons_of_mem _ hst))
    simp only [fsm_run, hp1, htail]

namespace vending_machine

/-- The masks of the table do not depend on the width of `unsigned long`. -/
theorem vending_transitions_width (ulong_bits : Nat) (hw : 32 ≤ ulong_bits) :
    transitions ulong_bits = transitions 32 := by
  have h0 : 0 < ulong_bits := by omega
  have h1 : 1 < ulong_bits := by omega
  have h2 : 2 < ulong_bits := by omega
  simp [transitions, FSM_STATES_MASK, __FSM_STATE_MASK_HELPER, mask_operand, FSM_STATE_MASK,
    STATE_IDLE, STATE_ACCEPTING, STATE_DISPENSING, h0, h1, h2]

theorem vending_rom_width (ulong_bits : Nat) (hw : 32 ≤ ulong_bits) : rom ulong_bits = rom 32 := by
  unfold rom
  rw [vending_transitions_width ulong_bits hw]

/-- A call on the vending machine in one of its three states, for any width of
at least 32 bits, is the call for 32 bits. -/
theorem process_width (ulong_bits : Nat) (hw : 32 ≤ ulong_bits) (s : Nat) (hs : s < 3)
    (event : Nat) (data : Option Nat) (w : vending_memory) :
    fsm_process_event ulong_bits (rom ulong_bits) (vending_fsm s) event data w =
      fsm_process_event 32 (rom 32) (vending_fsm s) event data w := by
  rw [vending_rom_width ulong_bits hw]
  exact fsm_process_event_width ulong_bits 32 (rom 32) (vending_fsm s) event data w
    (by show s < ulong_bits; omega) (by show s < 32; omega)

/-- The guard returns 0 exactly when none of its reasons to deny holds. -/
theorem can_dispense_guard_zero_iff (state d : Nat) (w : vending_memory) :
    (can_dispense_guard (vending_fsm state) (some d) w).1 = 0 ↔
      ¬ cannot_dispense (w.contexts context_addr) (w.ints d) := by
  have key : (can_dispense_guard (vending_fsm state) (some d) w).1 =
      if w.ints d < 0 ∨ w.ints d ≥ ITEM_COUNT then 1
      else if ((w.contexts context_addr).items (w.ints d).toNat).count ≤ 0 then 1
      else if (w.contexts context_addr).current_balance <
          ((w.contexts context_addr).items (w.ints d).toNat).price then 1
      else 0 := by
    unfold can_dispense_guard
    simp only [fsm_userdata, vending_fsm]
    split_ifs <;> rfl
  rw [key]
  unfold cannot_dispense
  by_cases h1 : w.ints d < 0 ∨ w.ints d ≥ ITEM_COUNT
  · rw [if_pos h1]
    constructor
    · intro h; cases h
    · intro h
      refine absurd ?_ h
      rcases h1 with h1 | h1
      · exact Or.inl h1
      · exact Or.inr (Or.inl h1)
  · rw [if_neg h1]
    by_cases h2 : ((w.contexts context_addr).items (w.ints d).toNat).count ≤ 0
    · rw [if_pos h2]
      constructor
      · intro h; cases h
      · intro h; exact absurd (Or.inr (Or.inr (Or.inl h2))) h
    · rw [if_neg h2]
      by_cases h3 : (w.contexts context_addr).current_balance <
          ((w.contexts context_addr).items (w.ints d).toNat).price
      · rw [if_pos h3]
        constructor
        · intro h; cases h
        · intro h; exact absurd (Or.inr (Or.inr (Or.inr h3))) h
      · rw [if_neg h3]
        constructor
        · intro _ h
          rcases h with h | h | h | h
          · exact h1 (Or.inl h)
          · exact h1 (Or.inr h)
          · exact h2 h
          · exact h3 h
        · intro _; rfl

/-- The callbacks of the select-item rule hand the machine back as they got it. -/
theorem select_rule_keeps_machine :
    rule_keeps_machine select_rule := by
  constructor
  · intro g hg m d w
    cases hg
    unfold can_dispense_guard
    cases fsm_userdata m <;> cases d
    all_goals simp only
    all_goals repeat' split
    all_goals rfl
  · intro a ha m d w
    cases ha
    unfold start_dispense_action
    cases fsm_userdata m
    all_goals simp only
    all_goals repeat' split
    all_goals rfl

end vending_machine

namespace vending_machine

/-- Select-item in Accepting: the call runs the body of rule 1. -/
theorem select_in_accepting (data : Option Nat) (w : vending_memory) :
    fsm_process_event 32 (rom 32) (vending_fsm STATE_ACCEPTING) EVENT_SELECT_ITEM data w =
      .ok (fsm_fire 1 select_rule (vending_fsm STATE_ACCEPTING) data w) :=
  rfl

/-- C15 (vending machine): with the example's table, guard and actions, for
every memory (context and event data): insert-coin in Idle returns Success and
moves to Accepting; select-item in Accepting returns GuardDenied with the
state still Accepting when the item id is invalid, its stock is at most 0 or
the balance is below its price, and otherwise returns Success and moves to
Dispensing; dispense-done in Dispensing returns Success and moves to Idle;
select-item in Idle returns NoTransitionForState.  From Idle with the context
of `main` the events insert 10, select Juice, insert 5, select Soda,
dispense-done give Success, GuardDenied, Success, Success, Success and the
states Accepting, Accepting, Accepting, Dispensing, Idle. -/
theorem scenario (ulong_bits : Nat) (hw : 32 ≤ ulong_bits) (w : vending_memory)
    (d : Nat) (data : Option Nat) :
    (∃ out, fsm_process_event ulong_bits (rom ulong_bits) (vending_fsm STATE_IDLE)
        EVENT_INSERT_COIN (some d) w = .ok out ∧
      out.result = FSM_RESULT_SUCCESS ∧ out.self.current_state = STATE_ACCEPTING) ∧
    (∃ out, fsm_process_event ulong_bits (rom ulong_bits) (vending_fsm STATE_ACCEPTING)
        EVENT_SELECT_ITEM (some d) w = .ok out ∧
      (cannot_dispense (w.contexts context_addr) (w.ints d) →
        out.result = FSM_RESULT_GUARD_DENIED ∧
        out.self.current_state = STATE_ACCEPTING) ∧
      (¬ cannot_dispense (w.contexts context_addr) (w.ints d) →
        out.result = FSM_RESULT_SUCCESS ∧
        out.self.current_state = STATE_DISPENSING)) ∧
    (∃ out, fsm_process_event ulong_bits (rom ulong_bits) (vending_fsm STATE_DISPENSING)
        EVENT_DISPENSE_DONE data w = .ok out ∧
      out.result = FSM_RESULT_SUCCESS ∧ out.self.current_state = STATE_IDLE) ∧
    (∃ out, fsm_process_event ulong_bits (rom ulong_bits) (vending_fsm STATE_IDLE)
        EVENT_SELECT_ITEM data w = .ok out ∧
      out.result = FSM_RESULT_NO_TRANSITION_FOR_STATE ∧
      out.self.current_state = STATE_IDLE) ∧
    (∃ steps, fsm_run ulong_bits (rom ulong_bits) (vending_fsm STATE_IDLE) main_memory
        main_events = .ok steps ∧
      steps.map (fun st => (st.out.result, st.out.self.current_state)) =
        [(FSM_RESULT_SUCCESS, STATE_ACCEPTING), (FSM_RESULT_GUARD_DENIED, STATE_ACCEPTING),
         (FSM_RESULT_SUCCESS, STATE_ACCEPTING), (FSM_RESULT_SUCCESS, STATE_DISPENSING),
         (FSM_RESULT_SUCCESS, STATE_IDLE)]) := by
  refine ⟨?_, ?_, ?_, ?_, ?_⟩
  · rw [process_width ulong_bits hw STATE_IDLE (by decide)]
    exact ⟨_, rfl, rfl, rfl⟩
  · rw [process_width ulong_bits hw STATE_ACCEPTING (by decide), select_in_accepting]
    refine ⟨_, rfl, fun hden => ?_, fun hallow => ?_⟩
    · have hne : (can_dispense_guard (vending_fsm STATE_ACCEPTING) (some d) w).1 ≠ 0 :=
        fun h0 => (can_dispense_guard_zero_iff STATE_ACCEPTING d w).1 h0 hden
      have hres := (fsm_fire_denied_iff 1 select_rule (vending_fsm STATE_ACCEPTING) (some d) w).2
        ⟨can_dispense_guard, rfl, hne⟩
      refine ⟨hres, ?_⟩
      rw [fsm_fire_self 1 select_rule (vending_fsm STATE_ACCEPTING) (some d) w
        select_rule_keeps_machine, hres]
      rfl
    · have h0 : (can_dispense_guard (vending_fsm STATE_ACCEPTING) (some d) w).1 = 0 :=
        (can_dispense_guard_zero_iff STATE_ACCEPTING d w).2 hallow
      have hres := (fsm_fire_success_iff 1 select_rule (vending_fsm STATE_ACCEPTING) (some d) w).2
        (fun g hg => by cases hg; exact h0)
      refine ⟨hres, ?_⟩
      rw [fsm_fire_self 1 select_rule (vending_fsm STATE_ACCEPTING) (some d) w
        select_rule_keeps_machine, if_pos hres]
      rfl
  · rw [process_width ulong_bits hw STATE_DISPENSING (by decide)]
    exact ⟨_, rfl, rfl, rfl⟩
  · rw [process_width ulong_bits hw STATE_IDLE (by decide)]
    exact ⟨_, rfl, rfl, rfl⟩
  · rw [vending_rom_width ulong_bits hw]
    have h32 : ∃ steps, fsm_run 32 (rom 32) (vending_fsm STATE_IDLE) main_memory
        main_events = .ok steps ∧
        steps.map (fun st => (st.before.current_state, st.out.result,
          st.out.self.current_state)) =
          [(STATE_IDLE, FSM_RESULT_SUCCESS, STATE_ACCEPTING),
           (STATE_ACCEPTING, FSM_RESULT_GUARD_DENIED, STATE_ACCEPTING),
           (STATE_ACCEPTING, FSM_RESULT_SUCCESS, STATE_ACCEPTING),
           (STATE_ACCEPTING, FSM_RESULT_SUCCESS, STATE_DISPENSING),
           (STATE_DISPENSING, FSM_RESULT_SUCCESS, STATE_IDLE)] := ⟨_, rfl, rfl⟩
    obtain ⟨steps, hrun, hmap⟩ := h32
    refine ⟨steps, fsm_run_width ulong_bits 32 (rom 32) _ _ _ steps hrun ?_, ?_⟩
    · intro st hst
      have hmem : (st.before.current_state, st.out.result, st.out.self.current_state) ∈
          steps.map (fun st => (st.before.current_state, st.out.result,
            st.out.self.current_state)) := List.mem_map_of_mem _ hst
      rw [hmap] at hmem
      have hlt : st.before.current_state < 3 := by
        simp only [List.mem_cons, List.mem_singleton, Prod.mk.injEq, List.not_mem_nil,
          or_false] at hmem
        rcases hmem with h | h | h | h | h <;> rw [h.1] <;> decide
      omega
    · have := congrArg (List.map (fun t : Nat × fsm_result_t × Nat => t.2)) hmap
      simpa [List.map_map, Function.comp] using this

end vending_machine

namespace vending_machine

/-- Witness of C15: with a 64-bit `unsigned long` and the memory of `main`,
selecting Juice (stock 0) in Accepting is denied and the state stays Accepting. -/
theorem scenario_witness :
    32 ≤ 64 ∧
    cannot_dispense (main_memory.contexts context_addr) (main_memory.ints item_juice_addr) ∧
    ∃ out, fsm_process_event 64 (rom 64) (vending_fsm STATE_ACCEPTING) EVENT_SELECT_ITEM
        (some item_juice_addr) main_memory = .ok out ∧
      out.result = FSM_RESULT_GUARD_DENIED ∧ out.self.current_state = STATE_ACCEPTING := by
  have hden : cannot_dispense (main_memory.contexts context_addr)
      (main_memory.ints item_juice_addr) := Or.inr (Or.inr (Or.inl (by decide)))
  obtain ⟨_, ⟨out, hout, hd, _⟩, _⟩ :=
    scenario 64 (by decide) main_memory item_juice_addr none
  exact ⟨by decide, hden, out, hout, hd hden⟩

end vending_machine

/-! ## Accessors and frame -/

/-- C16 (user-context accessors): `fsm_userdata` after `fsm_set_userdata(m, r)`
returns `r`; `fsm_set_userdata` changes no other field (current state, table
pointer and count are as before); `fsm_current_state` and `fsm_userdata` read
the fields `current_state` and `userdata` of the machine, which they take
through a pointer to `const` and cannot change. -/
theorem userdata_accessors (m : fsm_t) (r : Option Nat) :
    fsm_userdata (fsm_set_userdata m r) = r ∧
    (fsm_set_userdata m r).current_state = m.current_state ∧
    (fsm_set_userdata m r).transition_rules = m.transition_rules ∧
    (fsm_set_userdata m r).transition_count = m.transition_count ∧
    fsm_current_state (fsm_set_userdata m r) = fsm_current_state m ∧
    fsm_set_userdata m (fsm_userdata m) = m ∧
    fsm_current_state m = m.current_state ∧ fsm_userdata m = m.userdata :=
  ⟨rfl, rfl, rfl, rfl, rfl, rfl, rfl, rfl⟩

/-- C17 (frame of event processing): with callbacks that do not write the
machine, a call of `fsm_process_event` leaves the user context, the table
pointer, the count and the table they designate as they were; the machine
after the call differs from the machine before at most in `current_state`,
and it differs there only when the call returns `FSM_RESULT_SUCCESS`.  The
call returns on a readable table and a state below the width of `unsigned
long`. -/
theorem process_event_frame {W : Type} (ulong_bits : Nat)
    (rom : Nat → List (fsm_transition_t W)) (self : fsm_t) (event : Nat) (data : Option Nat)
    (w : W) (hkeep : callbacks_keep_machine (fsm_table rom self)) :
    (∀ out, fsm_process_event ulong_bits rom self event data w = .ok out →
      fsm_userdata out.self = fsm_userdata self ∧
      out.self.transition_rules = self.transition_rules ∧
      out.self.transition_count = self.transition_count ∧
      fsm_table rom out.self = fsm_table rom self ∧
      out.self = { self with current_state := out.self.current_state } ∧
      (out.result ≠ FSM_RESULT_SUCCESS → out.self = self) ∧
      (out.self.current_state ≠ self.current_state → out.result = FSM_RESULT_SUCCESS)) ∧
    (table_readable rom self → self.current_state < ulong_bits →
      ∃ out, fsm_process_event ulong_bits rom self event data w = .ok out) := by
  refine ⟨fun out hout => ?_, fsm_process_event_returns ulong_bits rom self event data w⟩
  rcases fsm_process_event_step ulong_bits rom self event data w out hkeep hout with
    ⟨hres, i, r, _, hs⟩ | ⟨hres, hs⟩
  · rw [hs]
    exact ⟨rfl, rfl, rfl, rfl, rfl, fun h => absurd hres h, fun _ => hres⟩
  · rw [hs]
    exact ⟨rfl, rfl, rfl, rfl, rfl, fun _ => rfl, fun h => absurd rfl h⟩

/-- Witness of C17 on the sample machine: event 1 in state 0, which fires rule
0. -/
theorem process_event_frame_witness :
    callbacks_keep_machine (fsm_table sample_rom (sample_fsm 0)) ∧
    table_readable sample_rom (sample_fsm 0) ∧ (sample_fsm 0).current_state < 64 ∧
    ∃ out, fsm_process_event 64 sample_rom (sample_fsm 0) 1 none 0 = .ok out ∧
      fsm_userdata out.self = fsm_userdata (sample_fsm 0) ∧
      out.self.transition_rules = (sample_fsm 0).transition_rules ∧
      out.self.transition_count = (sample_fsm 0).transition_count ∧
      fsm_table sample_rom out.self = fsm_table sample_rom (sample_fsm 0) := by
  have h := process_event_frame 64 sample_rom (sample_fsm 0) 1 none 0 (sample_keep 0)
  obtain ⟨out, hout⟩ := h.2 (sample_readable 0) (by decide)
  obtain ⟨h1, h2, h3, h4, _⟩ := h.1 out hout
  exact ⟨sample_keep 0, sample_readable 0, by decide, out, hout, h1, h2, h3, h4⟩

/-! ## Determinism -/

/-- A state from 32 up that is still below the width of `unsigned long` is in
no `uint32_t` mask: the call finds no match, invokes nothing and leaves the
machine and the memory as they were. -/
theorem state_from_32_below_width {W : Type} (ulong_bits : Nat)
    (rom : Nat → List (fsm_transition_t W)) (self : fsm_t) (event : Nat) (data : Option Nat)
    (w : W) (hread : table_readable rom self)
    (hmask : masks_are_uint32 (fsm_table rom self))
    (hs : 32 ≤ self.current_state) (hlt : self.current_state < ulong_bits) :
    fsm_process_event ulong_bits rom self event data w =
      .ok ⟨FSM_RESULT_NO_TRANSITION_FOR_STATE, self, w, []⟩ := by
  apply fsm_process_event_none ulong_bits rom self event data w hread hlt
  intro r hr hm
  have := state_lt_of_in_uint32_mask (hmask r hr) hm.2
  omega

/-- C19, at a failing input: `fsm_init` accepts the initial states 65 and 32;
with a 64-bit `unsigned long` the mask test of state 65 is `1UL << 65`, which
has no defined value, and the call for event 1 returns no result; with a
32-bit `unsigned long` the same holds for state 32. -/
theorem out_of_range_state_undefined :
    fsm_init sample_rom (some (sample_fsm 0)) 65 (some 7) 3 =
      .ok (FSM_RESULT_SUCCESS, some (sample_fsm 65)) ∧
    FSM_STATE_MASK 64 65 = none ∧
    FSM_STATE_IN_MASK 64 65 sample_rule0.source_states_mask = none ∧
    fsm_process_event 64 sample_rom (sample_fsm 65) 1 none 0 =
      .error fault.shift_too_wide ∧
    fsm_init sample_rom (some (sample_fsm 0)) 32 (some 7) 3 =
      .ok (FSM_RESULT_SUCCESS, some (sample_fsm 32)) ∧
    FSM_STATE_IN_MASK 32 32 sample_rule0.source_states_mask = none ∧
    fsm_process_event 32 sample_rom (sample_fsm 32) 1 none 0 =
      .error fault.shift_too_wide :=
  ⟨rfl, rfl, rfl, rfl, rfl, rfl, rfl⟩

/-- The callbacks invoked for the rule at index `i`: the guard, if the rule has
one, on the machine as it was before the call; then, exactly when the result
is success and the rule has an action, the action, on a machine whose state is
the rule's target. -/
theorem fsm_fire_calls_shape {W : Type} (i : Nat) (r : fsm_transition_t W) (self : fsm_t)
    (data : Option Nat) (w : W) :
    ∃ m1 : fsm_t, m1.current_state = r.target_state ∧
      (fsm_fire i r self data w).calls =
        (if r.guard.isSome then [callback_call.guard i self data] else []) ++
        (if (fsm_fire i r self data w).result = FSM_RESULT_SUCCESS ∧ r.action.isSome then
          [callback_call.action i m1 data] else []) := by
  unfold fsm_fire
  cases hg : r.guard with
  | none =>
    refine ⟨{ self with current_state := r.target_state }, rfl, ?_⟩
    simp only [fsm_commit_calls, fsm_commit_result]
    cases ha : r.action <;> simp
  | some g =>
    refine ⟨{ (g self data w).2.1 with current_state := r.target_state }, rfl, ?_⟩
    by_cases h0 : (g self data w).1 = 0
    · simp only [h0, ne_eq, not_true_eq_false, if_false, fsm_commit_calls, fsm_commit_result]
      cases ha : r.action <;> simp
    · simp [h0]

/-- Callback discipline of the calls that return (what C20 says, on the states
for which the mask test is defined): a returning call invokes nothing when no
rule matches; otherwise it invokes, for the first matching rule only: the guard, if
the rule has one, on the machine as it was before the call (so it observes the
pre-transition state), and then, exactly when the call returns
`FSM_RESULT_SUCCESS` (the guard is absent or returned 0) and the rule has an
action, the action, on a machine whose state is already the target.  Hence at
most one guard and at most one action are invoked, the guard first, both with
the caller's event data, and an action only on success.  On a readable table,
with a current state below the width of `unsigned long`, the call returns. -/
theorem callback_discipline {W : Type} (ulong_bits : Nat)
    (rom : Nat → List (fsm_transition_t W)) (self : fsm_t) (event : Nat) (data : Option Nat)
    (w : W) :
    (∀ out, fsm_process_event ulong_bits rom self event data w = .ok out →
      ((no_match (fsm_table rom self) event self.current_state ∧ out.calls = []) ∨
        (∃ i r m1, first_match (fsm_table rom self) event self.current_state i r ∧
          m1.current_state = r.target_state ∧
          out.calls =
            (if r.guard.isSome then [callback_call.guard i self data] else []) ++
            (if out.result = FSM_RESULT_SUCCESS ∧ r.action.isSome then
              [callback_call.action i m1 data] else []) ∧
          (out.result = FSM_RESULT_SUCCESS ↔ guard_allows r self data w))) ∧
      (out.calls.filter (fun c => !c.is_action)).length ≤ 1 ∧
      (out.calls.filter (fun c => c.is_action)).length ≤ 1 ∧
      (∀ c ∈ out.calls, c.data = data) ∧
      (∀ c ∈ out.calls, c.is_action = false → c.machine = self) ∧
      (∀ c ∈ out.calls, c.is_action = true → out.result = FSM_RESULT_SUCCESS)) ∧
    (table_readable rom self → self.current_state < ulong_bits →
      ∃ out, fsm_process_event ulong_bits rom self event data w = .ok out) := by
  refine ⟨fun out hout => ?_, fsm_process_event_returns ulong_bits rom self event data w⟩
  rcases fsm_process_event_ok ulong_bits rom self event data w out hout with
    ⟨ho, hno⟩ | ⟨k, r, hfirst, ho⟩
  · subst ho
    refine ⟨Or.inl ⟨hno, rfl⟩, ?_, ?_, ?_, ?_, ?_⟩ <;> simp
  · subst ho
    obtain ⟨m1, hm1, hcalls⟩ := fsm_fire_calls_shape k r self data w
    refine ⟨Or.inr ⟨k, r, m1, hfirst, hm1, hcalls, fsm_fire_success_iff k r self data w⟩,
      ?_, ?_, ?_, ?_, ?_⟩ <;>
      · rw [hcalls]
        by_cases hg : r.guard.isSome = true <;>
          by_cases hc : (fsm_fire k r self data w).result = FSM_RESULT_SUCCESS ∧
            r.action.isSome = true <;>
          simp [hg, hc, callback_call.is_action, callback_call.data, callback_call.machine]

/-- On the sample machine, event 1 in state 1 with the counter at 0 selects
rule 1, whose guard allows and which has no action: the guard is the
only callback invoked, on the machine in state 1. -/
theorem callback_discipline_witness :
    table_readable sample_rom (sample_fsm 1) ∧ (sample_fsm 1).current_state < 64 ∧
    ∃ out, fsm_process_event 64 sample_rom (sample_fsm 1) 1 none 0 = .ok out ∧
      out.calls = [callback_call.guard 1 (sample_fsm 1) none] ∧
      (out.calls.filter (fun c => !c.is_action)).length ≤ 1 ∧
      (out.calls.filter (fun c => c.is_action)).length ≤ 1 := by
  have h := callback_discipline 64 sample_rom (sample_fsm 1) 1 none 0
  obtain ⟨out, hout⟩ := h.2 (sample_readable 1) (by decide)
  obtain ⟨_, h1, h2, _⟩ := h.1 out hout
  have hX : fsm_process_event 64 sample_rom (sample_fsm 1) 1 none 0 =
      .ok ⟨FSM_RESULT_SUCCESS, sample_fsm 2, 0, [callback_call.guard 1 (sample_fsm 1) none]⟩ :=
    rfl
  have hcalls : out.calls = [callback_call.guard 1 (sample_fsm 1) none] := by
    rw [hX] at hout
    cases hout
    rfl
  exact ⟨sample_readable 1, by decide, out, hout, hcalls, h1, h2⟩

/-- C20, at a failing input: the machine that `fsm_init` builds for initial
state 65 over the sample table has no rule matching (event 1, state 65), so no
callback belongs to a first matching rule.  With a 64-bit `unsigned long` the
call for event 1 has no defined result: the mask test shifts `1UL` by 65.
Where the shift count is taken modulo 64 the test made is that of state 1:
rule 0 fails it, rule 1 passes it, and rule 1 run on this machine invokes its
guard and commits state 2 with `FSM_RESULT_SUCCESS`: a callback of a rule that
does not match. -/
theorem callbacks_without_match_at_state_65 :
    fsm_init sample_rom (some (sample_fsm 0)) 65 (some 7) 3 =
      .ok (FSM_RESULT_SUCCESS, some (sample_fsm 65)) ∧
    no_match (fsm_table sample_rom (sample_fsm 65)) 1 (sample_fsm 65).current_state ∧
    fsm_process_event 64 sample_rom (sample_fsm 65) 1 none 0 =
      .error fault.shift_too_wide ∧
    sample_rule0.event = 1 ∧ sample_rule1.event = 1 ∧
    FSM_STATE_IN_MASK 64 (65 % 64) sample_rule0.source_states_mask = some false ∧
    FSM_STATE_IN_MASK 64 (65 % 64) sample_rule1.source_states_mask = some true ∧
    (fsm_fire 1 sample_rule1 (sample_fsm 65) none 0).calls =
      [callback_call.guard 1 (sample_fsm 65) none] ∧
    (fsm_fire 1 sample_rule1 (sample_fsm 65) none 0).result = FSM_RESULT_SUCCESS ∧
    (fsm_fire 1 sample_rule1 (sample_fsm 65) none 0).self.current_state = 2 := by
  refine ⟨rfl, ?_, rfl, rfl, rfl, rfl, rfl, rfl, rfl, rfl⟩
  rw [sample_table]
  intro r hr
  simp only [sample_rules, List.mem_cons, List.mem_singleton, List.not_mem_nil, or_false] at hr
  rcases hr with rfl | rfl | rfl <;> decide

/-! ## Failed initialisation -/

/-- C22 (initialisation is atomic on failure): whenever `fsm_init` returns
`FSM_RESULT_INVALID_PARAMS` the machine is as it was before the call, every
field included; and it does return that result for an absent table, for a zero
count, and for a rule with `target_state >= 32` at any index among the first
`count` rules of the array, the last one included. -/
theorem fsm_init_failure_writes_nothing {W : Type} (rom : Nat → List (fsm_transition_t W))
    (self : Option fsm_t) (initial_state : Nat) (transition_rules : Option Nat)
    (transition_count : Nat) :
    (∀ res, fsm_init rom self initial_state transition_rules transition_count =
        .ok (FSM_RESULT_INVALID_PARAMS, res) → res = self) ∧
    (transition_rules = none →
      fsm_init rom self initial_state transition_rules transition_count =
        .ok (FSM_RESULT_INVALID_PARAMS, self)) ∧
    (transition_count = 0 →
      fsm_init rom self initial_state transition_rules transition_count =
        .ok (FSM_RESULT_INVALID_PARAMS, self)) ∧
    (∀ p i r, transition_rules = some p → transition_count ≤ (rom p).length →
      i < transition_count → (rom p)[i]? = some r → 32 ≤ r.target_state →
      fsm_init rom self initial_state transition_rules transition_count =
        .ok (FSM_RESULT_INVALID_PARAMS, self)) := by
  have hfirst : ∀ res, fsm_init rom self initial_state transition_rules transition_count =
      .ok (FSM_RESULT_INVALID_PARAMS, res) → res = self := by
    intro res hres
    unfold fsm_init at hres
    cases self with
    | none =>
      simp only [Except.ok.injEq, Prod.mk.injEq, true_and] at hres
      exact hres.symm
    | some m =>
      cases transition_rules with
      | none =>
        simp only [Except.ok.injEq, Prod.mk.injEq, true_and] at hres
        exact hres.symm
      | some p =>
        simp only at hres
        by_cases hc : transition_count = 0
        · simp only [hc, if_true, Except.ok.injEq, Prod.mk.injEq, true_and] at hres
          exact hres.symm
        · simp only [hc, if_false] at hres
          cases hs : fsm_init_scan (rom p) transition_count 0 with
          | error e => simp [hs] at hres
          | ok b =>
            cases b with
            | false =>
              simp only [hs, Except.ok.injEq, Prod.mk.injEq, true_and] at hres
              exact hres.symm
            | true => simp [hs] at hres
  refine ⟨hfirst, fun hnone => ?_, fun hzero => ?_, fun p i r hp hlen hi hr hbad => ?_⟩
  · subst hnone
    unfold fsm_init
    cases self <;> rfl
  · subst hzero
    unfold fsm_init
    cases self with
    | none => rfl
    | some m => cases transition_rules <;> simp
  · cases self with
    | none => unfold fsm_init; rfl
    | some m =>
      obtain ⟨res, hres, hiff, _⟩ := fsm_init_returns rom m initial_state transition_rules
        transition_count (fun q hq => by rw [hp] at hq; cases hq; exact hlen)
      have hinv : res.1 = FSM_RESULT_INVALID_PARAMS :=
        hiff.2 (Or.inr (Or.inr ⟨p, hp, r,
          List.getElem?_mem ((getElem?_take_eq_some (rom p) transition_count i r).2 ⟨hi, hr⟩),
          hbad⟩))
      obtain ⟨code, mach⟩ := res
      simp only at hinv
      subst hinv
      rw [hres, hfirst mach hres]

/-- Witness of C22: a table of three rules whose last rule has target 32 is
refused, and the machine keeps the four fields it had. -/
theorem fsm_init_failure_writes_nothing_witness :
    some 8 = some 8 ∧ 3 ≤ (sample_bad_rom 8).length ∧ 2 < 3 ∧
    (sample_bad_rom 8)[2]? = some sample_bad_rule ∧ 32 ≤ sample_bad_rule.target_state ∧
    fsm_init sample_bad_rom (some sample_prior) 0 (some 8) 3 =
      .ok (FSM_RESULT_INVALID_PARAMS, some sample_prior) :=
  ⟨rfl, by decide, by decide, rfl, by decide,
    (fsm_init_failure_writes_nothing sample_bad_rom (some sample_prior) 0 (some 8) 3).2.2.2
      8 2 sample_bad_rule rfl (by decide) (by decide) rfl (by decide)⟩

/-! ## Exact value of the mask macro -/

theorem mask_operand_of_lt (ulong_bits s : Nat) (h : s < ulong_bits) :
    mask_operand ulong_bits s = some (if s ≠ 0 then 2 ^ s else 0) := by
  unfold mask_operand FSM_STATE_MASK
  by_cases h0 : s = 0
  · simp [h0]
  · simp [h0, h, Nat.one_shiftLeft]

theorem mask_operand_zero (ulong_bits : Nat) : mask_operand ulong_bits 0 = some 0 := by
  simp [mask_operand]

/-- The helper on eight states below the width of `unsigned long`. -/
theorem FSM_STATE_MASK_HELPER_value (ulong_bits s1 s2 s3 s4 s5 s6 s7 s8 : Nat)
    (h1 : s1 < ulong_bits) (h2 : s2 < ulong_bits) (h3 : s3 < ulong_bits)
    (h4 : s4 < ulong_bits) (h5 : s5 < ulong_bits) (h6 : s6 < ulong_bits)
    (h7 : s7 < ulong_bits) (h8 : s8 < ulong_bits) :
    __FSM_STATE_MASK_HELPER ulong_bits s1 s2 s3 s4 s5 s6 s7 s8 =
      some (states_mask_value [s1, s2, s3, s4, s5, s6, s7, s8]) := by
  unfold __FSM_STATE_MASK_HELPER
  rw [mask_operand_of_lt _ _ h2, mask_operand_of_lt _ _ h3, mask_operand_of_lt _ _ h4,
    mask_operand_of_lt _ _ h5, mask_operand_of_lt _ _ h6, mask_operand_of_lt _ _ h7,
    mask_operand_of_lt _ _ h8]
  simp [FSM_STATE_MASK, h1, Nat.one_shiftLeft, states_mask_value]

/-- Trailing zeros add nothing to the value of a list of states. -/
theorem states_mask_value_append_zeros (s1 : Nat) (rest : List Nat) (n : Nat) :
    states_mask_value (s1 :: rest ++ List.replicate n 0) = states_mask_value (s1 :: rest) := by
  have key : ∀ (k init : Nat),
      (List.replicate k 0).foldl (fun acc s => acc ||| (if s ≠ 0 then 2 ^ s else 0)) init =
        init := by
    intro k
    induction k with
    | zero => intro init; rfl
    | succ k ih =>
      intro init
      rw [List.replicate_succ, List.foldl_cons, ih]
      simp
  simp only [states_mask_value, List.cons_append, List.foldl_append, key]

/-- Bits of the value of a list of states. -/
theorem states_mask_value_testBit (s1 : Nat) (rest : List Nat) (i : Nat) :
    (states_mask_value (s1 :: rest)).testBit i = true ↔
      i = s1 ∨ (i ≠ 0 ∧ i ∈ rest) := by
  simp only [states_mask_value]
  have key : ∀ (l : List Nat) (init : Nat),
      (l.foldl (fun acc s => acc ||| (if s ≠ 0 then 2 ^ s else 0)) init).testBit i = true ↔
        init.testBit i = true ∨ (i ≠ 0 ∧ i ∈ l) := by
    intro l
    induction l with
    | nil => intro init; simp
    | cons a l ih =>
      intro init
      rw [List.foldl_cons, ih]
      by_cases ha : a = 0
      · subst ha
        simp only [ne_eq, not_true_eq_false, if_false, Nat.or_zero, List.mem_cons]
        constructor
        · rintro (h | ⟨h1, h2⟩)
          · exact Or.inl h
          · exact Or.inr ⟨h1, Or.inr h2⟩
        · rintro (h | ⟨h1, h2 | h2⟩)
          · exact Or.inl h
          · exact absurd h2 h1
          · exact Or.inr ⟨h1, h2⟩
      · simp only [ne_eq, ha, not_false_eq_true, if_true, Nat.testBit_or, Bool.or_eq_true,
          Nat.testBit_two_pow, decide_eq_true_eq, List.mem_cons]
        constructor
        · rintro ((h | h) | ⟨h1, h2⟩)
          · exact Or.inl h
          · exact Or.inr ⟨by omega, Or.inl h.symm⟩
          · exact Or.inr ⟨h1, Or.inr h2⟩
        · rintro (h | ⟨h1, h2 | h2⟩)
          · exact Or.inl (Or.inl h)
          · exact Or.inl (Or.inr h2.symm)
          · exact Or.inr ⟨h1, h2⟩
  rw [key]
  simp only [Nat.testBit_two_pow, decide_eq_true_eq]
  constructor
  · rintro (h | h)
    · exact Or.inl h.symm
    · exact Or.inr h
  · rintro (h | h)
    · exact Or.inl h.symm
    · exact Or.inr h

/-- The macro on a list of one to eight states below 32: its value, and that
writing the padding zeros out changes nothing. -/
theorem FSM_STATES_MASK_eq (ulong_bits : Nat) (args : List Nat) (hw : 32 ≤ ulong_bits)
    (hk1 : 1 ≤ args.length) (hk8 : args.length ≤ 8) (hs : ∀ s ∈ args, s < 32) :
    FSM_STATES_MASK ulong_bits args = some (states_mask_value args) ∧
    FSM_STATES_MASK ulong_bits (args ++ List.replicate (8 - args.length) 0) =
      FSM_STATES_MASK ulong_bits args := by
  have h0 : 0 < ulong_bits := by omega
  match args, hk1, hk8, hs with
  | [], h1, _, _ => simp at h1
  | [a], _, _, hs =>
    have hlt : ∀ s, s ∈ [a] → s < ulong_bits := fun s hmem =>
      Nat.lt_of_lt_of_le (hs s hmem) hw
    have hexp : FSM_STATES_MASK ulong_bits [a] =
        __FSM_STATE_MASK_HELPER ulong_bits a 0 0 0 0 0 0 0 := rfl
    refine ⟨?_, rfl⟩
    rw [hexp, FSM_STATE_MASK_HELPER_value ulong_bits a 0 0 0 0 0 0 0
      (hlt a (by simp)) h0 h0 h0 h0 h0 h0 h0]
    exact congrArg some (states_mask_value_append_zeros a [] 7)
  | [a, b], _, _, hs =>
    have hlt : ∀ s, s ∈ [a, b] → s < ulong_bits := fun s hmem =>
      Nat.lt_of_lt_of_le (hs s hmem) hw
    have hexp : FSM_STATES_MASK ulong_bits [a, b] =
        __FSM_STATE_MASK_HELPER ulong_bits a b 0 0 0 0 0 0 := rfl
    refine ⟨?_, rfl⟩
    rw [hexp, FSM_STATE_MASK_HELPER_value ulong_bits a b 0 0 0 0 0 0
      (hlt a (by simp)) (hlt b (by simp)) h0 h0 h0 h0 h0 h0]
    exact congrArg some (states_mask_value_append_zeros a [b] 6)
  | [a, b, c], _, _, hs =>
    have hlt : ∀ s, s ∈ [a, b, c] → s < ulong_bits := fun s hmem =>
      Nat.lt_of_lt_of_le (hs s hmem) hw
    have hexp : FSM_STATES_MASK ulong_bits [a, b, c] =
        __FSM_STATE_MASK_HELPER ulong_bits a b c 0 0 0 0 0 := rfl
    refine ⟨?_, rfl⟩
    rw [hexp, FSM_STATE_MASK_HELPER_value ulong_bits a b c 0 0 0 0 0
      (hlt a (by simp)) (hlt b (by simp)) (hlt c (by simp)) h0 h0 h0 h0 h0]
    exact congrArg some (states_mask_value_append_zeros a [b, c] 5)
  | [a, b, c, d], _, _, hs =>
    have hlt : ∀ s, s ∈ [a, b, c, d] → s < ulong_bits := fun s hmem =>
      Nat.lt_of_lt_of_le (hs s hmem) hw
    have hexp : FSM_STATES_MASK ulong_bits [a, b, c, d] =
        __FSM_STATE_MASK_HELPER ulong_bits a b c d 0 0 0 0 := rfl
    refine ⟨?_, rfl⟩
    rw [hexp, FSM_STATE_MASK_HELPER_value ulong_bits a b c d 0 0 0 0
      (hlt a (by simp)) (hlt b (by simp)) (hlt c (by simp)) (hlt d (by simp)) h0 h0 h0 h0]
    exact congrArg some (states_mask_value_append_zeros a [b, c, d] 4)
  | [a, b, c, d, e], _, _, hs =>
    have hlt : ∀ s, s ∈ [a, b, c, d, e] → s < ulong_bits := fun s hmem =>
      Nat.lt_of_lt_of_le (hs s hmem) hw
    have hexp : FSM_STATES_MASK ulong_bits [a, b, c, d, e] =
        __FSM_STATE_MASK_HELPER ulong_bits a b c d e 0 0 0 := rfl
    refine ⟨?_, rfl⟩
    rw [hexp, FSM_STATE_MASK_HELPER_value ulong_bits a b c d e 0 0 0
      (hlt a (by simp)) (hlt b (by simp)) (hlt c (by simp)) (hlt d (by simp)) (hlt e (by simp)) h0 h0 h0]
    exact congrArg some (states_mask_value_append_zeros a [b, c, d, e] 3)
  | [a, b, c, d, e, f], _, _, hs =>
    have hlt : ∀ s, s ∈ [a, b, c, d, e, f] → s < ulong_bits := fun s hmem =>
      Nat.lt_of_lt_of_le (hs s hmem) hw
    have hexp : FSM_STATES_MASK ulong_bits [a, b, c, d, e, f] =
        __FSM_STATE_MASK_HELPER ulong_bits a b c d e f 0 0 := rfl
    refine ⟨?_, rfl⟩
    rw [hexp, FSM_STATE_MASK_HELPER_value ulong_bits a b c d e f 0 0
      (hlt a (by simp)) (hlt b (by simp)) (hlt c (by simp)) (hlt d (by simp)) (hlt e (by simp)) (hlt f (by simp)) h0 h0]
    exact congrArg some (states_mask_value_append_zeros a [b, c, d, e, f] 2)
  | [a, b, c, d, e, f, g], _, _, hs =>
    have hlt : ∀ s, s ∈ [a, b, c, d, e, f, g] → s < ulong_bits := fun s hmem =>
      Nat.lt_of_lt_of_le (hs s hmem) hw
    have hexp : FSM_STATES_MASK ulong_bits [a, b, c, d, e, f, g] =
        __FSM_STATE_MASK_HELPER ulong_bits a b c d e f g 0 := rfl
    refine ⟨?_, rfl⟩
    rw [hexp, FSM_STATE_MASK_HELPER_value ulong_bits a b c d e f g 0
      (hlt a (by simp)) (hlt b (by simp)) (hlt c (by simp)) (hlt d (by simp)) (hlt e (by simp)) (hlt f (by simp)) (hlt g (by simp)) h0]
    exact congrArg some (states_mask_value_append_zeros a [b, c, d, e, f, g] 1)
  | [a, b, c, d, e, f, g, h], _, _, hs =>
    have hlt : ∀ s, s ∈ [a, b, c, d, e, f, g, h] → s < ulong_bits := fun s hmem =>
      Nat.lt_of_lt_of_le (hs s hmem) hw
    have hexp : FSM_STATES_MASK ulong_bits [a, b, c, d, e, f, g, h] =
        __FSM_STATE_MASK_HELPER ulong_bits a b c d e f g h := rfl
    refine ⟨?_, rfl⟩
    rw [hexp, FSM_STATE_MASK_HELPER_value ulong_bits a b c d e f g h
      (hlt a (by simp)) (hlt b (by simp)) (hlt c (by simp)) (hlt d (by simp)) (hlt e (by simp)) (hlt f (by simp)) (hlt g (by simp)) (hlt h (by simp))]
  | _ :: _ :: _ :: _ :: _ :: _ :: _ :: _ :: _ :: _, _, h8, _ =>
    simp only [List.length_cons] at h8
    omega

/-- C23 (exact value of `FSM_STATES_MASK`): for every list `s1..sk` with
`1 <= k <= 8` and all states in 0..31, `FSM_STATES_MASK(s1, ..., sk)` is the
bit of `s1` or-ed with the bits of exactly those later `si` that are not 0: bit
`i` of the result is set if and only if `i = s1`, or `i` is not 0 and occurs
after the first position.  The padding zeros contribute nothing (writing them
out gives the same value), a state 0 after the first position contributes no
bit, and the value fits in the 32-bit mask. -/
theorem FSM_STATES_MASK_value (ulong_bits : Nat) (args : List Nat) (hw : 32 ≤ ulong_bits)
    (hk1 : 1 ≤ args.length) (hk8 : args.length ≤ 8) (hs : ∀ s ∈ args, s < 32) :
    FSM_STATES_MASK ulong_bits args = some (states_mask_value args) ∧
    FSM_STATES_MASK ulong_bits (args ++ List.replicate (8 - args.length) 0) =
      FSM_STATES_MASK ulong_bits args ∧
    (∀ i, (states_mask_value args).testBit i = true ↔
      (args.head? = some i ∨ (i ≠ 0 ∧ i ∈ args.tail))) ∧
    (0 ∈ args.tail → args.head? ≠ some 0 → (states_mask_value args).testBit 0 = false) ∧
    states_mask_value args < 2 ^ 32 := by
  obtain ⟨hval, hpad⟩ := FSM_STATES_MASK_eq ulong_bits args hw hk1 hk8 hs
  cases args with
  | nil => simp at hk1
  | cons s1 rest =>
    have hbits : ∀ i, (states_mask_value (s1 :: rest)).testBit i = true ↔
        ((s1 :: rest).head? = some i ∨ (i ≠ 0 ∧ i ∈ (s1 :: rest).tail)) := by
      intro i
      rw [states_mask_value_testBit]
      simp only [List.head?_cons, Option.some.injEq, List.tail_cons]
      constructor
      · rintro (h | h)
        · exact Or.inl h.symm
        · exact Or.inr h
      · rintro (h | h)
        · exact Or.inl h.symm
        · exact Or.inr h
    refine ⟨hval, hpad, hbits, fun _ hne => ?_, ?_⟩
    · cases hb : (states_mask_value (s1 :: rest)).testBit 0
      · rfl
      · rcases (hbits 0).1 hb with h | h
        · exact absurd h hne
        · exact absurd rfl h.1
    · apply Nat.lt_pow_two_of_testBit
      intro i hi
      cases hb : (states_mask_value (s1 :: rest)).testBit i
      · rfl
      · exfalso
        rcases (hbits i).1 hb with h | h
        · simp only [List.head?_cons, Option.some.injEq] at h
          have := hs s1 (List.mem_cons_self _ _)
          omega
        · have := hs i (List.mem_cons_of_mem _ h.2)
          omega

/-- Witness of C23 with a 64-bit `unsigned long`: `FSM_STATES_MASK(1, 0, 5)` is
2 or-ed with 32, and bit 0 is not set. -/
theorem FSM_STATES_MASK_value_witness :
    32 ≤ 64 ∧ 1 ≤ [1, 0, 5].length ∧ [1, 0, 5].length ≤ 8 ∧ (∀ s ∈ [1, 0, 5], s < 32) ∧
    FSM_STATES_MASK 64 [1, 0, 5] = some 34 ∧ Nat.testBit 34 0 = false := by
  have hs : ∀ s ∈ [1, 0, 5], s < 32 := by decide
  have h := FSM_STATES_MASK_value 64 [1, 0, 5] (by decide) (by decide) (by decide) hs
  exact ⟨by decide, by decide, by decide, hs, h.1, by decide⟩

/-! ## The emergency limit of the traffic light -/

namespace traffic_light

/-- What an Emergency event does in red, green or yellow, by the count the
context holds: below 3 the call succeeds, moves to Emergency and adds one to
the count; from 3 on the guard denies and nothing changes. -/
theorem emergency_limit (ulong_bits : Nat) (hw : 32 ≤ ulong_bits) (s : Nat) (hs : s < 3)
    (data : Option Nat) (w : light_memory) :
    ∃ out, fsm_process_event ulong_bits (rom ulong_bits) (light_fsm s) EVENT_EMERGENCY data w =
        .ok out ∧
      ((w light_ctx_addr).emergency_count < 3 →
        out.result = FSM_RESULT_SUCCESS ∧ out.self = light_fsm STATE_EMERGENCY ∧
        (out.world light_ctx_addr).emergency_count =
          (w light_ctx_addr).emergency_count + 1) ∧
      (3 ≤ (w light_ctx_addr).emergency_count →
        out.result = FSM_RESULT_GUARD_DENIED ∧ out.self = light_fsm s ∧ out.world = w) := by
  rw [light_rom_width ulong_bits hw,
    fsm_process_event_width ulong_bits 32 (rom 32) (light_fsm s) EVENT_EMERGENCY data w
      (by show s < ulong_bits; omega) (by show s < 32; omega)]
  have hcases : s = 0 ∨ s = 1 ∨ s = 2 := by omega
  by_cases hc : 3 ≤ (w light_ctx_addr).emergency_count
  · have hg : ∀ st, guard_emergency (light_fsm st) data w = (1, light_fsm st, w) := by
      intro st
      simp only [guard_emergency, fsm_userdata, light_fsm, ge_iff_le, hc, if_true]
    have hfire : ∀ st, fsm_fire 3
        ({ event := EVENT_EMERGENCY, source_states_mask := 7, target_state := STATE_EMERGENCY,
           guard := some guard_emergency, action := some action_emergency } :
          fsm_transition_t light_memory) (light_fsm st) data w =
        ⟨FSM_RESULT_GUARD_DENIED, light_fsm st, w,
          [callback_call.guard 3 (light_fsm st) data]⟩ := by
      intro st
      simp only [fsm_fire, hg]
      rfl
    rcases hcases with rfl | rfl | rfl
    all_goals
      refine ⟨_, Eq.trans rfl (congrArg Except.ok (hfire _)), fun hlt => ?_, fun _ => ?_⟩
    all_goals first
      | omega
      | exact ⟨rfl, rfl, rfl⟩
  · have hg : ∀ st, guard_emergency (light_fsm st) data w = (0, light_fsm st, w) := by
      intro st
      simp only [guard_emergency, fsm_userdata, light_fsm, ge_iff_le, hc, if_false]
    have hfire : ∀ st, fsm_fire 3
        ({ event := EVENT_EMERGENCY, source_states_mask := 7, target_state := STATE_EMERGENCY,
           guard := some guard_emergency, action := some action_emergency } :
          fsm_transition_t light_memory) (light_fsm st) data w =
        ⟨FSM_RESULT_SUCCESS, light_fsm STATE_EMERGENCY,
          store w light_ctx_addr
            { w light_ctx_addr with
              emergency_count := (w light_ctx_addr).emergency_count + 1 },
          [callback_call.guard 3 (light_fsm st) data,
            callback_call.action 3 (light_fsm STATE_EMERGENCY) data]⟩ := by
      intro st
      simp only [fsm_fire, hg]
      rfl
    rcases hcases with rfl | rfl | rfl
    all_goals
      refine ⟨_, Eq.trans rfl (congrArg Except.ok (hfire _)), fun _ => ?_, fun hge => ?_⟩
    all_goals first
      | exact absurd hge hc
      | exact ⟨rfl, rfl, by simp [store]⟩

/-- C24 (traffic-light emergency limit), at the failing input: the program of
the example, from its initial memory in Red, given Emergency and Reset three
times and then Emergency a fourth time.  The first three Emergency events
succeed and leave `emergency_count` at 1, 2, 3; the fourth, made with
`emergency_count = 3`, returns `FSM_RESULT_GUARD_DENIED` and leaves the state
(Red) and the count (3) as they were: the guard denies from 3 on, not only
above 3. -/
theorem fourth_emergency_denied :
    ∃ steps, fsm_run 64 (rom 64) (light_fsm STATE_RED) main_memory
        [(EVENT_EMERGENCY, none), (EVENT_RESET, none), (EVENT_EMERGENCY, none),
          (EVENT_RESET, none), (EVENT_EMERGENCY, none), (EVENT_RESET, none),
          (EVENT_EMERGENCY, none)] = .ok steps ∧
      steps.map (fun st => (st.out.result, st.out.self.current_state,
          (st.out.world light_ctx_addr).emergency_count)) =
        [(FSM_RESULT_SUCCESS, STATE_EMERGENCY, 1), (FSM_RESULT_SUCCESS, STATE_RED, 1),
          (FSM_RESULT_SUCCESS, STATE_EMERGENCY, 2), (FSM_RESULT_SUCCESS, STATE_RED, 2),
          (FSM_RESULT_SUCCESS, STATE_EMERGENCY, 3), (FSM_RESULT_SUCCESS, STATE_RED, 3),
          (FSM_RESULT_GUARD_DENIED, STATE_RED, 3)] :=
  ⟨_, rfl, rfl⟩

end traffic_light

/-! ## Concatenation of tables -/

theorem with_table_with_table (m : fsm_t) (t1 t2 : Option Nat) (c1 c2 : Nat) :
    with_table (with_table m t1 c1) t2 c2 = with_table m t2 c2 := rfl

theorem with_table_self (m : fsm_t) (t1 : Option Nat) (c1 : Nat) :
    with_table (with_table m t1 c1) m.transition_rules m.transition_count = m := rfl

/-- The commit and the action of a rule that ignores the table, seen from
another table. -/
theorem fsm_commit_retable {W : Type} (k shift : Nat) (r : fsm_transition_t W) (m : fsm_t)
    (d : Option Nat) (w : W) (calls : List callback_call) (tr : Option Nat) (c : Nat)
    (hig : rule_ignores_table r) :
    fsm_commit (k + shift) r (with_table m tr c) d w
        (calls.map (callback_call.retable shift tr c)) =
      (fsm_commit k r m d w calls).retable shift tr c := by
  unfold fsm_commit
  cases ha : r.action with
  | none => rfl
  | some a =>
    have h := hig.2 a ha { m with current_state := r.target_state } d w tr c
    have hm : ({ with_table m tr c with current_state := r.target_state } : fsm_t) =
        with_table { m with current_state := r.target_state } tr c := rfl
    simp only [hm, h, outcome.retable, List.map_append, List.map_cons, List.map_nil,
      callback_call.retable]

/-- The body run for a selected rule that ignores the table, seen from another
table. -/
theorem fsm_fire_retable {W : Type} (k shift : Nat) (r : fsm_transition_t W) (m : fsm_t)
    (d : Option Nat) (w : W) (tr : Option Nat) (c : Nat) (hig : rule_ignores_table r) :
    fsm_fire (k + shift) r (with_table m tr c) d w =
      (fsm_fire k r m d w).retable shift tr c := by
  unfold fsm_fire
  cases hg : r.guard with
  | none => exact fsm_commit_retable k shift r m d w [] tr c hig
  | some g =>
    have h := hig.1 g hg m d w tr c
    simp only [h]
    by_cases hz : (g m d w).1 = 0
    · simp only [hz, ne_eq, not_true_eq_false, if_false]
      exact fsm_commit_retable k shift r (g m d w).2.1 d (g m d w).2.2
        [callback_call.guard k m d] tr c hig
    · simp only [ne_eq, hz, not_false_eq_true, if_true]
      rfl

theorem first_match_append_left {W : Type} (A B : List (fsm_transition_t W))
    (event state i : Nat) (r : fsm_transition_t W) (h : first_match A event state i r) :
    first_match (A ++ B) event state i r := by
  obtain ⟨hi, hm, hbefore⟩ := h
  have hlt : i < A.length := (List.getElem?_eq_some_iff.1 hi).1
  refine ⟨?_, hm, fun j r1 hj hj1 => ?_⟩
  · rw [List.getElem?_append_left hlt]
    exact hi
  · rw [List.getElem?_append_left (by omega)] at hj1
    exact hbefore j r1 hj hj1

theorem first_match_append_right {W : Type} (A B : List (fsm_transition_t W))
    (event state k : Nat) (r : fsm_transition_t W) (hno : no_match A event state)
    (h : first_match B event state k r) :
    first_match (A ++ B) event state (A.length + k) r := by
  obtain ⟨hk, hm, hbefore⟩ := h
  refine ⟨?_, hm, fun j r1 hj hj1 => ?_⟩
  · rw [List.getElem?_append_right (by omega)]
    simpa using hk
  · by_cases hjA : j < A.length
    · rw [List.getElem?_append_left hjA] at hj1
      exact hno r1 (List.getElem?_mem hj1)
    · rw [List.getElem?_append_right (by omega)] at hj1
      exact hbefore (j - A.length) r1 (by omega) hj1

theorem no_match_append {W : Type} (A B : List (fsm_transition_t W)) (event state : Nat)
    (hA : no_match A event state) (hB : no_match B event state) :
    no_match (A ++ B) event state := by
  intro r hr
  rcases List.mem_append.1 hr with h | h
  · exact hA r h
  · exact hB r h

/-- A machine over a table held at an address reads it and has it as its table. -/
theorem holds_table_readable {W : Type} (rom : Nat → List (fsm_transition_t W)) (p : Nat)
    (rules : List (fsm_transition_t W)) (m : fsm_t) (h : holds_table rom p rules) :
    table_readable rom (with_table m (some p) rules.length) ∧
      fsm_table rom (with_table m (some p) rules.length) = rules := by
  unfold holds_table at h
  refine ⟨⟨p, rfl, ?_⟩, h⟩
  have hlen := congrArg List.length h
  rw [List.length_take] at hlen
  show rules.length ≤ (rom p).length
  omega

theorem sample_rules_ignore_table :
    ∀ r ∈ [sample_rule0] ++ [sample_rule1, sample_rule2], rule_ignores_table r := by
  intro r hr
  simp only [List.cons_append, List.nil_append, List.mem_cons, List.mem_singleton,
    List.not_mem_nil, or_false] at hr
  rcases hr with rfl | rfl | rfl <;> constructor <;> intro f hf m d w tr c <;>
    simp [sample_rule0, sample_rule1, sample_rule2] at hf <;> subst hf <;> rfl

theorem sample_no_match_rule0 : no_match [sample_rule0] 1 (sample_fsm 1).current_state := by
  intro r hr
  simp only [List.mem_singleton] at hr
  subst hr
  decide

/-- C21 as stated fails: a guard is handed the machine and can read its table
fields.  With `sample_guard_count` (which returns `transition_count - 1`) on
the first rule, the rule matches event 1 in state 0; against the one-rule table
`A` the call returns `FSM_RESULT_SUCCESS` and moves to state 1, against
`A ++ B` (the same rule followed by `sample_rule2`) it returns
`FSM_RESULT_GUARD_DENIED` and stays in state 0. -/
theorem table_concatenation_fails_for_table_reading_guard :
    fsm_table sample_count_rom (sample_count_fsm 1) = [sample_rule_count] ∧
    fsm_table sample_count_rom (sample_count_fsm 2) = [sample_rule_count] ++ [sample_rule2] ∧
    rule_matches sample_rule_count 1 (sample_count_fsm 1).current_state ∧
    ∃ oA oAB,
      fsm_process_event 64 sample_count_rom (sample_count_fsm 1) 1 none 0 = .ok oA ∧
      fsm_process_event 64 sample_count_rom (sample_count_fsm 2) 1 none 0 = .ok oAB ∧
      oA.result = FSM_RESULT_SUCCESS ∧ oA.self.current_state = 1 ∧
      oAB.result = FSM_RESULT_GUARD_DENIED ∧ oAB.self.current_state = 0 :=
  ⟨rfl, rfl, ⟨rfl, rfl⟩, _, _, rfl, rfl, rfl, rfl, rfl, rfl⟩

/-- C21 (table concatenation law), amended: for all rule lists `A` and `B`
whose callbacks neither read nor write the table fields of the machine they are
handed, every machine state below the width of `unsigned long` and every event,
processing the event against `A ++ B` returns, and gives the same result, next
state, user context, memory and callback invocations (the machine handed over
differing only in its table fields, the rule index moved by the length of `A`
for a rule of `B`) as processing it against `A` alone when some rule of `A`
matches, and as processing it against `B` alone when no rule of `A` matches;
and when no rule of `B` matches, the same as against `A` alone. -/
theorem table_concatenation {W : Type} (ulong_bits : Nat)
    (rom : Nat → List (fsm_transition_t W)) (A B : List (fsm_transition_t W))
    (p pA pB : Nat) (m : fsm_t) (event : Nat) (data : Option Nat) (w : W)
    (hAB : holds_table rom p (A ++ B)) (hA : holds_table rom pA A)
    (hB : holds_table rom pB B) (hlt : m.current_state < ulong_bits)
    (hig : ∀ r ∈ A ++ B, rule_ignores_table r) :
    (¬ no_match A event m.current_state →
      ∃ o, fsm_process_event ulong_bits rom (with_table m (some pA) A.length) event data w =
          .ok o ∧
        fsm_process_event ulong_bits rom (with_table m (some p) (A ++ B).length) event data w =
          .ok (o.retable 0 (some p) (A ++ B).length)) ∧
    (no_match A event m.current_state →
      ∃ o, fsm_process_event ulong_bits rom (with_table m (some pB) B.length) event data w =
          .ok o ∧
        fsm_process_event ulong_bits rom (with_table m (some p) (A ++ B).length) event data w =
          .ok (o.retable A.length (some p) (A ++ B).length)) ∧
    (no_match B event m.current_state →
      ∃ o, fsm_process_event ulong_bits rom (with_table m (some pA) A.length) event data w =
          .ok o ∧
        fsm_process_event ulong_bits rom (with_table m (some p) (A ++ B).length) event data w =
          .ok (o.retable 0 (some p) (A ++ B).length)) ∧
    (∀ (o : outcome W) (shift : Nat),
      (o.retable shift (some p) (A ++ B).length).result = o.result ∧
      (o.retable shift (some p) (A ++ B).length).self.current_state = o.self.current_state ∧
      (o.retable shift (some p) (A ++ B).length).self.userdata = o.self.userdata ∧
      (o.retable shift (some p) (A ++ B).length).world = o.world ∧
      (o.retable shift (some p) (A ++ B).length).calls =
        o.calls.map (callback_call.retable shift (some p) (A ++ B).length)) := by
  obtain ⟨hrAB, htAB⟩ := holds_table_readable rom p (A ++ B) m hAB
  obtain ⟨hrA, htA⟩ := holds_table_readable rom pA A m hA
  obtain ⟨hrB, htB⟩ := holds_table_readable rom pB B m hB
  have hst : ∀ (t : Option Nat) (c : Nat), (with_table m t c).current_state < ulong_bits :=
    fun _ _ => hlt
  have part1 : ¬ no_match A event m.current_state →
      ∃ o, fsm_process_event ulong_bits rom (with_table m (some pA) A.length) event data w =
          .ok o ∧
        fsm_process_event ulong_bits rom (with_table m (some p) (A ++ B).length) event data w =
          .ok (o.retable 0 (some p) (A ++ B).length) := by
    intro hno
    obtain ⟨i, r, hf⟩ := exists_first_match A event m.current_state hno
    have h1 := fsm_process_event_found ulong_bits rom (with_table m (some pA) A.length)
      event data w i r (by rw [htA]; exact hf) (hst _ _)
    have h2 := fsm_process_event_found ulong_bits rom (with_table m (some p) (A ++ B).length)
      event data w i r (by rw [htAB]; exact first_match_append_left A B _ _ i r hf) (hst _ _)
    refine ⟨_, h1, ?_⟩
    rw [h2]
    exact congrArg Except.ok (fsm_fire_retable i 0 r (with_table m (some pA) A.length) data w
      (some p) (A ++ B).length
      (hig r (List.mem_append_left B (List.getElem?_mem hf.1))))
  have none_AB : no_match A event m.current_state → no_match B event m.current_state →
      fsm_process_event ulong_bits rom (with_table m (some p) (A ++ B).length) event data w =
        .ok ⟨FSM_RESULT_NO_TRANSITION_FOR_STATE, with_table m (some p) (A ++ B).length, w,
          []⟩ := fun hnA hnB =>
    fsm_process_event_none ulong_bits rom (with_table m (some p) (A ++ B).length) event data w
      hrAB (hst _ _) (by rw [htAB]; exact no_match_append A B _ _ hnA hnB)
  refine ⟨part1, fun hnA => ?_, fun hnB => ?_, fun o shift => ⟨rfl, rfl, rfl, rfl, rfl⟩⟩
  · by_cases hnB : no_match B event m.current_state
    · have h1 := fsm_process_event_none ulong_bits rom (with_table m (some pB) B.length)
        event data w hrB (hst _ _) (by rw [htB]; exact hnB)
      refine ⟨_, h1, ?_⟩
      rw [none_AB hnA hnB]
      rfl
    · obtain ⟨k, r, hf⟩ := exists_first_match B event m.current_state hnB
      have h1 := fsm_process_event_found ulong_bits rom (with_table m (some pB) B.length)
        event data w k r (by rw [htB]; exact hf) (hst _ _)
      have h2 := fsm_process_event_found ulong_bits rom
        (with_table m (some p) (A ++ B).length) event data w (A.length + k) r
        (by rw [htAB]; exact first_match_append_right A B _ _ k r hnA hf) (hst _ _)
      refine ⟨_, h1, ?_⟩
      rw [h2, Nat.add_comm A.length k]
      exact congrArg Except.ok (fsm_fire_retable k A.length r
        (with_table m (some pB) B.length) data w (some p) (A ++ B).length
        (hig r (List.mem_append_right A (List.getElem?_mem hf.1))))
  · by_cases hnA : no_match A event m.current_state
    · have h1 := fsm_process_event_none ulong_bits rom (with_table m (some pA) A.length)
        event data w hrA (hst _ _) (by rw [htA]; exact hnA)
      refine ⟨_, h1, ?_⟩
      rw [none_AB hnA hnB]
      rfl
    · exact part1 hnA

/-- Witness of C21 on the sample table split after its first rule, in state 1
with event 1: no rule of `A` matches, the first rule of `B` (index 1 of
`A ++ B`) fires with `FSM_RESULT_SUCCESS` and moves to state 2, against `B`
alone and against `A ++ B`. -/
theorem table_concatenation_witness :
    holds_table sample_split_rom 7 ([sample_rule0] ++ [sample_rule1, sample_rule2]) ∧
    holds_table sample_split_rom 7 [sample_rule0] ∧
    holds_table sample_split_rom 8 [sample_rule1, sample_rule2] ∧
    (sample_fsm 1).current_state < 64 ∧
    (∀ r ∈ [sample_rule0] ++ [sample_rule1, sample_rule2], rule_ignores_table r) ∧
    no_match [sample_rule0] 1 (sample_fsm 1).current_state ∧
    ∃ o, fsm_process_event 64 sample_split_rom (with_table (sample_fsm 1) (some 8) 2) 1 none 0 =
        .ok o ∧
      fsm_process_event 64 sample_split_rom (with_table (sample_fsm 1) (some 7) 3) 1 none 0 =
        .ok (o.retable 1 (some 7) 3) ∧
      o.result = FSM_RESULT_SUCCESS ∧ o.self.current_state = 2 ∧
      o.calls = [callback_call.guard 0 (with_table (sample_fsm 1) (some 8) 2) none] := by
  have hlt : (sample_fsm 1).current_state < 64 := by decide
  have h := table_concatenation 64 sample_split_rom [sample_rule0]
    [sample_rule1, sample_rule2] 7 7 8 (sample_fsm 1) 1 none 0 rfl rfl rfl hlt
    sample_rules_ignore_table
  obtain ⟨o, h1, h2⟩ := h.2.1 sample_no_match_rule0
  have hev : fsm_process_event 64 sample_split_rom (with_table (sample_fsm 1) (some 8) 2)
      1 none 0 =
      .ok (fsm_fire 0 sample_rule1 (with_table (sample_fsm 1) (some 8) 2) none 0) := rfl
  have ho : o = fsm_fire 0 sample_rule1 (with_table (sample_fsm 1) (some 8) 2) none 0 :=
    Except.ok.inj (h1.symm.trans hev)
  subst ho
  exact ⟨rfl, rfl, rfl, hlt, sample_rules_ignore_table, sample_no_match_rule0, _, h1, h2,
    rfl, rfl, rfl⟩

end FSM
